import Mathlib

/-!
# chickadee: the container scan orchestrator (`services/docker/docker.go`)

A shallow embedding of `DockerSBOMService` and of the helpers it is built from,
followed by theorems about the run `GenerateSBOMAndScanForCVEs`.  The run starts one
goroutine per listing line; it is embedded twice, once under every interleaving of
its goroutines (`runUnder`) and once under the interleaving that runs them one
after the other (`GenerateSBOMAndScanForCVEs`).

Modelling conventions.

* Go strings are Lean `String`s; the two functions of package `strings` that the
  service uses (`TrimSpace`, `Split`) are defined on the character lists.
* A Go `map[string]V` is a `GoMap V`: a list of key/value pairs in which a key is
  bound at most once.  A nil map, a nil slice and a nil error are `none`.
* The injected `CommandExecutor`, the `encoding/json` decoder and the wall clock
  are the fields of `Env`.  Every executor call is recorded in `World.calls`, and
  `World.ticks` counts the readings of the clock.
* A Go run-time panic (index out of range) is the constructor `Ret.panic`.
* Console output (`fmt.Printf`) is not recorded.
* The goroutines of a run are followed statement by statement: `step` is one
  statement of one goroutine, one turn of the dispatching loop, or the firing of the
  cancellation signal, and `exec` follows an interleaving, a list of such steps.
  The semaphore channel is a counter that a send raises while it is below
  `maxConcurrency` and a receive lowers; `ctx` is the flag `ctxDone`, which the
  executor is told at each call; `wg.Wait()` lets the run return once every line is
  dispatched and every goroutine has finished.
* The two result maps are shared by the goroutines without a lock.  An assignment to
  a Go map is not atomic, and the Go runtime aborts the process with
  `fatal error: concurrent map writes` when an assignment to a map begins while
  another assignment to the same map is under way; an assignment therefore takes two
  steps, and the abort, like an unrecovered panic of a goroutine, is the flag
  `crashed`.
* The functions `processLines` and `GenerateSBOMAndScanForCVEs` are the loop and the
  method under one particular interleaving, `sequentialSchedule`: each goroutine
  runs to its end before the loop starts the next.  There no goroutine waits for a
  permit, no two map assignments overlap, and the `context.Context` argument, which
  the service only hands on to the executor, is left out.  The theorem
  `run_eq_runUnder_listingSchedule` relates the two embeddings.  What depends on
  the interleaving (whether a run with two writing goroutines returns at all, the
  order of the calls in the trace, which of two lines with the same ID wins) is
  stated over `runUnder` and `exec`.
-/

namespace Chickadee

/-! ## Package `strings` -/

/-- Code points for which Go's `unicode.IsSpace` holds. -/
def isSpace (c : Char) : Bool :=
  let n := c.toNat
  n == 0x09 || n == 0x0A || n == 0x0B || n == 0x0C || n == 0x0D || n == 0x20 ||
  n == 0x85 || n == 0xA0 || n == 0x1680 || (0x2000 ≤ n && n ≤ 0x200A) ||
  n == 0x2028 || n == 0x2029 || n == 0x202F || n == 0x205F || n == 0x3000

/-- Character-list form of `strings.TrimSpace`: drop leading and trailing white space. -/
def trimSpaceChars (s : List Char) : List Char :=
  ((s.dropWhile isSpace).reverse.dropWhile isSpace).reverse

/-- Go's `strings.TrimSpace`. -/
def TrimSpace (s : String) : String :=
  String.mk (trimSpaceChars s.data)

/-- Scanner of `strings.Split` for a non-empty separator.  `skip` counts the
characters of a separator occurrence still to be passed over, `cur` holds the
current piece in reverse. -/
def splitChars (sep : List Char) : List Char → Nat → List Char → List (List Char)
  | [], _, cur => [cur.reverse]
  | _ :: cs, skip + 1, cur => splitChars sep cs skip cur
  | c :: cs, 0, cur =>
    if sep.isPrefixOf (c :: cs) then
      cur.reverse :: splitChars sep cs (sep.length - 1) []
    else
      splitChars sep cs 0 (c :: cur)

/-- Go's `strings.Split`: the pieces of `s` between the non-overlapping
occurrences of `sep`, taken from the left; an empty `sep` splits after every
character. -/
def Split (s sep : String) : List String :=
  if sep.data = [] then s.data.map (fun c => String.mk [c])
  else (splitChars sep.data s.data 0 []).map String.mk

/-! ## Go values -/

/-- Outcome of a Go call that may panic instead of returning. -/
inductive Ret (α : Type) where
  | done (a : α)
  | panic (msg : String)
  deriving DecidableEq, Repr

/-- Go's slice indexing `xs[i]`, which panics when `i` is out of range. -/
def index {α : Type} (xs : List α) (i : Nat) : Ret α :=
  match xs.get? i with
  | some x => .done x
  | none => .panic "index out of range"

/-- A Go `map[string]V`. -/
abbrev GoMap (V : Type) := List (String × V)

namespace GoMap

variable {V : Type}

/-- The assignment `m[k] = v`. -/
def set : GoMap V → String → V → GoMap V
  | [], k, v => [(k, v)]
  | (k', v') :: m, k, v => if k' = k then (k, v) :: m else (k', v') :: set m k v

/-- The lookup `v, ok := m[k]`. -/
def get? : GoMap V → String → Option V
  | [], _ => none
  | (k', v') :: m, k => if k' = k then some v' else get? m k

/-- The builtin `len(m)`. -/
def len (m : GoMap V) : Nat := m.length

/-- The keys bound in `m`. -/
def keys (m : GoMap V) : List String := m.map Prod.fst

end GoMap

/-! ## Data model -/

/-- The struct `tableprinter.CVEInfo`; `Date` is the clock reading taken by `time.Now()`. -/
structure CVEInfo where
  CVEName : String
  Date : Nat
  Severity : String
  CurrentVersion : String
  ResolvedVersion : String
  Path : String
  deriving DecidableEq, Repr

/-- Element of `artifact.locations` in the scanner report. -/
structure Location where
  Path : String
  deriving DecidableEq, Repr

/-- Field `vulnerability` of a match. -/
structure Vulnerability where
  ID : String
  Severity : String
  deriving DecidableEq, Repr

/-- Field `artifact` of a match. -/
structure Artifact where
  Version : String
  Locations : List Location
  deriving DecidableEq, Repr

/-- Field `fix` of a match. -/
structure Fix where
  State : String
  Versions : List String
  deriving DecidableEq, Repr

/-- Element of `matches` in the scanner report. -/
structure Match where
  Vulnerability : Vulnerability
  Artifact : Artifact
  Fix : Fix
  deriving DecidableEq, Repr

/-- The anonymous struct `grypeOutput` that `parseCVEs` decodes the report into. -/
structure GrypeOutput where
  Matches : List Match
  deriving DecidableEq, Repr

/-- The capabilities the service is given: the `CommandExecutor` (output bytes and
error), `json.Unmarshal` into `GrypeOutput`, and the clock behind `time.Now()`
(the value of its `k`-th reading). -/
structure Env where
  ExecCommand : String → List String → String × Option String
  Unmarshal : String → Except String GrypeOutput
  Now : Nat → Nat

/-- Observable trace of a run: the executor calls issued so far, oldest first, and
the number of clock readings taken. -/
structure World where
  calls : List (String × List String)
  ticks : Nat
  deriving DecidableEq, Repr

/-- The call `ds.executor.ExecCommand(ctx, command, args...)`, recorded in the trace. -/
def execCommand (env : Env) (w : World) (command : String) (args : List String) :
    (String × Option String) × World :=
  (env.ExecCommand command args, { w with calls := w.calls ++ [(command, args)] })

/-- The builtin `time.Now()`. -/
def timeNow (env : Env) (w : World) : Nat × World :=
  (env.Now w.ticks, { w with ticks := w.ticks + 1 })

/-! ## `DockerSBOMService` -/

/-- Worker pool limit. -/
def maxConcurrency : Nat := 5

/-- Format argument of the listing command, `{{.ID}} {{.Image}}`. -/
def psFormat : String := "\x7b\x7b.ID\x7d\x7d \x7b\x7b.Image\x7d\x7d"

/-- The method `ListRunningContainers`: returns the listing lines and the error. -/
def ListRunningContainers (env : Env) (w : World) :
    (Option (List String) × Option String) × World :=
  match execCommand env w "docker" ["ps", "--format", psFormat] with
  | ((_, some err), w1) => ((none, some ("failed to list containers: " ++ err)), w1)
  | ((output, none), w1) =>
    let lines := Split (TrimSpace output) "\n"
    if lines.length = 0 then ((none, some "no running containers found"), w1)
    else ((some lines, none), w1)

/-- The method `GenerateSBOM`: returns the SBOM text and the error. -/
def GenerateSBOM (env : Env) (w : World) (imageName : String) :
    (String × Option String) × World :=
  match execCommand env w "syft" [imageName, "-o", "json"] with
  | ((_, some err), w1) => (("", some ("failed to generate SBOM: " ++ err)), w1)
  | ((output, none), w1) => ((output, none), w1)

/-- The method `ScanForCVEs`: returns the report text and the error. -/
def ScanForCVEs (env : Env) (w : World) (imageName : String) :
    (String × Option String) × World :=
  match execCommand env w "grype" [imageName, "-o", "json"] with
  | ((_, some err), w1) => (("", some ("failed to scan for CVEs: " ++ err)), w1)
  | ((output, none), w1) => ((output, none), w1)

/-- Body of the loop of `parseCVEs` over `grypeOutput.Matches`: builds one
`CVEInfo` per match and appends it to the list. -/
def parseMatches (env : Env) : List Match → List CVEInfo → World → Ret (List CVEInfo × World)
  | [], cveList, w => .done (cveList, w)
  | m :: rest, cveList, w =>
    let (date, w1) := timeNow env w
    match index m.Artifact.Locations 0 with
    | .panic msg => .panic msg
    | .done loc =>
      let cve : CVEInfo :=
        { CVEName := m.Vulnerability.ID
          Date := date
          Severity := m.Vulnerability.Severity
          CurrentVersion := m.Artifact.Version
          ResolvedVersion := ""
          Path := loc.Path }
      let cve := if m.Fix.Versions.length > 0 then
          { cve with ResolvedVersion := m.Fix.Versions.headD "" }
        else cve
      parseMatches env rest (cveList ++ [cve]) w1

/-- The function `parseCVEs`: returns the list behind the pointer `cveList` after the call, and
the error. -/
def parseCVEs (env : Env) (w : World) (cveReport : String) (cveList : List CVEInfo) :
    Ret ((List CVEInfo × Option String) × World) :=
  match env.Unmarshal cveReport with
  | .error err => .done ((cveList, some ("failed to parse CVE report: " ++ err)), w)
  | .ok grypeOutput =>
    match parseMatches env grypeOutput.Matches cveList w with
    | .panic msg => .panic msg
    | .done (cveList1, w1) => .done ((cveList1, none), w1)

/-- The state shared by the pipelines of one run. -/
structure RunState where
  sbomResults : GoMap String
  cveResults : GoMap (List CVEInfo)
  world : World
  deriving DecidableEq, Repr

/-- The function `processContainer`: the pipeline of one container. -/
def processContainer (env : Env) (containerID imageName : String) (st : RunState) :
    Ret RunState :=
  match GenerateSBOM env st.world imageName with
  | ((_, some _), w1) => .done { st with world := w1 }
  | ((sbom, none), w1) =>
    let sbomResults := st.sbomResults.set containerID sbom
    match ScanForCVEs env w1 imageName with
    | ((_, some _), w2) =>
      .done { sbomResults := sbomResults, cveResults := st.cveResults, world := w2 }
    | ((cveReport, none), w2) =>
      match parseCVEs env w2 cveReport [] with
      | .panic msg => .panic msg
      | .done ((_, some _), w3) =>
        .done { sbomResults := sbomResults, cveResults := st.cveResults, world := w3 }
      | .done ((cveList, none), w3) =>
        .done { sbomResults := sbomResults,
                cveResults := st.cveResults.set containerID cveList, world := w3 }

/-- The loop of `GenerateSBOMAndScanForCVEs` over the listing lines, when each
goroutine `go processContainer(...)` runs to its end before the loop starts the
next (the interleaving `sequentialSchedule`; see `exec_sequentialSchedule`).  The
other interleavings are those of `exec`. -/
def processLines (env : Env) : List String → RunState → Ret RunState
  | [], st => .done st
  | containerInfo :: rest, st =>
    let containerDetails := Split containerInfo " "
    match index containerDetails 0 with
    | .panic msg => .panic msg
    | .done containerID =>
      match index containerDetails 1 with
      | .panic msg => .panic msg
      | .done imageName =>
        match processContainer env containerID imageName st with
        | .panic msg => .panic msg
        | .done st1 => processLines env rest st1

/-- The three values `GenerateSBOMAndScanForCVEs` returns. -/
structure RunResult where
  sbomResults : Option (GoMap String)
  cveResults : Option (GoMap (List CVEInfo))
  err : Option String
  deriving DecidableEq, Repr

/-- The method `GenerateSBOMAndScanForCVEs` when its goroutines run one after the
other, in listing order: returns the SBOM map, the findings map and the error.
The method under an arbitrary interleaving of its goroutines is `runUnder`, and
`run_eq_runUnder_listingSchedule` shows that this function is `runUnder` at the
sequential schedule. -/
def GenerateSBOMAndScanForCVEs (env : Env) (w : World) : Ret (RunResult × World) :=
  match ListRunningContainers env w with
  | ((_, some err), w1) => .done ({ sbomResults := none, cveResults := none, err := some err }, w1)
  | ((containers, none), w1) =>
    match processLines env (containers.getD [])
        { sbomResults := [], cveResults := [], world := w1 } with
    | .panic msg => .panic msg
    | .done st =>
      .done ({ sbomResults := some st.sbomResults, cveResults := some st.cveResults,
               err := none }, st.world)

/-! ## Vocabulary of the statements -/

/-- A workload unit: what one listing line `ID image` stands for. -/
structure WorkloadUnit where
  ID : String
  ImageRef : String
  deriving DecidableEq, Repr

/-- A token of a listing line: not empty and free of white space. -/
def IsToken (s : String) : Prop :=
  s.data ≠ [] ∧ ∀ c ∈ s.data, isSpace c = false

instance (s : String) : Decidable (IsToken s) := by
  unfold IsToken; infer_instance

/-- The listing line `ID image` of a unit. -/
def WorkloadUnit.line (u : WorkloadUnit) : String :=
  u.ID ++ " " ++ u.ImageRef

/-- A well-formed unit: both tokens of its line are tokens. -/
def WorkloadUnit.WellFormed (u : WorkloadUnit) : Prop :=
  IsToken u.ID ∧ IsToken u.ImageRef

instance (u : WorkloadUnit) : Decidable u.WellFormed := by
  unfold WorkloadUnit.WellFormed; infer_instance

/-- Records separated by newlines, as the listing command prints them. -/
def joinLines : List String → String
  | [] => ""
  | [l] => l
  | l :: ls => l ++ "\n" ++ joinLines ls

/-- The listing command succeeds with `output`. -/
def ListingSucceeds (env : Env) (output : String) : Prop :=
  env.ExecCommand "docker" ["ps", "--format", psFormat] = (output, none)

/-- The listing command fails with error `e`. -/
def ListingFails (env : Env) (e : String) : Prop :=
  (env.ExecCommand "docker" ["ps", "--format", psFormat]).2 = some e

/-- Artifact generation for `image` succeeds with SBOM `sbom`. -/
def GenSucceeds (env : Env) (image sbom : String) : Prop :=
  env.ExecCommand "syft" [image, "-o", "json"] = (sbom, none)

/-- Artifact generation for `image` fails. -/
def GenFails (env : Env) (image : String) : Prop :=
  (env.ExecCommand "syft" [image, "-o", "json"]).2 ≠ none

/-- The vulnerability scan of `image` succeeds with report `report`. -/
def ScanSucceeds (env : Env) (image report : String) : Prop :=
  env.ExecCommand "grype" [image, "-o", "json"] = (report, none)

/-- The vulnerability scan of `image` fails. -/
def ScanFails (env : Env) (image : String) : Prop :=
  (env.ExecCommand "grype" [image, "-o", "json"]).2 ≠ none

instance (env : Env) (output : String) : Decidable (ListingSucceeds env output) := by
  unfold ListingSucceeds; infer_instance

instance (env : Env) (e : String) : Decidable (ListingFails env e) := by
  unfold ListingFails; infer_instance

instance (env : Env) (image sbom : String) : Decidable (GenSucceeds env image sbom) := by
  unfold GenSucceeds; infer_instance

instance (env : Env) (image : String) : Decidable (GenFails env image) := by
  unfold GenFails; infer_instance

instance (env : Env) (image report : String) : Decidable (ScanSucceeds env image report) := by
  unfold ScanSucceeds; infer_instance

instance (env : Env) (image : String) : Decidable (ScanFails env image) := by
  unfold ScanFails; infer_instance

/-- The parser emits the findings `l` for `report` (at some reading of the clock). -/
def ParserEmits (env : Env) (report : String) (l : List CVEInfo) : Prop :=
  ∃ w w1, parseCVEs env w report [] = .done ((l, none), w1)

/-- Parsing `report` succeeds. -/
def ParseSucceeds (env : Env) (report : String) : Prop :=
  ∃ l, ParserEmits env report l

/-- Parsing `report` fails: `parseCVEs` returns an error. -/
def ParseFails (env : Env) (report : String) : Prop :=
  ∃ w l e w1, parseCVEs env w report [] = .done ((l, some e), w1)

/-- Every step of the pipeline of `u` that is reached either succeeds or fails
with an error: the parser, when it is reached, returns. -/
def StepsSucceedOrFail (env : Env) (u : WorkloadUnit) : Prop :=
  ∀ sbom report, GenSucceeds env u.ImageRef sbom → ScanSucceeds env u.ImageRef report →
    ParseSucceeds env report ∨ ParseFails env report

/-- What the specification says the finding `f` extracted from the match `m` is:
identifier, severity and current version verbatim, the path of the first
location, and the first offered fix version or the empty string. -/
def FindingOf (m : Match) (f : CVEInfo) : Prop :=
  f.CVEName = m.Vulnerability.ID ∧
  f.Severity = m.Vulnerability.Severity ∧
  f.CurrentVersion = m.Artifact.Version ∧
  (∃ loc, m.Artifact.Locations.head? = some loc ∧ f.Path = loc.Path) ∧
  f.ResolvedVersion = (match m.Fix.Versions with
    | [] => ""
    | v :: _ => v)

/-- Pieces that are free of the separator, joined by it. -/
def joinChars (c : Char) : List (List Char) → List Char
  | [] => []
  | [p] => p
  | p :: ps => p ++ c :: joinChars c ps

/-- The trace after the listing command has been called. -/
def afterList (w : World) : World :=
  { calls := w.calls ++ [("docker", ["ps", "--format", psFormat])], ticks := w.ticks }

/-- The trace after the artifact generator has been called for `image`. -/
def afterGen (w : World) (image : String) : World :=
  { calls := w.calls ++ [("syft", [image, "-o", "json"])], ticks := w.ticks }

/-- The trace after the generator and the scanner have been called for `image`. -/
def afterScan (w : World) (image : String) : World :=
  { calls := w.calls ++ [("syft", [image, "-o", "json"]), ("grype", [image, "-o", "json"])],
    ticks := w.ticks }

/-- The unit a listing line is processed as: its first two tokens. -/
def unitOfLine (containerInfo : String) : WorkloadUnit :=
  { ID := (Split containerInfo " ").getD 0 "", ImageRef := (Split containerInfo " ").getD 1 "" }

/-- The pipelines of the given units, one after the other. -/
def processUnits (env : Env) : List WorkloadUnit → RunState → Ret RunState
  | [], st => .done st
  | u :: rest, st =>
    match processContainer env u.ID u.ImageRef st with
    | .panic msg => .panic msg
    | .done st1 => processUnits env rest st1

/-- The string begins with a white-space character. -/
def StartsWithSpace (s : String) : Bool :=
  match s.data.head? with
  | some c => isSpace c
  | none => false

/-- The string ends with a white-space character. -/
def EndsWithSpace (s : String) : Bool :=
  match s.data.getLast? with
  | some c => isSpace c
  | none => false

/-- The findings with their timestamps blanked. -/
def eraseDates (l : List CVEInfo) : List CVEInfo :=
  l.map (fun c => { c with Date := 0 })

/-- Two units that share the ID `1`. -/
def sameIDUnits : List WorkloadUnit :=
  [{ ID := "1", ImageRef := "nginx" }, { ID := "1", ImageRef := "redis" }]

/-! ## The test double and sample inputs -/

/-- Go's `strings.Join`. -/
def Join : List String → String → String
  | [], _ => ""
  | [a], _ => a
  | a :: rest, sep => a ++ sep ++ Join rest sep

/-- The `MockCommandExecutor` of the unit tests: canned outputs and commands that fail. -/
structure MockCommandExecutor where
  CommandOutputs : GoMap String
  FailCommands : GoMap Bool

/-- The method `MockCommandExecutor.ExecCommand`. -/
def MockCommandExecutor.ExecCommand (m : MockCommandExecutor) (command : String)
    (args : List String) : String × Option String :=
  let fullCommand := command ++ " " ++ Join args " "
  if (m.FailCommands.get? fullCommand).getD false then
    ("", some ("command failed: " ++ fullCommand))
  else
    match m.CommandOutputs.get? fullCommand with
    | some output => (output, none)
    | none => ("", some ("unknown command: " ++ fullCommand))

/-- The listing command line as the mock sees it. -/
def psCommand : String := "docker ps --format " ++ psFormat

/-- SBOM text `{"sbom": "nginx-sbom"}` of the tests. -/
def nginxSBOM : String := "\x7b\"sbom\": \"nginx-sbom\"\x7d"

/-- SBOM text `{"sbom": "redis-sbom"}` of the tests. -/
def redisSBOM : String := "\x7b\"sbom\": \"redis-sbom\"\x7d"

/-- Scanner output for nginx in the tests: a JSON object with the single key
`vulnerabilities`. -/
def nginxReport : String :=
  "\x7b\"vulnerabilities\": [\x7b\"id\": \"CVE-2021-12345\", \"package\": \"libxyz\", " ++
  "\"severity\": \"Critical\"\x7d]\x7d"

/-- Scanner output for redis in the tests. -/
def redisReport : String :=
  "\x7b\"vulnerabilities\": [\x7b\"id\": \"CVE-2021-67890\", \"package\": \"libabc\", " ++
  "\"severity\": \"High\"\x7d]\x7d"

/-- A scanner report with one match that has no location:
`{"matches":[{"vulnerability":{"id":"CVE-1","severity":"High"},"artifact":{"version":"1.0","locations":[]}}]}`. -/
def noLocationReport : String :=
  "\x7b\"matches\":[\x7b\"vulnerability\":\x7b\"id\":\"CVE-1\",\"severity\":\"High\"\x7d," ++
  "\"artifact\":\x7b\"version\":\"1.0\",\"locations\":[]\x7d\x7d]\x7d"

/-- What `json.Unmarshal` makes of `noLocationReport`. -/
def noLocationOutput : GrypeOutput :=
  { Matches := [{ Vulnerability := { ID := "CVE-1", Severity := "High" },
                  Artifact := { Version := "1.0", Locations := [] },
                  Fix := { State := "", Versions := [] } }] }

/-- A scanner report with two matches, the first with a fix and two locations:
`{"matches":[{"vulnerability":{"id":"CVE-1","severity":"High"},"artifact":{"version":"1.0","locations":[{"path":"/a"},{"path":"/b"}]},"fix":{"state":"fixed","versions":["1.1","1.2"]}},{"vulnerability":{"id":"CVE-2","severity":"Low"},"artifact":{"version":"2.0","locations":[{"path":"/c"}]},"fix":{"state":"not-fixed","versions":[]}}]}`. -/
def twoMatchReport : String :=
  "\x7b\"matches\":[\x7b\"vulnerability\":\x7b\"id\":\"CVE-1\",\"severity\":\"High\"\x7d," ++
  "\"artifact\":\x7b\"version\":\"1.0\",\"locations\":[\x7b\"path\":\"/a\"\x7d," ++
  "\x7b\"path\":\"/b\"\x7d]\x7d,\"fix\":\x7b\"state\":\"fixed\",\"versions\":[\"1.1\",\"1.2\"]\x7d\x7d," ++
  "\x7b\"vulnerability\":\x7b\"id\":\"CVE-2\",\"severity\":\"Low\"\x7d," ++
  "\"artifact\":\x7b\"version\":\"2.0\",\"locations\":[\x7b\"path\":\"/c\"\x7d]\x7d," ++
  "\"fix\":\x7b\"state\":\"not-fixed\",\"versions\":[]\x7d\x7d]\x7d"

/-- What `json.Unmarshal` makes of `twoMatchReport`. -/
def twoMatchOutput : GrypeOutput :=
  { Matches := [{ Vulnerability := { ID := "CVE-1", Severity := "High" },
                  Artifact := { Version := "1.0", Locations := [{ Path := "/a" }, { Path := "/b" }] },
                  Fix := { State := "fixed", Versions := ["1.1", "1.2"] } },
                { Vulnerability := { ID := "CVE-2", Severity := "Low" },
                  Artifact := { Version := "2.0", Locations := [{ Path := "/c" }] },
                  Fix := { State := "not-fixed", Versions := [] } }] }

/-- The decoder on the sample reports: the test reports carry no `matches` key and
decode to no match; any other text is taken not to be JSON. -/
def sampleUnmarshal (report : String) : Except String GrypeOutput :=
  if report = nginxReport ∨ report = redisReport then .ok { Matches := [] }
  else if report = noLocationReport then .ok noLocationOutput
  else if report = twoMatchReport then .ok twoMatchOutput
  else .error "invalid character"

/-- An environment around a mock executor. -/
def mockEnv (m : MockCommandExecutor) : Env :=
  { ExecCommand := m.ExecCommand, Unmarshal := sampleUnmarshal, Now := fun k => 1000 + k }

/-- The two units of the tests. -/
def testUnits : List WorkloadUnit :=
  [{ ID := "12345", ImageRef := "nginx" }, { ID := "67890", ImageRef := "redis" }]

/-- The world before a run. -/
def World.start : World := { calls := [], ticks := 0 }

/-- Executor of `TestGenerateSBOMAndScanForCVEs_Success`. -/
def successExecutor : MockCommandExecutor :=
  { CommandOutputs := [(psCommand, "12345 nginx\n67890 redis"),
                       ("syft nginx -o json", nginxSBOM), ("syft redis -o json", redisSBOM),
                       ("grype nginx -o json", nginxReport), ("grype redis -o json", redisReport)]
    FailCommands := [] }

/-- Executor of `TestGenerateSBOMAndScanForCVEs_FailSBOMGeneration`. -/
def failSBOMExecutor : MockCommandExecutor :=
  { CommandOutputs := [(psCommand, "12345 nginx\n67890 redis"),
                       ("grype nginx -o json", nginxReport), ("grype redis -o json", redisReport)]
    FailCommands := [("syft nginx -o json", true)] }

/-- The executor of `TestGenerateSBOMAndScanForCVEs_FailSBOMGeneration` with the
generator output for redis added, so that generation fails for nginx only. -/
def failNginxSBOMExecutor : MockCommandExecutor :=
  { CommandOutputs := [(psCommand, "12345 nginx\n67890 redis"),
                       ("syft redis -o json", redisSBOM),
                       ("grype nginx -o json", nginxReport), ("grype redis -o json", redisReport)]
    FailCommands := [("syft nginx -o json", true)] }

/-- Executor of `TestGenerateSBOMAndScanForCVEs_FailCVEScan`. -/
def failScanExecutor : MockCommandExecutor :=
  { CommandOutputs := [(psCommand, "12345 nginx\n67890 redis"),
                       ("syft nginx -o json", nginxSBOM), ("syft redis -o json", redisSBOM)]
    FailCommands := [("grype nginx -o json", true)] }

/-- One unit whose scanner report holds a match without location. -/
def noLocationExecutor : MockCommandExecutor :=
  { CommandOutputs := [(psCommand, "12345 nginx"), ("syft nginx -o json", nginxSBOM),
                       ("grype nginx -o json", noLocationReport)]
    FailCommands := [] }

/-- One listing line of three tokens. -/
def threeTokenExecutor : MockCommandExecutor :=
  { CommandOutputs := [(psCommand, "12345 nginx extra"), ("syft nginx -o json", nginxSBOM),
                       ("grype nginx -o json", nginxReport)]
    FailCommands := [] }

/-- The listing command succeeds and prints nothing: no container is running. -/
def emptyListExecutor : MockCommandExecutor :=
  { CommandOutputs := [(psCommand, "")], FailCommands := [] }

/-- The executor of `TestGenerateSBOMAndScanForCVEs_FailCVEScan` with the scanner
output for redis added, so that the scan fails for nginx only. -/
def failNginxScanExecutor : MockCommandExecutor :=
  { CommandOutputs := [(psCommand, "12345 nginx\n67890 redis"),
                       ("syft nginx -o json", nginxSBOM), ("syft redis -o json", redisSBOM),
                       ("grype redis -o json", redisReport)]
    FailCommands := [("grype nginx -o json", true)] }

/-- Executor of `TestListRunningContainers_Fail`. -/
def failListExecutor : MockCommandExecutor :=
  { CommandOutputs := [], FailCommands := [(psCommand, true)] }

/-- The listing of the two test units, surrounded by white space. -/
def paddedListExecutor : MockCommandExecutor :=
  { CommandOutputs := [(psCommand, "\n 12345 nginx\n67890 redis \n")], FailCommands := [] }

/-! ## The goroutines of one run

Each goroutine started by `go processContainer(...)` stands at a program point
`PC`; one step of the system is one statement of one goroutine (an executor call,
the beginning or the end of a map assignment, a send to or a receive from the
semaphore channel), one turn of the dispatching loop of
`GenerateSBOMAndScanForCVEs`, or the firing of the cancellation signal of `ctx`.
An interleaving is a list of such steps. -/

/-- The capabilities of the service when the state of `ctx` is told apart: the
executor is handed `ctx` and may answer differently once the context is done. -/
structure CtxEnv where
  ExecCommand : Bool → String → List String → String × Option String
  Unmarshal : String → Except String GrypeOutput
  Now : Nat → Nat

/-- The environment a call meets, given whether `ctx` is done when it is made. -/
def CtxEnv.toEnv (x : CtxEnv) (ctxDone : Bool) : Env :=
  { ExecCommand := x.ExecCommand ctxDone, Unmarshal := x.Unmarshal, Now := x.Now }

/-- Program points of a goroutine that runs `processContainer`. -/
inductive PC where
  /-- Started; next statement `sem <- struct{}{}`. -/
  | waiting
  /-- Permit held; next statement `sbom, err := ds.GenerateSBOM(ctx, imageName)`. -/
  | acquired
  /-- Generation succeeded; next statement `sbomResults[containerID] = sbom`. -/
  | generated (sbom : String)
  /-- Inside `sbomResults[containerID] = sbom`: the assignment has begun and the
  map is marked as being written; the entry is not in the map yet. -/
  | storing (sbom : String)
  /-- SBOM stored; next statement `cveReport, err := ds.ScanForCVEs(ctx, imageName)`. -/
  | stored
  /-- Scan succeeded; next statement `err = parseCVEs(cveReport, &cveList)`. -/
  | scanned (cveReport : String)
  /-- Report parsed; next statement `cveResults[containerID] = cveList`. -/
  | parsed (cveList : List CVEInfo)
  /-- Inside `cveResults[containerID] = cveList`: the assignment has begun and the
  map is marked as being written; the entry is not in the map yet. -/
  | recording (cveList : List CVEInfo)
  /-- Body left by a `return` or at its end; next the deferred `<-sem`. -/
  | returning
  /-- Permit given back and `wg.Done()` called. -/
  | finished
  deriving DecidableEq, Repr

/-- The goroutine holds a permit: it is between `sem <- struct{}{}` and `<-sem`. -/
def PC.holdsPermit : PC → Bool
  | .waiting => false
  | .finished => false
  | _ => true

/-- The goroutine has got past its generation call: it is at a point from which it
writes a map or calls the scanner or the parser. -/
def PC.pastGeneration : PC → Bool
  | .generated _ => true
  | .storing _ => true
  | .stored => true
  | .scanned _ => true
  | .parsed _ => true
  | .recording _ => true
  | _ => false

/-- One goroutine `processContainer(ctx, containerID, imageName, ...)`. -/
structure Goroutine where
  containerID : String
  imageName : String
  pc : PC
  deriving DecidableEq, Repr

/-- The state of a run after the listing: the lines the loop has not dispatched
yet, the goroutines started so far, the number of values in the channel `sem`, the
two result maps, for each map whether an assignment to it is under way, the trace,
whether `ctx` is done, and whether the process has died (of a panic or of the
fatal error `concurrent map writes`). -/
structure Sys where
  pending : List String
  goroutines : List Goroutine
  sem : Nat
  sbomResults : GoMap String
  cveResults : GoMap (List CVEInfo)
  sbomWriting : Bool
  cveWriting : Bool
  world : World
  ctxDone : Bool
  crashed : Bool
  deriving DecidableEq, Repr

/-- The state in which the loop of `GenerateSBOMAndScanForCVEs` is entered. -/
def Sys.init (containers : List String) (w : World) : Sys :=
  { pending := containers, goroutines := [], sem := 0, sbomResults := [], cveResults := [],
    sbomWriting := false, cveWriting := false, world := w, ctxDone := false,
    crashed := false }

/-- The number of pipelines that are executing: goroutines that hold a permit. -/
def Sys.executing (s : Sys) : Nat :=
  s.goroutines.countP (fun g => g.pc.holdsPermit)

/-- The state in which goroutine `i`, which was `g`, has moved to `pc`. -/
def Sys.move (s : Sys) (i : Nat) (g : Goroutine) (pc : PC) : Sys :=
  { s with goroutines := s.goroutines.set i { g with pc := pc } }

/-- The next statement of goroutine `i`; `none` when the goroutine does not exist,
has finished, or is blocked on the channel.

The two maps are plain Go maps shared by all goroutines; no lock guards them.  An
assignment `m[k] = v` is not atomic: the Go runtime marks the map as being written
when the assignment begins and clears the mark when it ends, and an assignment that
begins while the mark is set aborts the process with
`fatal error: concurrent map writes`.  An assignment therefore takes two steps,
and other goroutines may take steps in between. -/
def stepGoroutine (x : CtxEnv) (s : Sys) (i : Nat) : Option Sys :=
  match s.goroutines.get? i with
  | none => none
  | some g =>
    match g.pc with
    | .waiting =>
      if s.sem < maxConcurrency then some { s.move i g .acquired with sem := s.sem + 1 }
      else none
    | .acquired =>
      match GenerateSBOM (x.toEnv s.ctxDone) s.world g.imageName with
      | ((_, some _), w1) => some { s.move i g .returning with world := w1 }
      | ((sbom, none), w1) => some { s.move i g (.generated sbom) with world := w1 }
    | .generated sbom =>
      if s.sbomWriting then some { s with crashed := true }
      else some { s.move i g (.storing sbom) with sbomWriting := true }
    | .storing sbom =>
      some { s.move i g .stored with
             sbomResults := s.sbomResults.set g.containerID sbom, sbomWriting := false }
    | .stored =>
      match ScanForCVEs (x.toEnv s.ctxDone) s.world g.imageName with
      | ((_, some _), w1) => some { s.move i g .returning with world := w1 }
      | ((cveReport, none), w1) => some { s.move i g (.scanned cveReport) with world := w1 }
    | .scanned cveReport =>
      match parseCVEs (x.toEnv s.ctxDone) s.world cveReport [] with
      | .panic _ => some { s with crashed := true }
      | .done ((_, some _), w1) => some { s.move i g .returning with world := w1 }
      | .done ((cveList, none), w1) => some { s.move i g (.parsed cveList) with world := w1 }
    | .parsed cveList =>
      if s.cveWriting then some { s with crashed := true }
      else some { s.move i g (.recording cveList) with cveWriting := true }
    | .recording cveList =>
      some { s.move i g .returning with
             cveResults := s.cveResults.set g.containerID cveList, cveWriting := false }
    | .returning =>
      if 0 < s.sem then some { s.move i g .finished with sem := s.sem - 1 } else none
    | .finished => none

/-- One turn of the loop `for _, containerInfo := range containers`: split the
next line and start its goroutine; a line of fewer than two tokens panics. -/
def stepDispatch (s : Sys) : Option Sys :=
  match s.pending with
  | [] => none
  | containerInfo :: rest =>
    let containerDetails := Split containerInfo " "
    match index containerDetails 0 with
    | .panic _ => some { s with crashed := true }
    | .done containerID =>
      match index containerDetails 1 with
      | .panic _ => some { s with crashed := true }
      | .done imageName =>
        some { s with pending := rest,
                      goroutines := s.goroutines ++
                        [{ containerID := containerID, imageName := imageName,
                           pc := .waiting }] }

/-- What may happen next in a run. -/
inductive Action where
  /-- The loop starts the goroutine of the next line. -/
  | dispatch
  /-- Goroutine `i` executes its next statement. -/
  | run (i : Nat)
  /-- The cancellation signal of `ctx` fires. -/
  | cancel
  deriving DecidableEq, Repr

/-- One step of the run; `none` when the action is not enabled.  A process that
has died takes no step. -/
def step (x : CtxEnv) (s : Sys) (a : Action) : Option Sys :=
  if s.crashed then none
  else
    match a with
    | .dispatch => stepDispatch s
    | .run i => stepGoroutine x s i
    | .cancel => some { s with ctxDone := true }

/-- The state an interleaving leads to; actions that are not enabled are passed
over. -/
def exec (x : CtxEnv) (s : Sys) : List Action → Sys
  | [] => s
  | a :: rest =>
    match step x s a with
    | some s1 => exec x s1 rest
    | none => exec x s rest

/-- What `wg.Wait()` lets the run return: the two maps, once every line has been
dispatched and every goroutine has finished. -/
def Sys.result (s : Sys) : Option RunResult :=
  if s.crashed = false ∧ s.pending = [] ∧ s.goroutines.all (fun g => g.pc == .finished) then
    some { sbomResults := some s.sbomResults, cveResults := some s.cveResults, err := none }
  else none

/-- The executor honours the context: every call made once `ctx` is done fails, as
a call of `exec.CommandContext(ctx, ...).Run()` does. -/
def HonoursContext (x : CtxEnv) : Prop :=
  ∀ command args, (x.ExecCommand true command args).2 ≠ none

/-- Goroutine `i` has not started its pipeline: it has not been dispatched yet or
still waits for a permit. -/
def Sys.notStarted (s : Sys) (i : Nat) : Bool :=
  match s.goroutines.get? i with
  | none => true
  | some g => g.pc == .waiting

/-- Goroutine `i` has got past its generation call. -/
def Sys.pastGeneration (s : Sys) (i : Nat) : Bool :=
  match s.goroutines.get? i with
  | none => false
  | some g => g.pc.pastGeneration

/-- The mock executor as a context-aware executor: it ignores `ctx`. -/
def mockCtxEnv (m : MockCommandExecutor) : CtxEnv :=
  { ExecCommand := fun _ => m.ExecCommand, Unmarshal := sampleUnmarshal,
    Now := fun k => 1000 + k }

/-- A mock executor that honours `ctx`: it fails every call made once `ctx` is done. -/
def honouringCtxEnv (m : MockCommandExecutor) : CtxEnv :=
  { ExecCommand := fun ctxDone command args =>
      if ctxDone then ("", some "context canceled") else m.ExecCommand command args
    Unmarshal := sampleUnmarshal, Now := fun k => 1000 + k }

/-- The whole pipeline of goroutine `i`: its ten steps in a row (eight statements,
the two map assignments taking two steps each). -/
def wholePipeline (i : Nat) : List Action :=
  List.replicate 10 (Action.run i)

/-- The unit a goroutine works on. -/
def Goroutine.unit (g : Goroutine) : WorkloadUnit :=
  { ID := g.containerID, ImageRef := g.imageName }

/-- An executor that does not look at `ctx`, as a context-aware executor. -/
def Env.ignoringCtx (env : Env) : CtxEnv :=
  { ExecCommand := fun _ => env.ExecCommand, Unmarshal := env.Unmarshal, Now := env.Now }

/-- The interleaving that runs the pipelines one after the other in listing order:
for each of `n` lines, the first of them becoming goroutine `i`, the loop
dispatches the line and the goroutine runs to its end before the next turn. -/
def sequentialSchedule : Nat → Nat → List Action
  | _, 0 => []
  | i, n + 1 => Action.dispatch :: (wholePipeline i ++ sequentialSchedule (i + 1) n)

/-- The sequential schedule for the lines the listing of the run returns. -/
def listingSchedule (env : Env) (w : World) : List Action :=
  sequentialSchedule 0 ((ListRunningContainers env w).1.1.getD []).length

/-- The state the method `GenerateSBOMAndScanForCVEs` has reached under an
interleaving of its goroutines: the listing is made first (with a context that is
not done), and `none` stands for the return of the listing error. -/
def runUnder (x : CtxEnv) (w : World) (sched : List Action) : Option Sys :=
  match ListRunningContainers (x.toEnv false) w with
  | ((_, some _), _) => none
  | ((containers, none), w1) => some (exec x (Sys.init (containers.getD []) w1) sched)

/-- An interleaving of two goroutines in which the second reaches its assignment to
`sbomResults` while the first is inside its own: both are dispatched, goroutine 0
takes a permit, generates its SBOM and begins the assignment, then goroutine 1 takes
a permit, generates its SBOM and begins its assignment. -/
def overlappingWrites : List Action :=
  [Action.dispatch, Action.dispatch, Action.run 0, Action.run 0, Action.run 0,
   Action.run 1, Action.run 1, Action.run 1]

/-- The state of the run over the two test units in which the goroutine of nginx
has finished, the line of redis is still pending, and the cancellation signal has
fired. -/
def afterNginxCancelled : Sys :=
  { pending := ["67890 redis"],
    goroutines := [Goroutine.mk "12345" "nginx" .finished],
    sem := 0,
    sbomResults := [("12345", nginxSBOM)],
    cveResults := [("12345", [])],
    sbomWriting := false, cveWriting := false,
    world := { calls := [("syft", ["nginx", "-o", "json"]),
                         ("grype", ["nginx", "-o", "json"])], ticks := 0 },
    ctxDone := true, crashed := false }

/-- Two goroutines are dispatched and then take turns, goroutine 1 first, until
both have finished. -/
def takingTurns : List Action :=
  [Action.dispatch, Action.dispatch] ++
    (List.replicate 10 [Action.run 1, Action.run 0]).flatten

/-- The two test units, all commands succeeding, the report of redis holding a
match without location. -/
def noLocationRedisExecutor : MockCommandExecutor :=
  { CommandOutputs := [(psCommand, "12345 nginx\n67890 redis"),
                       ("syft nginx -o json", nginxSBOM), ("syft redis -o json", redisSBOM),
                       ("grype nginx -o json", nginxReport),
                       ("grype redis -o json", noLocationReport)]
    FailCommands := [] }

/-! ## Program points in the invariants

Predicates on program points that the invariants of the interleavings are stated
with. -/

/-- The goroutine has completed `sbomResults[containerID] = sbom` and has not
left its body yet. -/
def PC.sbomStored : PC → Bool
  | .stored => true
  | .scanned _ => true
  | .parsed _ => true
  | .recording _ => true
  | _ => false

/-- The goroutine has not parsed its scanner report yet, and the report it is about
to parse, if it has one, is `report`. -/
def PC.beforeParseOf (report : String) : PC → Bool
  | .waiting => true
  | .acquired => true
  | .generated _ => true
  | .storing _ => true
  | .stored => true
  | .scanned cveReport => cveReport == report
  | _ => false

/-- What the program point of a goroutine says of the two maps, for a goroutine
that works on a unit whose generation yields `sbom`, whose scan yields `report` and
whose findings are a list for which `emits` holds; `sbomEntry` and `cveEntry` are
the entries of the two maps under the ID of the unit.  The SBOM the goroutine holds
is `sbom`; once it has stored it, the SBOM entry is `sbom`; the report it holds is
`report`; the findings it holds satisfy `emits`; and once it has left its body both
entries are there. -/
def PC.consistentWith (sbom report : String) (emits : List CVEInfo → Prop)
    (sbomEntry : Option String) (cveEntry : Option (List CVEInfo)) : PC → Prop
  | .waiting => True
  | .acquired => True
  | .generated sb => sb = sbom
  | .storing sb => sb = sbom
  | .stored => sbomEntry = some sbom
  | .scanned cveReport => sbomEntry = some sbom ∧ cveReport = report
  | .parsed cveList => sbomEntry = some sbom ∧ emits cveList
  | .recording cveList => sbomEntry = some sbom ∧ emits cveList
  | .returning => sbomEntry = some sbom ∧ ∃ l, emits l ∧ cveEntry = some l
  | .finished => sbomEntry = some sbom ∧ ∃ l, emits l ∧ cveEntry = some l

/-- What the program point of a goroutine says of the SBOM map, for a goroutine
that works on a unit whose generation yields `sbom` and whose scan fails;
`sbomEntry` is the entry of the SBOM map under the ID of the unit.  The SBOM the
goroutine holds is `sbom`; once it has stored it, the entry is `sbom`; and it never
holds a report or findings. -/
def PC.consistentWithFailedScan (sbom : String) (sbomEntry : Option String) : PC → Prop
  | .waiting => True
  | .acquired => True
  | .generated sb => sb = sbom
  | .storing sb => sb = sbom
  | .stored => sbomEntry = some sbom
  | .scanned _ => False
  | .parsed _ => False
  | .recording _ => False
  | .returning => sbomEntry = some sbom
  | .finished => sbomEntry = some sbom

/-! ## Lemmas on maps -/

namespace GoMap

variable {V : Type}

theorem get?_set_self (m : GoMap V) (k : String) (v : V) : (m.set k v).get? k = some v := by
  induction m with
  | nil => simp [set, get?]
  | cons p m ih =>
    obtain ⟨k1, v1⟩ := p
    by_cases h : k1 = k
    · simp [set, get?, h]
    · simp [set, get?, h, ih]

theorem get?_set_other (m : GoMap V) {k k1 : String} (v : V) (h : k1 ≠ k) :
    (m.set k v).get? k1 = m.get? k1 := by
  induction m with
  | nil => simp [set, get?, Ne.symm h]
  | cons p m ih =>
    obtain ⟨k2, v2⟩ := p
    by_cases h2 : k2 = k
    · subst h2
      simp [set, get?, Ne.symm h]
    · by_cases h3 : k2 = k1
      · subst h3
        simp [set, get?, h2]
      · simp [set, get?, h2, h3, ih]

theorem keys_set_of_mem (m : GoMap V) {k : String} (v : V) (h : k ∈ m.keys) :
    (m.set k v).keys = m.keys := by
  induction m with
  | nil => simp [keys] at h
  | cons p m ih =>
    obtain ⟨k2, v2⟩ := p
    by_cases h2 : k2 = k
    · simp [set, keys, h2]
    · have hm : k ∈ keys m := by
        simp only [keys, List.map_cons, List.mem_cons] at h
        rcases h with h | h
        · exact absurd h.symm h2
        · exact h
      have := ih hm
      simp only [keys] at this
      simp [set, keys, h2, this]

theorem keys_set_of_not_mem (m : GoMap V) {k : String} (v : V) (h : k ∉ m.keys) :
    (m.set k v).keys = m.keys ++ [k] := by
  induction m with
  | nil => simp [set, keys]
  | cons p m ih =>
    obtain ⟨k2, v2⟩ := p
    have h2 : k2 ≠ k := by
      intro e; apply h; simp [keys, e]
    have hm : k ∉ keys m := by
      intro e; apply h; simp only [keys, List.map_cons, List.mem_cons]; exact Or.inr e
    have := ih hm
    simp only [keys] at this
    simp [set, keys, h2, this]

theorem len_eq_keys_length (m : GoMap V) : m.len = m.keys.length := by
  simp [len, keys]

theorem get?_eq_none_of_not_mem (m : GoMap V) {k : String} (h : k ∉ m.keys) :
    m.get? k = none := by
  induction m with
  | nil => rfl
  | cons p m ih =>
    obtain ⟨k2, v2⟩ := p
    have h2 : k2 ≠ k := by
      intro e; apply h; simp [keys, e]
    have hm : k ∉ keys m := by
      intro e; apply h; simp only [keys, List.map_cons, List.mem_cons]; exact Or.inr e
    simp [get?, h2, ih hm]

theorem mem_keys_of_get? (m : GoMap V) {k : String} {v : V} (h : m.get? k = some v) :
    k ∈ m.keys := by
  by_contra hk
  rw [get?_eq_none_of_not_mem m hk] at h
  cases h

theorem mem_keys_set (m : GoMap V) (k k1 : String) (v : V) :
    k1 ∈ (m.set k v).keys ↔ k1 = k ∨ k1 ∈ m.keys := by
  by_cases h : k ∈ m.keys
  · rw [keys_set_of_mem m v h]
    constructor
    · exact Or.inr
    · rintro (e | e)
      · exact e ▸ h
      · exact e
  · rw [keys_set_of_not_mem m v h]
    simp only [List.mem_append, List.mem_singleton]
    tauto

end GoMap

/-! ## Lemmas on `strings.Split` and `strings.TrimSpace` -/

theorem splitChars_single_nil (c : Char) (cur : List Char) :
    splitChars [c] [] 0 cur = [cur.reverse] := by
  simp [splitChars]

theorem splitChars_single_sep (c : Char) (rest cur : List Char) :
    splitChars [c] (c :: rest) 0 cur = cur.reverse :: splitChars [c] rest 0 [] := by
  simp [splitChars, List.isPrefixOf]

theorem splitChars_single_append (c : Char) (p rest cur : List Char) (h : c ∉ p) :
    splitChars [c] (p ++ rest) 0 cur = splitChars [c] rest 0 (p.reverse ++ cur) := by
  induction p generalizing cur with
  | nil => simp
  | cons d p ih =>
    have hd : c ≠ d := by
      intro e; apply h; simp [e]
    have hp : c ∉ p := by
      intro e; apply h; simp [e]
    have hstep : splitChars [c] (d :: (p ++ rest)) 0 cur =
        splitChars [c] (p ++ rest) 0 (d :: cur) := by
      simp [splitChars, List.isPrefixOf, hd]
    rw [List.cons_append, hstep, ih _ hp]
    simp

theorem splitChars_joinChars (c : Char) (p : List Char) (ps : List (List Char))
    (cur : List Char) (h : ∀ q ∈ p :: ps, c ∉ q) :
    splitChars [c] (joinChars c (p :: ps)) 0 cur = (cur.reverse ++ p) :: ps := by
  induction ps generalizing p cur with
  | nil =>
    have hp : c ∉ p := h p (by simp)
    have := splitChars_single_append c p [] cur hp
    simp only [List.append_nil] at this
    simp [joinChars, this, splitChars_single_nil]
  | cons q qs ih =>
    have hp : c ∉ p := h p (by simp)
    have hq : ∀ r ∈ q :: qs, c ∉ r := fun r hr => h r (by simp at hr ⊢; tauto)
    simp only [joinChars]
    rw [splitChars_single_append c p _ cur hp, splitChars_single_sep, ih q [] hq]
    simp

theorem splitChars_ne_nil (sep s : List Char) (skip : Nat) (cur : List Char) :
    splitChars sep s skip cur ≠ [] := by
  induction s generalizing skip cur with
  | nil => simp [splitChars]
  | cons c cs ih =>
    cases skip with
    | zero =>
      simp only [splitChars]
      split
      · simp
      · exact ih 0 _
    | succ n =>
      simp only [splitChars]
      exact ih n cur

/-- With a non-empty separator `strings.Split` returns at least one piece. -/
theorem Split_ne_nil (s sep : String) (h : sep.data ≠ []) : Split s sep ≠ [] := by
  unfold Split
  simp only [h, if_false, ne_eq, List.map_eq_nil_iff]
  exact splitChars_ne_nil _ _ _ _

theorem joinLines_data (ls : List String) :
    (joinLines ls).data = joinChars (Char.ofNat 10) (ls.map String.data) := by
  induction ls with
  | nil => rfl
  | cons l ls ih =>
    cases ls with
    | nil => rfl
    | cons l1 ls =>
      have hsep : ("\n" : String).data = [Char.ofNat 10] := rfl
      simp only [joinLines, String.data_append, ih, List.map_cons, joinChars, hsep]
      simp

/-- Splitting the joined records on the newline gives the records back. -/
theorem Split_joinLines (ls : List String) (hne : ls ≠ [])
    (h : ∀ l ∈ ls, Char.ofNat 10 ∉ l.data) :
    Split (joinLines ls) "\n" = ls := by
  cases ls with
  | nil => exact absurd rfl hne
  | cons l ls =>
    have hsep : ("\n" : String).data = [Char.ofNat 10] := rfl
    have hq : ∀ q ∈ l.data :: ls.map String.data, Char.ofNat 10 ∉ q := by
      intro q hq
      simp only [List.mem_cons, List.mem_map] at hq
      rcases hq with rfl | ⟨x, hx, rfl⟩
      · exact h l (by simp)
      · exact h x (by simp [hx])
    unfold Split
    rw [hsep, joinLines_data]
    simp only [List.cons_ne_nil, if_false, List.map_cons]
    rw [splitChars_joinChars _ _ _ _ hq]
    simp [List.map_map, Function.comp_def]

/-- A line `a b` with space-free `a` and `b` splits on the space into `a` and `b`. -/
theorem Split_two_tokens (a b : String) (ha : ' ' ∉ a.data) (hb : ' ' ∉ b.data) :
    Split (a ++ " " ++ b) " " = [a, b] := by
  have hsep : (" " : String).data = [' '] := rfl
  have hq : ∀ q ∈ [a.data, b.data], ' ' ∉ q := by
    intro q hq
    simp only [List.mem_cons, List.mem_singleton, List.not_mem_nil, or_false] at hq
    rcases hq with rfl | rfl
    · exact ha
    · exact hb
  have hd : (a ++ " " ++ b).data = joinChars ' ' [a.data, b.data] := by
    simp [joinChars, String.data_append, hsep]
  unfold Split
  rw [hsep, hd]
  simp only [List.cons_ne_nil, if_false]
  rw [splitChars_joinChars _ _ _ _ hq]
  simp

theorem dropWhile_eq_self_of_head {p : Char → Bool} (l : List Char)
    (h : ∀ c, l.head? = some c → p c = false) : l.dropWhile p = l := by
  cases l with
  | nil => rfl
  | cons c cs =>
    have := h c rfl
    simp [List.dropWhile, this]

/-- A string that neither starts nor ends with white space is left alone by
`strings.TrimSpace`. -/
theorem trimSpaceChars_eq_self (s : List Char)
    (h1 : ∀ c, s.head? = some c → isSpace c = false)
    (h2 : ∀ c, s.getLast? = some c → isSpace c = false) : trimSpaceChars s = s := by
  unfold trimSpaceChars
  rw [dropWhile_eq_self_of_head s h1, dropWhile_eq_self_of_head s.reverse]
  · simp
  · intro c hc
    rw [List.head?_reverse] at hc
    exact h2 c hc

theorem joinChars_ne_nil (c : Char) (ps : List (List Char)) (hne : ps ≠ [])
    (h : ∀ q ∈ ps, q ≠ []) : joinChars c ps ≠ [] := by
  cases ps with
  | nil => exact absurd rfl hne
  | cons p ps =>
    have hp : p ≠ [] := h p (by simp)
    cases ps with
    | nil => simpa [joinChars] using hp
    | cons q qs => simp [joinChars, hp]

theorem head?_joinChars (c : Char) (p : List Char) (ps : List (List Char)) (hp : p ≠ []) :
    (joinChars c (p :: ps)).head? = p.head? := by
  cases p with
  | nil => exact absurd rfl hp
  | cons x xs =>
    cases ps with
    | nil => rfl
    | cons q qs => rfl

theorem getLast?_joinChars (c : Char) (P : Char → Prop) (ps : List (List Char))
    (h : ∀ q ∈ ps, q ≠ [] ∧ ∀ x, q.getLast? = some x → P x) :
    ∀ x, (joinChars c ps).getLast? = some x → P x := by
  induction ps with
  | nil => intro x hx; simp [joinChars] at hx
  | cons p ps ih =>
    cases ps with
    | nil =>
      intro x hx
      exact (h p (by simp)).2 x (by simpa [joinChars] using hx)
    | cons q qs =>
      intro x hx
      have hrest : ∀ r ∈ q :: qs, r ≠ [] ∧ ∀ x, r.getLast? = some x → P x :=
        fun r hr => h r (List.mem_cons_of_mem _ hr)
      have hne : joinChars c (q :: qs) ≠ [] :=
        joinChars_ne_nil c (q :: qs) (by simp) (fun r hr => (hrest r hr).1)
      apply ih hrest x
      have hcons : (c :: joinChars c (q :: qs)) ≠ [] := by simp
      simp only [joinChars] at hx ⊢
      rw [List.getLast?_append_of_ne_nil _ hcons] at hx
      obtain ⟨y, ys, hy⟩ := List.exists_cons_of_ne_nil hne
      rw [hy] at hx ⊢
      rw [List.getLast?_cons_cons] at hx
      exact hx

theorem isSpace_blank : isSpace ' ' = true := by decide

theorem isSpace_newline : isSpace (Char.ofNat 10) = true := by decide

theorem not_mem_of_isToken {s : String} (h : IsToken s) {c : Char} (hc : isSpace c = true) :
    c ∉ s.data := by
  intro hm
  have := h.2 c hm
  rw [hc] at this
  cases this

theorem line_data (u : WorkloadUnit) : u.line.data = u.ID.data ++ ' ' :: u.ImageRef.data := by
  have hsep : (" " : String).data = [' '] := rfl
  simp [WorkloadUnit.line, String.data_append, hsep]

/-- The line of a well-formed unit splits on the space into its ID and its image. -/
theorem Split_line (u : WorkloadUnit) (h : u.WellFormed) :
    Split u.line " " = [u.ID, u.ImageRef] :=
  Split_two_tokens u.ID u.ImageRef (not_mem_of_isToken h.1 isSpace_blank)
    (not_mem_of_isToken h.2 isSpace_blank)

theorem line_no_newline (u : WorkloadUnit) (h : u.WellFormed) :
    Char.ofNat 10 ∉ u.line.data := by
  rw [line_data]
  intro hm
  simp only [List.mem_append, List.mem_cons] at hm
  rcases hm with hm | hm | hm
  · exact not_mem_of_isToken h.1 isSpace_newline hm
  · exact absurd hm (by decide)
  · exact not_mem_of_isToken h.2 isSpace_newline hm

theorem line_ne_nil (u : WorkloadUnit) : u.line.data ≠ [] := by
  rw [line_data]; simp

theorem line_head (u : WorkloadUnit) (h : u.WellFormed) :
    ∀ c, u.line.data.head? = some c → isSpace c = false := by
  intro c hc
  rw [line_data, List.head?_append_of_ne_nil _ h.1.1] at hc
  exact h.1.2 c (List.mem_of_mem_head? hc)

theorem line_last (u : WorkloadUnit) (h : u.WellFormed) :
    ∀ c, u.line.data.getLast? = some c → isSpace c = false := by
  intro c hc
  rw [line_data, List.getLast?_append_of_ne_nil _ (by simp)] at hc
  obtain ⟨y, ys, hy⟩ := List.exists_cons_of_ne_nil h.2.1
  rw [hy, List.getLast?_cons_cons, ← hy] at hc
  exact h.2.2 c (List.mem_of_getLast?_eq_some hc)

/-- The listing of well-formed units is read back line by line. -/
theorem Split_TrimSpace_listing (units : List WorkloadUnit) (hne : units ≠ [])
    (hwf : ∀ u ∈ units, u.WellFormed) :
    Split (TrimSpace (joinLines (units.map WorkloadUnit.line))) "\n" =
      units.map WorkloadUnit.line := by
  have hlines : units.map WorkloadUnit.line ≠ [] := by simpa using hne
  have htrim : TrimSpace (joinLines (units.map WorkloadUnit.line)) =
      joinLines (units.map WorkloadUnit.line) := by
    unfold TrimSpace
    rw [trimSpaceChars_eq_self]
    · intro c hc
      rw [joinLines_data] at hc
      obtain ⟨u, us, rfl⟩ := List.exists_cons_of_ne_nil hne
      simp only [List.map_cons] at hc
      rw [head?_joinChars _ _ _ (line_ne_nil u)] at hc
      exact line_head u (hwf u (by simp)) c hc
    · rw [joinLines_data]
      apply getLast?_joinChars
      intro q hq
      simp only [List.mem_map] at hq
      obtain ⟨l, ⟨u, hu, rfl⟩, rfl⟩ := hq
      exact ⟨line_ne_nil u, line_last u (hwf u hu)⟩
  rw [htrim]
  apply Split_joinLines _ hlines
  intro l hl
  simp only [List.mem_map] at hl
  obtain ⟨u, hu, rfl⟩ := hl
  exact line_no_newline u (hwf u hu)

/-! ## The parser -/

theorem parseMatches_of_locations (env : Env) (ms : List Match) (cveList : List CVEInfo)
    (w : World) (h : ∀ m ∈ ms, m.Artifact.Locations ≠ []) :
    ∃ l, parseMatches env ms cveList w =
        .done (cveList ++ l, { calls := w.calls, ticks := w.ticks + ms.length }) ∧
      List.Forall₂ FindingOf ms l := by
  induction ms generalizing cveList w with
  | nil => exact ⟨[], by simp [parseMatches], List.Forall₂.nil⟩
  | cons m rest ih =>
    have hm : m.Artifact.Locations ≠ [] := h m (by simp)
    obtain ⟨loc, locs, hloc⟩ := List.exists_cons_of_ne_nil hm
    have hrest : ∀ m1 ∈ rest, m1.Artifact.Locations ≠ [] :=
      fun m1 h1 => h m1 (List.mem_cons_of_mem _ h1)
    cases hv : m.Fix.Versions with
    | nil =>
      obtain ⟨l, hl, hf⟩ := ih (cveList ++ [(CVEInfo.mk m.Vulnerability.ID
        (env.Now w.ticks) m.Vulnerability.Severity m.Artifact.Version "" loc.Path)])
        { calls := w.calls, ticks := w.ticks + 1 } hrest
      refine ⟨(CVEInfo.mk m.Vulnerability.ID (env.Now w.ticks) m.Vulnerability.Severity
        m.Artifact.Version "" loc.Path) :: l, ?_, List.Forall₂.cons ?_ hf⟩
      · simp only [parseMatches, timeNow, index, hloc, hv, List.get?_cons_zero, List.length_nil,
          gt_iff_lt, lt_self_iff_false, if_false, hl, List.length_cons]
        simp [Nat.add_comm, Nat.add_left_comm]
      · simp [FindingOf, hloc, hv]
    | cons v vs =>
      obtain ⟨l, hl, hf⟩ := ih (cveList ++ [(CVEInfo.mk m.Vulnerability.ID
        (env.Now w.ticks) m.Vulnerability.Severity m.Artifact.Version v loc.Path)])
        { calls := w.calls, ticks := w.ticks + 1 } hrest
      refine ⟨(CVEInfo.mk m.Vulnerability.ID (env.Now w.ticks) m.Vulnerability.Severity
        m.Artifact.Version v loc.Path) :: l, ?_, List.Forall₂.cons ?_ hf⟩
      · simp only [parseMatches, timeNow, index, hloc, hv, List.get?_cons_zero,
          List.length_cons, gt_iff_lt, Nat.zero_lt_succ, if_true, List.headD_cons, hl]
        simp [Nat.add_comm, Nat.add_left_comm]
      · simp [FindingOf, hloc, hv]

theorem parseMatches_panic (env : Env) (ms : List Match) (cveList : List CVEInfo) (w : World)
    (h : ∃ m ∈ ms, m.Artifact.Locations = []) :
    parseMatches env ms cveList w = .panic "index out of range" := by
  induction ms generalizing cveList w with
  | nil => simp at h
  | cons m rest ih =>
    by_cases hm : m.Artifact.Locations = []
    · simp [parseMatches, timeNow, index, hm]
    · obtain ⟨loc, locs, hloc⟩ := List.exists_cons_of_ne_nil hm
      have hrest : ∃ m1 ∈ rest, m1.Artifact.Locations = [] := by
        obtain ⟨m1, h1, h2⟩ := h
        simp only [List.mem_cons] at h1
        rcases h1 with rfl | h1
        · exact absurd h2 hm
        · exact ⟨m1, h1, h2⟩
      simp only [parseMatches, timeNow, index, hloc, List.get?_cons_zero]
      exact ih _ _ hrest

theorem parseCVEs_of_locations (env : Env) (w : World) (report : String)
    (cveList : List CVEInfo) (g : GrypeOutput) (hdec : env.Unmarshal report = .ok g)
    (hloc : ∀ m ∈ g.Matches, m.Artifact.Locations ≠ []) :
    ∃ l, parseCVEs env w report cveList =
        .done ((cveList ++ l, none), { calls := w.calls, ticks := w.ticks + g.Matches.length }) ∧
      List.Forall₂ FindingOf g.Matches l := by
  obtain ⟨l, hl, hf⟩ := parseMatches_of_locations env g.Matches cveList w hloc
  exact ⟨l, by simp [parseCVEs, hdec, hl], hf⟩

theorem parseCVEs_of_empty_locations (env : Env) (w : World) (report : String)
    (cveList : List CVEInfo) (g : GrypeOutput) (hdec : env.Unmarshal report = .ok g)
    (h : ∃ m ∈ g.Matches, m.Artifact.Locations = []) :
    parseCVEs env w report cveList = .panic "index out of range" := by
  simp [parseCVEs, hdec, parseMatches_panic env g.Matches cveList w h]

theorem parseCVEs_of_decode_error (env : Env) (w : World) (report : String)
    (cveList : List CVEInfo) (e : String) (hdec : env.Unmarshal report = .error e) :
    parseCVEs env w report cveList =
      .done ((cveList, some ("failed to parse CVE report: " ++ e)), w) := by
  simp [parseCVEs, hdec]

/-- Success of the parser does not depend on the clock. -/
theorem parseCVEs_of_succeeds (env : Env) (report : String) (h : ParseSucceeds env report)
    (w : World) : ∃ l w1, parseCVEs env w report [] = .done ((l, none), w1) := by
  obtain ⟨l0, w0, w1, h0⟩ := h
  cases hdec : env.Unmarshal report with
  | error e =>
    rw [parseCVEs_of_decode_error env w0 report [] e hdec] at h0
    simp at h0
  | ok g =>
    by_cases hloc : ∀ m ∈ g.Matches, m.Artifact.Locations ≠ []
    · obtain ⟨l, hl, _⟩ := parseCVEs_of_locations env w report [] g hdec hloc
      exact ⟨_, _, hl⟩
    · have hex : ∃ m ∈ g.Matches, m.Artifact.Locations = [] := by
        by_contra hne
        apply hloc
        intro m hm e
        exact hne ⟨m, hm, e⟩
      rw [parseCVEs_of_empty_locations env w0 report [] g hdec hex] at h0
      cases h0

/-- A parser that returns on a report returns on it whatever the clock reads. -/
theorem parseCVEs_of_returns (env : Env) (report : String)
    (h : ParseSucceeds env report ∨ ParseFails env report) (w : World) :
    ∃ res w1, parseCVEs env w report [] = .done (res, w1) := by
  rcases h with h | ⟨w0, l0, e0, w1, h0⟩
  · obtain ⟨l, w1, hl⟩ := parseCVEs_of_succeeds env report h w
    exact ⟨_, _, hl⟩
  · cases hdec : env.Unmarshal report with
    | error e => exact ⟨_, _, parseCVEs_of_decode_error env w report [] e hdec⟩
    | ok g =>
      by_cases hloc : ∀ m ∈ g.Matches, m.Artifact.Locations ≠ []
      · obtain ⟨l, hl, _⟩ := parseCVEs_of_locations env w report [] g hdec hloc
        exact ⟨_, _, hl⟩
      · have hex : ∃ m ∈ g.Matches, m.Artifact.Locations = [] := by
          by_contra hne
          apply hloc
          intro m hm e
          exact hne ⟨m, hm, e⟩
        rw [parseCVEs_of_empty_locations env w0 report [] g hdec hex] at h0
        cases h0

/-! ## One pipeline -/

theorem GenerateSBOM_of_fails (env : Env) (w : World) (image : String)
    (h : GenFails env image) :
    ∃ e, GenerateSBOM env w image = (("", some e), afterGen w image) := by
  unfold GenFails at h
  rcases hx : env.ExecCommand "syft" [image, "-o", "json"] with ⟨o, _ | e⟩
  · rw [hx] at h; exact absurd rfl h
  · exact ⟨"failed to generate SBOM: " ++ e, by simp [GenerateSBOM, execCommand, hx, afterGen]⟩

theorem GenerateSBOM_of_succeeds (env : Env) (w : World) (image sbom : String)
    (h : GenSucceeds env image sbom) :
    GenerateSBOM env w image = ((sbom, none), afterGen w image) := by
  unfold GenSucceeds at h
  simp [GenerateSBOM, execCommand, h, afterGen]

theorem ScanForCVEs_of_fails (env : Env) (w : World) (image : String)
    (h : ScanFails env image) :
    ∃ e, ScanForCVEs env (afterGen w image) image = (("", some e), afterScan w image) := by
  unfold ScanFails at h
  rcases hx : env.ExecCommand "grype" [image, "-o", "json"] with ⟨o, _ | e⟩
  · rw [hx] at h; exact absurd rfl h
  · exact ⟨"failed to scan for CVEs: " ++ e,
      by simp [ScanForCVEs, execCommand, hx, afterGen, afterScan]⟩

theorem ScanForCVEs_of_succeeds (env : Env) (w : World) (image report : String)
    (h : ScanSucceeds env image report) :
    ScanForCVEs env (afterGen w image) image = ((report, none), afterScan w image) := by
  unfold ScanSucceeds at h
  simp [ScanForCVEs, execCommand, h, afterGen, afterScan]

theorem processContainer_of_genFails (env : Env) (id image : String) (st : RunState)
    (h : GenFails env image) :
    processContainer env id image st =
      .done { sbomResults := st.sbomResults, cveResults := st.cveResults,
              world := afterGen st.world image } := by
  obtain ⟨e, he⟩ := GenerateSBOM_of_fails env st.world image h
  simp [processContainer, he]

theorem processContainer_of_scanFails (env : Env) (id image sbom : String) (st : RunState)
    (hg : GenSucceeds env image sbom) (hs : ScanFails env image) :
    processContainer env id image st =
      .done { sbomResults := st.sbomResults.set id sbom, cveResults := st.cveResults,
              world := afterScan st.world image } := by
  obtain ⟨e, he⟩ := ScanForCVEs_of_fails env st.world image hs
  simp [processContainer, GenerateSBOM_of_succeeds env st.world image sbom hg, he]

theorem processContainer_of_scanned (env : Env) (id image sbom report : String)
    (st : RunState) (hg : GenSucceeds env image sbom) (hs : ScanSucceeds env image report) :
    processContainer env id image st =
      match parseCVEs env (afterScan st.world image) report [] with
      | .panic msg => .panic msg
      | .done ((_, some _), w3) =>
        .done { sbomResults := st.sbomResults.set id sbom, cveResults := st.cveResults,
                world := w3 }
      | .done ((cveList, none), w3) =>
        .done { sbomResults := st.sbomResults.set id sbom,
                cveResults := st.cveResults.set id cveList, world := w3 } := by
  simp only [processContainer, GenerateSBOM_of_succeeds env st.world image sbom hg,
    ScanForCVEs_of_succeeds env st.world image report hs]

/-- What a pipeline that returns has done to the two maps. -/
theorem processContainer_done (env : Env) (id image : String) (st st1 : RunState)
    (h : processContainer env id image st = .done st1) :
    (GenFails env image ∧ st1.sbomResults = st.sbomResults ∧ st1.cveResults = st.cveResults ∧
        st1.world = afterGen st.world image) ∨
    (∃ sbom, GenSucceeds env image sbom ∧ st1.sbomResults = st.sbomResults.set id sbom ∧
      (st1.cveResults = st.cveResults ∨
        ∃ report l, ScanSucceeds env image report ∧ ParserEmits env report l ∧
          st1.cveResults = st.cveResults.set id l)) := by
  rcases hg : env.ExecCommand "syft" [image, "-o", "json"] with ⟨sbom, _ | e⟩
  · right
    refine ⟨sbom, hg, ?_⟩
    rcases hs : env.ExecCommand "grype" [image, "-o", "json"] with ⟨report, _ | e⟩
    · rw [processContainer_of_scanned env id image sbom report st hg hs] at h
      rcases hp : parseCVEs env (afterScan st.world image) report [] with ⟨⟨l, _ | e⟩, w3⟩ | msg
      · rw [hp] at h
        simp only [Ret.done.injEq] at h
        subst h
        exact ⟨rfl, Or.inr ⟨report, l, hs, ⟨_, _, hp⟩, rfl⟩⟩
      · rw [hp] at h
        simp only [Ret.done.injEq] at h
        subst h
        exact ⟨rfl, Or.inl rfl⟩
      · rw [hp] at h
        cases h
    · have hs1 : ScanFails env image := by simp [ScanFails, hs]
      rw [processContainer_of_scanFails env id image sbom st hg hs1] at h
      simp only [Ret.done.injEq] at h
      subst h
      exact ⟨rfl, Or.inl rfl⟩
  · left
    have hg1 : GenFails env image := by simp [GenFails, hg]
    rw [processContainer_of_genFails env id image st hg1] at h
    simp only [Ret.done.injEq] at h
    subst h
    exact ⟨hg1, rfl, rfl, rfl⟩

/-- A pipeline leaves the entries of all other keys alone. -/
theorem processContainer_frame (env : Env) (id image : String) (st st1 : RunState)
    (h : processContainer env id image st = .done st1) (k : String) (hk : k ≠ id) :
    st1.sbomResults.get? k = st.sbomResults.get? k ∧
      st1.cveResults.get? k = st.cveResults.get? k := by
  rcases processContainer_done env id image st st1 h with
    ⟨_, h1, h2, _⟩ | ⟨sbom, _, h1, h2 | ⟨report, l, _, _, h2⟩⟩
  · rw [h1, h2]; exact ⟨rfl, rfl⟩
  · rw [h1, h2]; exact ⟨GoMap.get?_set_other _ _ hk, rfl⟩
  · rw [h1, h2]; exact ⟨GoMap.get?_set_other _ _ hk, GoMap.get?_set_other _ _ hk⟩

/-- A pipeline whose steps all succeed or fail returns. -/
theorem processContainer_returns (env : Env) (id : String) (u : WorkloadUnit) (st : RunState)
    (h : StepsSucceedOrFail env u) : ∃ st1, processContainer env id u.ImageRef st = .done st1 := by
  rcases hg : env.ExecCommand "syft" [u.ImageRef, "-o", "json"] with ⟨sbom, _ | e⟩
  · rcases hs : env.ExecCommand "grype" [u.ImageRef, "-o", "json"] with ⟨report, _ | e⟩
    · obtain ⟨res, w3, hp⟩ :=
        parseCVEs_of_returns env report (h sbom report hg hs) (afterScan st.world u.ImageRef)
      rw [processContainer_of_scanned env id u.ImageRef sbom report st hg hs, hp]
      obtain ⟨l, _ | e⟩ := res
      · exact ⟨_, rfl⟩
      · exact ⟨_, rfl⟩
    · have hs1 : ScanFails env u.ImageRef := by simp [ScanFails, hs]
      exact ⟨_, processContainer_of_scanFails env id u.ImageRef sbom st hg hs1⟩
  · have hg1 : GenFails env u.ImageRef := by simp [GenFails, hg]
    exact ⟨_, processContainer_of_genFails env id u.ImageRef st hg1⟩

/-- The pipeline of a unit whose three steps succeed writes both entries. -/
theorem processContainer_of_succeeds (env : Env) (id image sbom report : String)
    (st : RunState) (hg : GenSucceeds env image sbom) (hs : ScanSucceeds env image report)
    (hp : ParseSucceeds env report) :
    ∃ l w3, ParserEmits env report l ∧
      processContainer env id image st =
        .done { sbomResults := st.sbomResults.set id sbom,
                cveResults := st.cveResults.set id l, world := w3 } := by
  obtain ⟨l, w3, hl⟩ := parseCVEs_of_succeeds env report hp (afterScan st.world image)
  refine ⟨l, w3, ⟨_, _, hl⟩, ?_⟩
  rw [processContainer_of_scanned env id image sbom report st hg hs, hl]

/-! ## The loop over the listing, one pipeline after the other -/

theorem processLines_cons_line (env : Env) (u : WorkloadUnit) (rest : List String)
    (st : RunState) (h : u.WellFormed) :
    processLines env (u.line :: rest) st =
      match processContainer env u.ID u.ImageRef st with
      | .panic msg => .panic msg
      | .done st1 => processLines env rest st1 := by
  simp [processLines, Split_line u h, index]

/-- The loop leaves alone the entries of every key that is no ID of the listing. -/
theorem processLines_frame (env : Env) (units : List WorkloadUnit) (st st1 : RunState)
    (hwf : ∀ u ∈ units, u.WellFormed)
    (h : processLines env (units.map WorkloadUnit.line) st = .done st1)
    (k : String) (hk : k ∉ units.map WorkloadUnit.ID) :
    st1.sbomResults.get? k = st.sbomResults.get? k ∧
      st1.cveResults.get? k = st.cveResults.get? k := by
  induction units generalizing st with
  | nil =>
    simp only [List.map_nil, processLines, Ret.done.injEq] at h
    subst h
    exact ⟨rfl, rfl⟩
  | cons u rest ih =>
    have hu : u.WellFormed := hwf u (by simp)
    have hrest : ∀ v ∈ rest, v.WellFormed := fun v hv => hwf v (List.mem_cons_of_mem _ hv)
    simp only [List.map_cons, List.mem_cons, not_or] at hk
    rw [List.map_cons, processLines_cons_line env u _ st hu] at h
    rcases hp : processContainer env u.ID u.ImageRef st with st2 | msg
    · rw [hp] at h
      obtain ⟨f1, f2⟩ := processContainer_frame env u.ID u.ImageRef st st2 hp k hk.1
      obtain ⟨g1, g2⟩ := ih st2 hrest h hk.2
      exact ⟨g1.trans f1, g2.trans f2⟩
    · rw [hp] at h
      cases h

/-- The loop returns when every step of every pipeline succeeds or fails. -/
theorem processLines_returns (env : Env) (units : List WorkloadUnit) (st : RunState)
    (hwf : ∀ u ∈ units, u.WellFormed) (hret : ∀ u ∈ units, StepsSucceedOrFail env u) :
    ∃ st1, processLines env (units.map WorkloadUnit.line) st = .done st1 := by
  induction units generalizing st with
  | nil => exact ⟨st, rfl⟩
  | cons u rest ih =>
    have hu : u.WellFormed := hwf u (by simp)
    obtain ⟨st2, hp⟩ := processContainer_returns env u.ID u st (hret u (by simp))
    obtain ⟨st1, h1⟩ := ih st2 (fun v hv => hwf v (List.mem_cons_of_mem _ hv))
      (fun v hv => hret v (List.mem_cons_of_mem _ hv))
    refine ⟨st1, ?_⟩
    rw [List.map_cons, processLines_cons_line env u _ st hu, hp]
    exact h1

/-- In whatever state the loop returns, a unit of the listing whose three steps
succeed has both its entries, whichever steps of the other units fail. -/
theorem processLines_entry (env : Env) (units : List WorkloadUnit) (st st1 : RunState)
    (u : WorkloadUnit) (sbom report : String)
    (hwf : ∀ v ∈ units, v.WellFormed) (hid : (units.map WorkloadUnit.ID).Nodup)
    (hu : u ∈ units)
    (hg : GenSucceeds env u.ImageRef sbom) (hs : ScanSucceeds env u.ImageRef report)
    (hp : ParseSucceeds env report)
    (h : processLines env (units.map WorkloadUnit.line) st = .done st1) :
    st1.sbomResults.get? u.ID = some sbom ∧
      ∃ l, ParserEmits env report l ∧ st1.cveResults.get? u.ID = some l := by
  induction units generalizing st with
  | nil => simp at hu
  | cons v rest ih =>
    have hv : v.WellFormed := hwf v (by simp)
    have hwfr : ∀ x ∈ rest, x.WellFormed := fun x hx => hwf x (List.mem_cons_of_mem _ hx)
    simp only [List.map_cons, List.nodup_cons] at hid
    rw [List.map_cons, processLines_cons_line env v _ st hv] at h
    rcases hpc : processContainer env v.ID v.ImageRef st with st2 | msg
    · rw [hpc] at h
      by_cases huv : u.ID = v.ID
      · have e : u = v := by
          rcases List.mem_cons.mp hu with e | hin
          · exact e
          · exact absurd (huv ▸ List.mem_map_of_mem WorkloadUnit.ID hin) hid.1
        subst e
        obtain ⟨l, w3, hemit, hpc1⟩ :=
          processContainer_of_succeeds env u.ID u.ImageRef sbom report st hg hs hp
        rw [hpc1] at hpc
        simp only [Ret.done.injEq] at hpc
        subst hpc
        obtain ⟨f1, f2⟩ := processLines_frame env rest _ st1 hwfr h u.ID hid.1
        refine ⟨?_, l, hemit, ?_⟩
        · rw [f1]; exact GoMap.get?_set_self _ _ _
        · rw [f2]; exact GoMap.get?_set_self _ _ _
      · have hin : u ∈ rest := by
          rcases List.mem_cons.mp hu with e | hin
          · exact absurd (congrArg WorkloadUnit.ID e) huv
          · exact hin
        exact ih st2 hwfr hid.2 hin h
    · rw [hpc] at h
      cases h

/-- When the three steps of every unit succeed, the loop adds exactly the IDs of
the listing to the keys of both maps. -/
theorem processLines_keys (env : Env) (units : List WorkloadUnit) (st : RunState)
    (hwf : ∀ v ∈ units, v.WellFormed) (hid : (units.map WorkloadUnit.ID).Nodup)
    (hfresh : ∀ v ∈ units, v.ID ∉ st.sbomResults.keys ∧ v.ID ∉ st.cveResults.keys)
    (hall : ∀ v ∈ units, ∃ sbom report, GenSucceeds env v.ImageRef sbom ∧
      ScanSucceeds env v.ImageRef report ∧ ParseSucceeds env report) :
    ∃ st1, processLines env (units.map WorkloadUnit.line) st = .done st1 ∧
      st1.sbomResults.keys = st.sbomResults.keys ++ units.map WorkloadUnit.ID ∧
      st1.cveResults.keys = st.cveResults.keys ++ units.map WorkloadUnit.ID := by
  induction units generalizing st with
  | nil => exact ⟨st, rfl, by simp, by simp⟩
  | cons v rest ih =>
    have hv : v.WellFormed := hwf v (by simp)
    simp only [List.map_cons, List.nodup_cons] at hid
    obtain ⟨sbom, report, hg, hs, hp⟩ := hall v (by simp)
    obtain ⟨l, w3, _, hpc⟩ := processContainer_of_succeeds env v.ID v.ImageRef sbom report st hg hs hp
    obtain ⟨hf1, hf2⟩ := hfresh v (by simp)
    have hk1 := GoMap.keys_set_of_not_mem st.sbomResults sbom hf1
    have hk2 := GoMap.keys_set_of_not_mem st.cveResults l hf2
    obtain ⟨st1, h1, k1, k2⟩ := ih
      { sbomResults := st.sbomResults.set v.ID sbom,
        cveResults := st.cveResults.set v.ID l, world := w3 }
      (fun x hx => hwf x (List.mem_cons_of_mem _ hx)) hid.2
      (by
        intro x hx
        obtain ⟨g1, g2⟩ := hfresh x (List.mem_cons_of_mem _ hx)
        have hne : x.ID ≠ v.ID := by
          intro e; exact hid.1 (e ▸ List.mem_map_of_mem WorkloadUnit.ID hx)
        rw [hk1, hk2]
        simp only [List.mem_append, List.mem_singleton, not_or]
        exact ⟨⟨g1, hne⟩, ⟨g2, hne⟩⟩)
      (fun x hx => hall x (List.mem_cons_of_mem _ hx))
    refine ⟨st1, ?_, ?_, ?_⟩
    · rw [List.map_cons, processLines_cons_line env v _ st hv, hpc]; exact h1
    · rw [k1, hk1]; simp
    · rw [k2, hk2]; simp

/-! ## The run, one pipeline after the other -/

theorem ListRunningContainers_of_fails (env : Env) (w : World) (e : String)
    (h : ListingFails env e) :
    ListRunningContainers env w =
      ((none, some ("failed to list containers: " ++ e)), afterList w) := by
  unfold ListingFails at h
  rcases hx : env.ExecCommand "docker" ["ps", "--format", psFormat] with ⟨o, e1⟩
  rw [hx] at h
  simp only at h
  subst h
  simp [ListRunningContainers, execCommand, hx, afterList]

theorem ListRunningContainers_of_succeeds (env : Env) (w : World) (output : String)
    (h : ListingSucceeds env output) :
    ListRunningContainers env w =
      (if (Split (TrimSpace output) "\n").length = 0 then
        (none, some "no running containers found")
       else (some (Split (TrimSpace output) "\n"), none), afterList w) := by
  unfold ListingSucceeds at h
  simp only [ListRunningContainers, execCommand, h, afterList]
  split <;> rfl

theorem ListRunningContainers_of_listing (env : Env) (w : World) (units : List WorkloadUnit)
    (hne : units ≠ []) (hwf : ∀ u ∈ units, u.WellFormed)
    (h : ListingSucceeds env (joinLines (units.map WorkloadUnit.line))) :
    ListRunningContainers env w = ((some (units.map WorkloadUnit.line), none), afterList w) := by
  rw [ListRunningContainers_of_succeeds env w _ h, Split_TrimSpace_listing units hne hwf]
  simp [hne]

theorem run_of_listing (env : Env) (w : World) (units : List WorkloadUnit)
    (hne : units ≠ []) (hwf : ∀ u ∈ units, u.WellFormed)
    (h : ListingSucceeds env (joinLines (units.map WorkloadUnit.line))) :
    GenerateSBOMAndScanForCVEs env w =
      match processLines env (units.map WorkloadUnit.line)
          { sbomResults := [], cveResults := [], world := afterList w } with
      | .panic msg => .panic msg
      | .done st =>
        .done ({ sbomResults := some st.sbomResults, cveResults := some st.cveResults,
                 err := none }, st.world) := by
  simp only [GenerateSBOMAndScanForCVEs, ListRunningContainers_of_listing env w units hne hwf h,
    Option.getD_some]

/-- On lines of two or more tokens the loop is the sequence of the pipelines of the
units made of the first two tokens. -/
theorem processLines_eq_processUnits (env : Env) (lines : List String) (st : RunState)
    (h : ∀ l ∈ lines, 2 ≤ (Split l " ").length) :
    processLines env lines st = processUnits env (lines.map unitOfLine) st := by
  induction lines generalizing st with
  | nil => rfl
  | cons l rest ih =>
    have hl : 2 ≤ (Split l " ").length := h l (by simp)
    have hrest : ∀ x ∈ rest, 2 ≤ (Split x " ").length :=
      fun x hx => h x (List.mem_cons_of_mem _ hx)
    rcases hsp : Split l " " with _ | ⟨a, _ | ⟨b, tl⟩⟩
    · rw [hsp] at hl; simp at hl
    · rw [hsp] at hl; simp at hl
    · simp only [processLines, List.map_cons, processUnits, unitOfLine, hsp, index,
        List.get?_cons_zero, List.get?_cons_succ, List.getD_cons_zero, List.getD_cons_succ]
      rcases processContainer env a b st with st1 | msg
      · exact ih st1 hrest
      · rfl

/-! ## The claims -/

set_option maxRecDepth 100000

/-- C2 (defect of the code): enumeration succeeds with the single unit
`12345 nginx`, generation and scan succeed, and the scanner report holds a match
without location; the run then does not return its two maps with a nil error,
it panics. -/
theorem run_panics_on_report_without_location :
    GenerateSBOMAndScanForCVEs (mockEnv noLocationExecutor) World.start =
      .panic "index out of range" := by
  decide

/-- C4: when the listing command fails, `ListRunningContainers` returns an error
and no list, and the run returns that same error with both maps nil, the listing
command being the only command it has issued. -/
theorem run_listing_fails (env : Env) (w : World) (e : String) (h : ListingFails env e) :
    ∃ err,
      ListRunningContainers env w = ((none, some err), afterList w) ∧
      GenerateSBOMAndScanForCVEs env w =
        .done ({ sbomResults := none, cveResults := none, err := some err }, afterList w) ∧
      (afterList w).calls = w.calls ++ [("docker", ["ps", "--format", psFormat])] := by
  refine ⟨"failed to list containers: " ++ e, ListRunningContainers_of_fails env w e h, ?_, rfl⟩
  simp [GenerateSBOMAndScanForCVEs, ListRunningContainers_of_fails env w e h]

/-- Witness of C4: the executor of `TestListRunningContainers_Fail`. -/
theorem run_listing_fails_witness :
    ∃ err,
      ListRunningContainers (mockEnv failListExecutor) World.start =
        ((none, some err), afterList World.start) ∧
      GenerateSBOMAndScanForCVEs (mockEnv failListExecutor) World.start =
        .done ({ sbomResults := none, cveResults := none, err := some err },
          afterList World.start) ∧
      (afterList World.start).calls =
        World.start.calls ++ [("docker", ["ps", "--format", psFormat])] :=
  run_listing_fails (mockEnv failListExecutor) World.start
    ("command failed: " ++ psCommand) (by decide)

/-- C5 (defect of the code): when the listing command succeeds with an output that
is empty or all white space, `ListRunningContainers` returns no error but the
one-element list holding the empty string, and the run panics on it instead of
returning an enumeration error. -/
theorem run_empty_listing (env : Env) (w : World) (output : String)
    (hl : ListingSucceeds env output) (hws : ∀ c ∈ output.data, isSpace c = true) :
    ListRunningContainers env w = ((some [""], none), afterList w) ∧
      GenerateSBOMAndScanForCVEs env w = .panic "index out of range" := by
  have htrim : TrimSpace output = "" := by
    unfold TrimSpace trimSpaceChars
    have : output.data.dropWhile isSpace = [] := List.dropWhile_eq_nil_iff.mpr hws
    rw [this]
    rfl
  have hsplit : Split "" "\n" = [""] := by decide
  have hlist : ListRunningContainers env w = ((some [""], none), afterList w) := by
    rw [ListRunningContainers_of_succeeds env w output hl, htrim, hsplit]
    rfl
  refine ⟨hlist, ?_⟩
  have hsp : Split "" " " = [""] := by decide
  simp [GenerateSBOMAndScanForCVEs, hlist, processLines, hsp, index]

/-- Witness of C5: the listing command prints nothing. -/
theorem run_empty_listing_witness :
    ListRunningContainers (mockEnv emptyListExecutor) World.start =
        ((some [""], none), afterList World.start) ∧
      GenerateSBOMAndScanForCVEs (mockEnv emptyListExecutor) World.start =
        .panic "index out of range" :=
  run_empty_listing (mockEnv emptyListExecutor) World.start "" (by decide) (by decide)

/-- C6, refuted as stated: the listing line `12345 nginx extra` splits into three
tokens, yet the run surfaces no error; it processes the line as container `12345`
with image `nginx` and drops the third token. -/
theorem run_truncates_three_tokens :
    Split "12345 nginx extra" " " = ["12345", "nginx", "extra"] ∧
      GenerateSBOMAndScanForCVEs (mockEnv threeTokenExecutor) World.start =
        .done ({ sbomResults := some [("12345", nginxSBOM)],
                 cveResults := some [("12345", [])], err := none },
          { calls := [("docker", ["ps", "--format", psFormat]),
                      ("syft", ["nginx", "-o", "json"]), ("grype", ["nginx", "-o", "json"])],
            ticks := 0 }) ∧
      ¬ ∃ res w1 e, GenerateSBOMAndScanForCVEs (mockEnv threeTokenExecutor) World.start =
        .done (res, w1) ∧ res.err = some e := by
  have hrun : GenerateSBOMAndScanForCVEs (mockEnv threeTokenExecutor) World.start =
      .done ({ sbomResults := some [("12345", nginxSBOM)],
               cveResults := some [("12345", [])], err := none },
        { calls := [("docker", ["ps", "--format", psFormat]),
                    ("syft", ["nginx", "-o", "json"]), ("grype", ["nginx", "-o", "json"])],
          ticks := 0 }) := by
    decide
  refine ⟨by decide, hrun, ?_⟩
  rintro ⟨res, w1, e, h, he⟩
  rw [hrun] at h
  simp only [Ret.done.injEq, Prod.mk.injEq] at h
  rw [← h.1] at he
  cases he

/-- C7: when the scanner report decodes to matches that each have at least one
location, `parseCVEs` returns no error and appends to the given list exactly one
finding per match, in the order of the matches; each finding carries the
vulnerability id, the severity and the artifact version of its match verbatim, the
path of the first location, and the first fix version, or the empty string when
the match offers no fix version. -/
theorem parseCVEs_one_finding_per_match (env : Env) (w : World) (report : String)
    (cveList : List CVEInfo) (g : GrypeOutput) (hdec : env.Unmarshal report = .ok g)
    (hloc : ∀ m ∈ g.Matches, m.Artifact.Locations ≠ []) :
    ∃ l w1, parseCVEs env w report cveList = .done ((cveList ++ l, none), w1) ∧
      List.Forall₂ FindingOf g.Matches l := by
  obtain ⟨l, hl, hf⟩ := parseCVEs_of_locations env w report cveList g hdec hloc
  exact ⟨l, _, hl, hf⟩

/-- Witness of C7: a report of two matches, the first with two locations and two
fix versions, the second with one location and no fix version. -/
theorem parseCVEs_one_finding_per_match_witness :
    (∃ l w1, parseCVEs (mockEnv successExecutor) World.start twoMatchReport [] =
        .done (([] ++ l, none), w1) ∧ List.Forall₂ FindingOf twoMatchOutput.Matches l) ∧
      parseCVEs (mockEnv successExecutor) World.start twoMatchReport [] =
        .done (([{ CVEName := "CVE-1", Date := 1000, Severity := "High",
                   CurrentVersion := "1.0", ResolvedVersion := "1.1", Path := "/a" },
                 { CVEName := "CVE-2", Date := 1001, Severity := "Low",
                   CurrentVersion := "2.0", ResolvedVersion := "", Path := "/c" }], none),
          { calls := [], ticks := 2 }) :=
  ⟨parseCVEs_one_finding_per_match (mockEnv successExecutor) World.start twoMatchReport []
    twoMatchOutput rfl (by decide), by decide⟩

/-- C8 (defect of the code): when the scanner report decodes to matches one of
which has an empty list of locations, `parseCVEs` does not return an error: it
indexes into the empty list and panics. -/
theorem parseCVEs_panics_without_location (env : Env) (w : World) (report : String)
    (cveList : List CVEInfo) (g : GrypeOutput) (hdec : env.Unmarshal report = .ok g)
    (h : ∃ m ∈ g.Matches, m.Artifact.Locations = []) :
    parseCVEs env w report cveList = .panic "index out of range" :=
  parseCVEs_of_empty_locations env w report cveList g hdec h

/-- Witness of C8: a report whose only match has no location. -/
theorem parseCVEs_panics_without_location_witness :
    parseCVEs (mockEnv successExecutor) World.start noLocationReport [] =
      .panic "index out of range" :=
  parseCVEs_panics_without_location (mockEnv successExecutor) World.start noLocationReport []
    noLocationOutput rfl (by decide)

/-- C9 (defect of the code against its own test): on the input of
`TestGenerateSBOMAndScanForCVEs_FailSBOMGeneration`, completed with the generator
output for redis, generation fails for nginx only; the run then records one SBOM
and one findings list, both for redis, and never calls the scanner for nginx,
where the test expects two findings lists.  On the input of the test as written
the generator output for redis is missing too and both maps come back empty. -/
theorem run_failSBOM_test_records_one_findings_list :
    GenerateSBOMAndScanForCVEs (mockEnv failNginxSBOMExecutor) World.start =
        .done ({ sbomResults := some [("67890", redisSBOM)],
                 cveResults := some [("67890", [])], err := none },
          { calls := [("docker", ["ps", "--format", psFormat]),
                      ("syft", ["nginx", "-o", "json"]), ("syft", ["redis", "-o", "json"]),
                      ("grype", ["redis", "-o", "json"])],
            ticks := 0 }) ∧
      GenerateSBOMAndScanForCVEs (mockEnv failSBOMExecutor) World.start =
        .done ({ sbomResults := some [], cveResults := some [], err := none },
          { calls := [("docker", ["ps", "--format", psFormat]),
                      ("syft", ["nginx", "-o", "json"]), ("syft", ["redis", "-o", "json"])],
            ticks := 0 }) := by
  decide

/-- White space around a text that neither starts nor ends with white space is
what `strings.TrimSpace` removes. -/
theorem trimSpaceChars_surrounded (ws1 core ws2 : List Char)
    (h1 : ∀ c ∈ ws1, isSpace c = true) (h2 : ∀ c ∈ ws2, isSpace c = true)
    (hhead : ∀ c, core.head? = some c → isSpace c = false)
    (hlast : ∀ c, core.getLast? = some c → isSpace c = false) :
    trimSpaceChars (ws1 ++ core ++ ws2) = core := by
  unfold trimSpaceChars
  rw [List.append_assoc, List.dropWhile_append_of_pos h1]
  cases core with
  | nil =>
    have : ws2.dropWhile isSpace = [] := List.dropWhile_eq_nil_iff.mpr h2
    simp [this]
  | cons c cs =>
    have hc : isSpace c = false := hhead c rfl
    have hd : ((c :: cs) ++ ws2).dropWhile isSpace = (c :: cs) ++ ws2 := by
      simp [List.dropWhile, hc]
    rw [hd, List.reverse_append,
      List.dropWhile_append_of_pos (fun a ha => h2 a (List.mem_reverse.mp ha)),
      dropWhile_eq_self_of_head (c :: cs).reverse]
    · simp
    · intro a ha
      rw [List.head?_reverse] at ha
      exact hlast a ha

theorem getLast?_joinChars_eq (c : Char) (ps : List (List Char)) (h : ∀ q ∈ ps, q ≠ []) :
    (joinChars c ps).getLast? = ps.getLast?.bind List.getLast? := by
  induction ps with
  | nil => rfl
  | cons p ps ih =>
    cases ps with
    | nil => simp [joinChars]
    | cons q qs =>
      have hrest : ∀ r ∈ q :: qs, r ≠ [] := fun r hr => h r (List.mem_cons_of_mem _ hr)
      have hne : joinChars c (q :: qs) ≠ [] := joinChars_ne_nil c (q :: qs) (by simp) hrest
      have hcons : (c :: joinChars c (q :: qs)) ≠ [] := by simp
      simp only [joinChars]
      rw [List.getLast?_append_of_ne_nil _ hcons, List.getLast?_cons_cons]
      obtain ⟨y, ys, hy⟩ := List.exists_cons_of_ne_nil hne
      rw [hy, List.getLast?_cons_cons, ← hy]
      exact ih hrest

/-- C14: when the listing command succeeds with n ≥ 1 non-empty, newline-free
records joined by newlines, the whole possibly surrounded by white space (the
first record not starting and the last record not ending with white space, so
that the records are told from what surrounds them), `ListRunningContainers`
returns no error and exactly those records in their order. -/
theorem ListRunningContainers_returns_records (env : Env) (w : World)
    (lead trail : String) (records : List String)
    (hl : ListingSucceeds env (lead ++ joinLines records ++ trail))
    (hlead : ∀ c ∈ lead.data, isSpace c = true)
    (htrail : ∀ c ∈ trail.data, isSpace c = true)
    (hne : records ≠ [])
    (hrec : ∀ r ∈ records, r.data ≠ [] ∧ Char.ofNat 10 ∉ r.data)
    (hfirst : ∀ r, records.head? = some r → StartsWithSpace r = false)
    (hlast : ∀ r, records.getLast? = some r → EndsWithSpace r = false) :
    ListRunningContainers env w = ((some records, none), afterList w) := by
  have hpieces : ∀ q ∈ records.map String.data, q ≠ [] := by
    intro q hq
    simp only [List.mem_map] at hq
    obtain ⟨r, hr, rfl⟩ := hq
    exact (hrec r hr).1
  have htrim : TrimSpace (lead ++ joinLines records ++ trail) = joinLines records := by
    unfold TrimSpace
    rw [String.data_append, String.data_append,
      trimSpaceChars_surrounded lead.data (joinLines records).data trail.data hlead htrail]
    · intro c hc
      obtain ⟨r, rs, rfl⟩ := List.exists_cons_of_ne_nil hne
      rw [joinLines_data, List.map_cons, head?_joinChars _ _ _ (hrec r (by simp)).1] at hc
      have := hfirst r rfl
      simpa [StartsWithSpace, hc] using this
    · intro c hc
      rw [joinLines_data, getLast?_joinChars_eq _ _ hpieces, List.getLast?_map] at hc
      cases hr : records.getLast? with
      | none => rw [hr] at hc; simp at hc
      | some r =>
        rw [hr] at hc
        simp only [Option.map_some', Option.some_bind] at hc
        have := hlast r hr
        simpa [EndsWithSpace, hc] using this
  rw [ListRunningContainers_of_succeeds env w _ hl, htrim,
    Split_joinLines records hne (fun r hr => (hrec r hr).2)]
  simp [hne]

/-- Witness of C14: the two test records between a leading newline and blank and a
trailing blank and newline. -/
theorem ListRunningContainers_returns_records_witness :
    ListRunningContainers (mockEnv paddedListExecutor) World.start =
      ((some ["12345 nginx", "67890 redis"], none), afterList World.start) :=
  ListRunningContainers_returns_records (mockEnv paddedListExecutor) World.start "\n " " \n"
    ["12345 nginx", "67890 redis"] (by decide) (by decide) (by decide) (by decide)
    (by decide) (by decide) (by decide)

/-- A pipeline keeps the keys of the findings map among those of the SBOM map. -/
theorem processContainer_keys_subset (env : Env) (id image : String) (st st1 : RunState)
    (h : processContainer env id image st = .done st1)
    (hsub : ∀ k, k ∈ st.cveResults.keys → k ∈ st.sbomResults.keys) :
    ∀ k, k ∈ st1.cveResults.keys → k ∈ st1.sbomResults.keys := by
  intro k hk
  rcases processContainer_done env id image st st1 h with
    ⟨_, h1, h2, _⟩ | ⟨sbom, _, h1, h2 | ⟨report, l, _, _, h2⟩⟩
  · rw [h1]; rw [h2] at hk; exact hsub k hk
  · rw [h1, GoMap.mem_keys_set]; rw [h2] at hk; exact Or.inr (hsub k hk)
  · rw [h1, GoMap.mem_keys_set]
    rw [h2, GoMap.mem_keys_set] at hk
    rcases hk with e | hk
    · exact Or.inl e
    · exact Or.inr (hsub k hk)

/-- The loop keeps the keys of the findings map among those of the SBOM map,
whatever the listing lines are. -/
theorem processLines_keys_subset (env : Env) (lines : List String) (st st1 : RunState)
    (h : processLines env lines st = .done st1)
    (hsub : ∀ k, k ∈ st.cveResults.keys → k ∈ st.sbomResults.keys) :
    ∀ k, k ∈ st1.cveResults.keys → k ∈ st1.sbomResults.keys := by
  induction lines generalizing st with
  | nil =>
    simp only [processLines, Ret.done.injEq] at h
    subst h
    exact hsub
  | cons l rest ih =>
    rcases hi0 : index (Split l " ") 0 with id | msg
    · rcases hi1 : index (Split l " ") 1 with image | msg
      · rcases hpc : processContainer env id image st with st2 | msg
        · simp only [processLines, hi0, hi1, hpc] at h
          exact ih st2 h (processContainer_keys_subset env id image st st2 hpc hsub)
        · simp [processLines, hi0, hi1, hpc] at h
      · simp [processLines, hi0, hi1] at h
    · simp [processLines, hi0] at h

/-- C15: in every result the run returns, each key of the findings map is a key of
the SBOM map: no unit has findings recorded without its SBOM being recorded.  The
listing is arbitrary; pairwise distinct IDs are not needed. -/
theorem run_findings_keys_subset_sbom_keys (env : Env) (w w1 : World) (res : RunResult)
    (sbomMap : GoMap String) (cveMap : GoMap (List CVEInfo))
    (h : GenerateSBOMAndScanForCVEs env w = .done (res, w1))
    (hs : res.sbomResults = some sbomMap) (hc : res.cveResults = some cveMap) :
    ∀ k, k ∈ cveMap.keys → k ∈ sbomMap.keys := by
  unfold GenerateSBOMAndScanForCVEs at h
  split at h
  · simp only [Ret.done.injEq, Prod.mk.injEq] at h
    rw [← h.1] at hs
    cases hs
  · split at h
    · cases h
    · rename_i st hpl
      simp only [Ret.done.injEq, Prod.mk.injEq] at h
      rw [← h.1] at hs hc
      simp only [Option.some.injEq] at hs hc
      subst hs hc
      exact processLines_keys_subset env _ _ st hpl (by intro k hk; simp [GoMap.keys] at hk)

/-- Witness of C15: the two test units, the scan failing for nginx only; the run
returns two SBOM entries and one findings entry. -/
theorem run_findings_keys_subset_sbom_keys_witness :
    "67890" ∈ GoMap.keys [("67890", ([] : List CVEInfo))] ∧
      "67890" ∈ GoMap.keys [("12345", nginxSBOM), ("67890", redisSBOM)] :=
  ⟨by decide,
    run_findings_keys_subset_sbom_keys (mockEnv failNginxScanExecutor) World.start
      { calls := [("docker", ["ps", "--format", psFormat]),
                  ("syft", ["nginx", "-o", "json"]), ("grype", ["nginx", "-o", "json"]),
                  ("syft", ["redis", "-o", "json"]), ("grype", ["redis", "-o", "json"])],
        ticks := 0 }
      { sbomResults := some [("12345", nginxSBOM), ("67890", redisSBOM)],
        cveResults := some [("67890", [])], err := none }
      [("12345", nginxSBOM), ("67890", redisSBOM)] [("67890", [])] (by decide) rfl rfl
      "67890" (by decide)⟩

/-! ## Independence of the order of the pipelines -/

theorem eraseDates_append (l1 l2 : List CVEInfo) :
    eraseDates (l1 ++ l2) = eraseDates l1 ++ eraseDates l2 := by
  simp [eraseDates]

/-- Two runs of the parser loop on the same matches differ in the timestamps only. -/
theorem parseMatches_agree (env : Env) (ms : List Match) (cl cl1 l l1 : List CVEInfo)
    (w w1 wa wb : World)
    (h : parseMatches env ms cl w = .done (l, wa))
    (h1 : parseMatches env ms cl1 w1 = .done (l1, wb))
    (hcl : eraseDates cl = eraseDates cl1) : eraseDates l = eraseDates l1 := by
  induction ms generalizing cl cl1 w w1 with
  | nil =>
    simp only [parseMatches, Ret.done.injEq, Prod.mk.injEq] at h h1
    rw [← h.1, ← h1.1]
    exact hcl
  | cons m rest ih =>
    rcases hloc : m.Artifact.Locations with _ | ⟨loc, locs⟩
    · simp [parseMatches, timeNow, index, hloc] at h
    · simp only [parseMatches, timeNow, index, hloc, List.get?_cons_zero] at h h1
      refine ih _ _ _ _ h h1 ?_
      rw [eraseDates_append, eraseDates_append, hcl]
      congr 1
      by_cases hv : m.Fix.Versions.length > 0 <;> simp [eraseDates, hv]

/-- Two runs of the parser on the same report end alike: both with the same error,
or both without error and with findings that differ in the timestamps only. -/
theorem parseCVEs_agree (env : Env) (report : String) (w w1 wa wb : World)
    (l l1 : List CVEInfo) (o o1 : Option String)
    (h : parseCVEs env w report [] = .done ((l, o), wa))
    (h1 : parseCVEs env w1 report [] = .done ((l1, o1), wb)) :
    o = o1 ∧ eraseDates l = eraseDates l1 := by
  cases hdec : env.Unmarshal report with
  | error e =>
    rw [parseCVEs_of_decode_error env w report [] e hdec] at h
    rw [parseCVEs_of_decode_error env w1 report [] e hdec] at h1
    simp only [Ret.done.injEq, Prod.mk.injEq] at h h1
    rw [← h.1.1, ← h.1.2, ← h1.1.1, ← h1.1.2]
    exact ⟨rfl, rfl⟩
  | ok g =>
    simp only [parseCVEs, hdec] at h h1
    rcases hp : parseMatches env g.Matches [] w with ⟨la, wa1⟩ | msg
    · rcases hp1 : parseMatches env g.Matches [] w1 with ⟨lb, wb1⟩ | msg
      · rw [hp] at h
        rw [hp1] at h1
        simp only [Ret.done.injEq, Prod.mk.injEq] at h h1
        rw [← h.1.1, ← h.1.2, ← h1.1.1, ← h1.1.2]
        exact ⟨rfl, parseMatches_agree env g.Matches [] [] la lb w w1 wa1 wb1 hp hp1 rfl⟩
      · rw [hp1] at h1; cases h1
    · rw [hp] at h; cases h

/-- What the pipeline of a unit leaves under the unit's own key does not depend on
the state it starts from, timestamps apart. -/
theorem processContainer_agree (env : Env) (id image : String) (st st1 sa sa1 : RunState)
    (h : processContainer env id image st = .done st1)
    (h1 : processContainer env id image sa = .done sa1) :
    (st.sbomResults.get? id = sa.sbomResults.get? id →
      st1.sbomResults.get? id = sa1.sbomResults.get? id) ∧
    ((st.cveResults.get? id).map eraseDates = (sa.cveResults.get? id).map eraseDates →
      (st1.cveResults.get? id).map eraseDates = (sa1.cveResults.get? id).map eraseDates) := by
  rcases hg : env.ExecCommand "syft" [image, "-o", "json"] with ⟨sbom, _ | e⟩
  · rcases hs : env.ExecCommand "grype" [image, "-o", "json"] with ⟨report, _ | e⟩
    · rw [processContainer_of_scanned env id image sbom report st hg hs] at h
      rw [processContainer_of_scanned env id image sbom report sa hg hs] at h1
      rcases hp : parseCVEs env (afterScan st.world image) report [] with ⟨⟨l, o⟩, w3⟩ | msg
      · rcases hp1 : parseCVEs env (afterScan sa.world image) report []
          with ⟨⟨l1, o1⟩, w4⟩ | msg
        · obtain ⟨ho, hl⟩ := parseCVEs_agree env report _ _ w3 w4 l l1 o o1 hp hp1
          subst ho
          rw [hp] at h
          rw [hp1] at h1
          cases o with
          | none =>
            simp only [Ret.done.injEq] at h h1
            subst h h1
            refine ⟨fun _ => ?_, fun _ => ?_⟩
            · simp only [GoMap.get?_set_self]
            · simp only [GoMap.get?_set_self, Option.map_some', hl]
          | some e =>
            simp only [Ret.done.injEq] at h h1
            subst h h1
            refine ⟨fun _ => ?_, fun hc => hc⟩
            simp only [GoMap.get?_set_self]
        · rw [hp1] at h1; cases h1
      · rw [hp] at h; cases h
    · have hs1 : ScanFails env image := by simp [ScanFails, hs]
      rw [processContainer_of_scanFails env id image sbom st hg hs1] at h
      rw [processContainer_of_scanFails env id image sbom sa hg hs1] at h1
      simp only [Ret.done.injEq] at h h1
      subst h h1
      refine ⟨fun _ => ?_, fun hc => hc⟩
      simp only [GoMap.get?_set_self]
  · have hg1 : GenFails env image := by simp [GenFails, hg]
    rw [processContainer_of_genFails env id image st hg1] at h
    rw [processContainer_of_genFails env id image sa hg1] at h1
    simp only [Ret.done.injEq] at h h1
    subst h h1
    exact ⟨fun hc => hc, fun hc => hc⟩

/-- Whether a pipeline returns does not depend on the state it starts from. -/
theorem processContainer_returns_anywhere (env : Env) (id image : String)
    (st st1 sa : RunState) (h : processContainer env id image st = .done st1) :
    ∃ sa1, processContainer env id image sa = .done sa1 := by
  rcases hg : env.ExecCommand "syft" [image, "-o", "json"] with ⟨sbom, _ | e⟩
  · rcases hs : env.ExecCommand "grype" [image, "-o", "json"] with ⟨report, _ | e⟩
    · rw [processContainer_of_scanned env id image sbom report st hg hs] at h
      rw [processContainer_of_scanned env id image sbom report sa hg hs]
      rcases hp : parseCVEs env (afterScan st.world image) report [] with ⟨⟨l, o⟩, w3⟩ | msg
      · have hret : ParseSucceeds env report ∨ ParseFails env report := by
          cases o with
          | none => exact Or.inl ⟨l, _, _, hp⟩
          | some e => exact Or.inr ⟨_, l, e, _, hp⟩
        obtain ⟨res, w4, hp1⟩ :=
          parseCVEs_of_returns env report hret (afterScan sa.world image)
        rw [hp1]
        obtain ⟨l1, _ | e1⟩ := res
        · exact ⟨_, rfl⟩
        · exact ⟨_, rfl⟩
      · rw [hp] at h; cases h
    · have hs1 : ScanFails env image := by simp [ScanFails, hs]
      exact ⟨_, processContainer_of_scanFails env id image sbom sa hg hs1⟩
  · have hg1 : GenFails env image := by simp [GenFails, hg]
    exact ⟨_, processContainer_of_genFails env id image sa hg1⟩

theorem processUnits_frame (env : Env) (units : List WorkloadUnit) (st st1 : RunState)
    (h : processUnits env units st = .done st1) (k : String)
    (hk : k ∉ units.map WorkloadUnit.ID) :
    st1.sbomResults.get? k = st.sbomResults.get? k ∧
      st1.cveResults.get? k = st.cveResults.get? k := by
  induction units generalizing st with
  | nil =>
    simp only [processUnits, Ret.done.injEq] at h
    subst h
    exact ⟨rfl, rfl⟩
  | cons u rest ih =>
    simp only [List.map_cons, List.mem_cons, not_or] at hk
    rcases hp : processContainer env u.ID u.ImageRef st with st2 | msg
    · simp only [processUnits, hp] at h
      obtain ⟨f1, f2⟩ := processContainer_frame env u.ID u.ImageRef st st2 hp k hk.1
      obtain ⟨g1, g2⟩ := ih st2 h hk.2
      exact ⟨g1.trans f1, g2.trans f2⟩
    · simp [processUnits, hp] at h

/-- The sequence of pipelines returns exactly when each of its pipelines returns. -/
theorem processUnits_returns_iff (env : Env) (units : List WorkloadUnit) (st : RunState) :
    (∃ st1, processUnits env units st = .done st1) ↔
      ∀ u ∈ units, ∃ st1, processContainer env u.ID u.ImageRef st = .done st1 := by
  induction units generalizing st with
  | nil => simp [processUnits]
  | cons u rest ih =>
    constructor
    · rintro ⟨st1, h⟩
      rcases hp : processContainer env u.ID u.ImageRef st with st2 | msg
      · simp only [processUnits, hp] at h
        intro v hv
        rcases List.mem_cons.mp hv with rfl | hv
        · exact ⟨st2, hp⟩
        · obtain ⟨s3, h3⟩ := (ih st2).mp ⟨st1, h⟩ v hv
          exact processContainer_returns_anywhere env v.ID v.ImageRef st2 s3 st h3
      · simp [processUnits, hp] at h
    · intro hall
      obtain ⟨st2, hp⟩ := hall u (by simp)
      have hrest : ∀ v ∈ rest, ∃ s3, processContainer env v.ID v.ImageRef st2 = .done s3 := by
        intro v hv
        obtain ⟨s3, h3⟩ := hall v (List.mem_cons_of_mem _ hv)
        exact processContainer_returns_anywhere env v.ID v.ImageRef st s3 st2 h3
      obtain ⟨st1, h1⟩ := (ih st2).mpr hrest
      exact ⟨st1, by simp only [processUnits, hp]; exact h1⟩

/-- With pairwise distinct IDs, what the sequence of pipelines leaves under the ID
of one of its units is what the pipeline of that unit alone leaves there. -/
theorem processUnits_entry (env : Env) (units : List WorkloadUnit) (st st1 : RunState)
    (u : WorkloadUnit) (hid : (units.map WorkloadUnit.ID).Nodup) (hu : u ∈ units)
    (h : processUnits env units st = .done st1) :
    ∃ sa sb, processContainer env u.ID u.ImageRef sa = .done sb ∧
      sa.sbomResults.get? u.ID = st.sbomResults.get? u.ID ∧
      sa.cveResults.get? u.ID = st.cveResults.get? u.ID ∧
      st1.sbomResults.get? u.ID = sb.sbomResults.get? u.ID ∧
      st1.cveResults.get? u.ID = sb.cveResults.get? u.ID := by
  induction units generalizing st with
  | nil => simp at hu
  | cons v rest ih =>
    simp only [List.map_cons, List.nodup_cons] at hid
    rcases hp : processContainer env v.ID v.ImageRef st with st2 | msg
    · simp only [processUnits, hp] at h
      by_cases huv : u.ID = v.ID
      · have e : u = v := by
          rcases List.mem_cons.mp hu with e | hin
          · exact e
          · exact absurd (huv ▸ List.mem_map_of_mem WorkloadUnit.ID hin) hid.1
        subst e
        obtain ⟨f1, f2⟩ := processUnits_frame env rest st2 st1 h u.ID hid.1
        exact ⟨st, st2, hp, rfl, rfl, f1, f2⟩
      · have hin : u ∈ rest := by
          rcases List.mem_cons.mp hu with e | hin
          · exact absurd (congrArg WorkloadUnit.ID e) huv
          · exact hin
        obtain ⟨f1, f2⟩ := processContainer_frame env v.ID v.ImageRef st st2 hp u.ID huv
        obtain ⟨sa, sb, hsa, a1, a2, a3, a4⟩ := ih st2 hid.2 hin h
        exact ⟨sa, sb, hsa, a1.trans f1, a2.trans f2, a3, a4⟩
    · simp [processUnits, hp] at h

/-- With pairwise distinct IDs the maps left by the sequence of pipelines are the
same, timestamps apart, for every order of the units. -/
theorem processUnits_perm (env : Env) (units units1 : List WorkloadUnit)
    (st st1 st2 : RunState) (hperm : units1.Perm units)
    (hid : (units.map WorkloadUnit.ID).Nodup)
    (h : processUnits env units st = .done st1) (h1 : processUnits env units1 st = .done st2)
    (k : String) :
    st1.sbomResults.get? k = st2.sbomResults.get? k ∧
      (st1.cveResults.get? k).map eraseDates = (st2.cveResults.get? k).map eraseDates := by
  have hpm : (units1.map WorkloadUnit.ID).Perm (units.map WorkloadUnit.ID) :=
    hperm.map WorkloadUnit.ID
  have hid1 : (units1.map WorkloadUnit.ID).Nodup := hpm.nodup_iff.mpr hid
  by_cases hk : k ∈ units.map WorkloadUnit.ID
  · obtain ⟨u, hu, rfl⟩ := List.mem_map.mp hk
    have hu1 : u ∈ units1 := hperm.mem_iff.mpr hu
    obtain ⟨sa, sb, ha, a1, a2, a3, a4⟩ := processUnits_entry env units st st1 u hid hu h
    obtain ⟨sc, sd, hc, c1, c2, c3, c4⟩ := processUnits_entry env units1 st st2 u hid1 hu1 h1
    obtain ⟨g1, g2⟩ := processContainer_agree env u.ID u.ImageRef sa sb sc sd ha hc
    refine ⟨?_, ?_⟩
    · rw [a3, c3]
      exact g1 (a1.trans c1.symm)
    · rw [a4, c4]
      exact g2 (by rw [a2, c2])
  · have hk1 : k ∉ units1.map WorkloadUnit.ID := fun e => hk (hpm.mem_iff.mp e)
    obtain ⟨f1, f2⟩ := processUnits_frame env units st st1 h k hk
    obtain ⟨f3, f4⟩ := processUnits_frame env units1 st st2 h1 k hk1
    exact ⟨f1.trans f3.symm, by rw [f2, f4]⟩

/-- Whether the sequence of pipelines returns does not depend on the order. -/
theorem processUnits_returns_perm (env : Env) (units units1 : List WorkloadUnit)
    (st : RunState) (hperm : units1.Perm units) :
    (∃ st1, processUnits env units st = .done st1) ↔
      (∃ st2, processUnits env units1 st = .done st2) := by
  rw [processUnits_returns_iff, processUnits_returns_iff]
  constructor
  · intro hall u hu
    exact hall u (hperm.mem_iff.mp hu)
  · intro hall u hu
    exact hall u (hperm.mem_iff.mpr hu)

theorem unitOfLine_line (u : WorkloadUnit) (h : u.WellFormed) : unitOfLine u.line = u := by
  simp [unitOfLine, Split_line u h]

/-- On a listing of well-formed units the run is the sequence of their pipelines. -/
theorem run_eq_processUnits (env : Env) (w : World) (units : List WorkloadUnit)
    (hne : units ≠ []) (hwf : ∀ u ∈ units, u.WellFormed)
    (h : ListingSucceeds env (joinLines (units.map WorkloadUnit.line))) :
    GenerateSBOMAndScanForCVEs env w =
      match processUnits env units
          { sbomResults := [], cveResults := [], world := afterList w } with
      | .panic msg => .panic msg
      | .done st =>
        .done ({ sbomResults := some st.sbomResults, cveResults := some st.cveResults,
                 err := none }, st.world) := by
  have h2 : ∀ l ∈ units.map WorkloadUnit.line, 2 ≤ (Split l " ").length := by
    intro l hl
    obtain ⟨u, hu, rfl⟩ := List.mem_map.mp hl
    rw [Split_line u (hwf u hu)]
    simp
  have hmap : (units.map WorkloadUnit.line).map unitOfLine = units := by
    rw [List.map_map]
    conv_rhs => rw [← List.map_id units]
    apply List.map_congr_left
    intro u hu
    exact unitOfLine_line u (hwf u hu)
  rw [run_of_listing env w units hne hwf h, processLines_eq_processUnits env _ _ h2, hmap]

/-- C16: for a listing of well-formed units with pairwise distinct IDs and an
executor that is a function of the command, processing the units one after the
other in any permutation returns exactly when the run returns, and leaves the same
SBOM map and the same findings map, timestamps apart, as the run returns; with a
shared ID the maps depend on the order, as two units with ID `1` show. -/
theorem run_independent_of_order (env : Env) (w : World) (units units1 : List WorkloadUnit)
    (hne : units ≠ []) (hwf : ∀ u ∈ units, u.WellFormed)
    (hid : (units.map WorkloadUnit.ID).Nodup)
    (hlist : ListingSucceeds env (joinLines (units.map WorkloadUnit.line)))
    (hperm : units1.Perm units) :
    (∀ res w1, GenerateSBOMAndScanForCVEs env w = .done (res, w1) →
      ∃ st1 sbomMap cveMap,
        processUnits env units1
          { sbomResults := [], cveResults := [], world := afterList w } = .done st1 ∧
        res = RunResult.mk (some sbomMap) (some cveMap) none ∧
        ∀ k, sbomMap.get? k = st1.sbomResults.get? k ∧
          (cveMap.get? k).map eraseDates = (st1.cveResults.get? k).map eraseDates) ∧
    (∀ st1, processUnits env units1
        { sbomResults := [], cveResults := [], world := afterList w } = .done st1 →
      ∃ res w1, GenerateSBOMAndScanForCVEs env w = .done (res, w1)) ∧
    (∃ st1 st2,
      processUnits (mockEnv successExecutor) sameIDUnits
        { sbomResults := [], cveResults := [], world := World.start } = .done st1 ∧
      processUnits (mockEnv successExecutor) sameIDUnits.reverse
        { sbomResults := [], cveResults := [], world := World.start } = .done st2 ∧
      st1.sbomResults.get? "1" = some redisSBOM ∧
      st2.sbomResults.get? "1" = some nginxSBOM ∧
      st1.sbomResults.get? "1" ≠ st2.sbomResults.get? "1") := by
  have hrun := run_eq_processUnits env w units hne hwf hlist
  refine ⟨?_, ?_, ?_⟩
  · intro res w1 h
    rw [hrun] at h
    rcases hp : processUnits env units
      { sbomResults := [], cveResults := [], world := afterList w } with st | msg
    · rw [hp] at h
      simp only [Ret.done.injEq, Prod.mk.injEq] at h
      obtain ⟨st1, hp1⟩ := (processUnits_returns_perm env units units1 _ hperm).mp ⟨st, hp⟩
      exact ⟨st1, st.sbomResults, st.cveResults, hp1, h.1.symm,
        fun k => processUnits_perm env units units1 _ st st1 hperm hid hp hp1 k⟩
    · rw [hp] at h
      cases h
  · intro st1 hp1
    obtain ⟨st, hp⟩ := (processUnits_returns_perm env units units1 _ hperm).mpr ⟨st1, hp1⟩
    rw [hrun, hp]
    exact ⟨_, _, rfl⟩
  · exact ⟨{ sbomResults := [("1", redisSBOM)], cveResults := [("1", [])],
             world := { calls := [("syft", ["nginx", "-o", "json"]),
                                  ("grype", ["nginx", "-o", "json"]),
                                  ("syft", ["redis", "-o", "json"]),
                                  ("grype", ["redis", "-o", "json"])], ticks := 0 } },
           { sbomResults := [("1", nginxSBOM)], cveResults := [("1", [])],
             world := { calls := [("syft", ["redis", "-o", "json"]),
                                  ("grype", ["redis", "-o", "json"]),
                                  ("syft", ["nginx", "-o", "json"]),
                                  ("grype", ["nginx", "-o", "json"])], ticks := 0 } },
           by decide, by decide, by decide, by decide, by decide⟩

/-- Witness of C16: the two test units processed in reverse order. -/
theorem run_independent_of_order_witness :
    ∃ st1,
      processUnits (mockEnv successExecutor) testUnits.reverse
        { sbomResults := [], cveResults := [], world := afterList World.start } = .done st1 ∧
      ∀ k, GoMap.get? [("12345", nginxSBOM), ("67890", redisSBOM)] k =
          st1.sbomResults.get? k ∧
        (GoMap.get? [("12345", ([] : List CVEInfo)), ("67890", [])] k).map eraseDates =
          (st1.cveResults.get? k).map eraseDates := by
  obtain ⟨st1, sbomMap, cveMap, h1, h2, h3⟩ :=
    (run_independent_of_order (mockEnv successExecutor) World.start testUnits
      testUnits.reverse (by decide) (by decide) (by decide) (by decide)
      (List.reverse_perm testUnits)).1
      { sbomResults := some [("12345", nginxSBOM), ("67890", redisSBOM)],
        cveResults := some [("12345", []), ("67890", [])], err := none }
      { calls := [("docker", ["ps", "--format", psFormat]),
                  ("syft", ["nginx", "-o", "json"]), ("grype", ["nginx", "-o", "json"]),
                  ("syft", ["redis", "-o", "json"]), ("grype", ["redis", "-o", "json"])],
        ticks := 0 } (by decide)
  simp only [RunResult.mk.injEq, Option.some.injEq, and_true] at h2
  obtain ⟨e1, e2⟩ := h2
  subst e1 e2
  exact ⟨st1, h1, h3⟩

/-! ## The bound on the executing pipelines -/

theorem countP_set_add (p : Goroutine → Bool) (l : List Goroutine) (i : Nat)
    (g g1 : Goroutine) (h : l.get? i = some g) :
    (l.set i g1).countP p + (if p g then 1 else 0) =
      l.countP p + (if p g1 then 1 else 0) := by
  induction l generalizing i with
  | nil => simp at h
  | cons a l ih =>
    cases i with
    | zero =>
      simp only [List.get?_cons_zero, Option.some.injEq] at h
      subst h
      simp only [List.set_cons_zero, List.countP_cons]
      omega
    | succ n =>
      simp only [List.get?_cons_succ] at h
      have := ih n h
      simp only [List.set_cons_succ, List.countP_cons]
      omega

theorem executing_move (s : Sys) (i : Nat) (g : Goroutine) (pc : PC)
    (hg : s.goroutines.get? i = some g) :
    (s.move i g pc).executing + (if g.pc.holdsPermit then 1 else 0) =
      s.executing + (if pc.holdsPermit then 1 else 0) := by
  have := countP_set_add (fun g => g.pc.holdsPermit) s.goroutines i g { g with pc := pc } hg
  simpa [Sys.executing, Sys.move] using this

/-- The statements a goroutine can execute, one case per statement and outcome. -/
theorem stepGoroutine_cases (x : CtxEnv) (s s1 : Sys) (i : Nat)
    (h : stepGoroutine x s i = some s1) :
    ∃ g, s.goroutines.get? i = some g ∧
      ((g.pc = .waiting ∧ s.sem < maxConcurrency ∧
          s1 = { s.move i g .acquired with sem := s.sem + 1 }) ∨
       (g.pc = .acquired ∧ ∃ o e w1,
          GenerateSBOM (x.toEnv s.ctxDone) s.world g.imageName = ((o, some e), w1) ∧
          s1 = { s.move i g .returning with world := w1 }) ∨
       (g.pc = .acquired ∧ ∃ sbom w1,
          GenerateSBOM (x.toEnv s.ctxDone) s.world g.imageName = ((sbom, none), w1) ∧
          s1 = { s.move i g (.generated sbom) with world := w1 }) ∨
       ((∃ sbom, g.pc = .generated sbom) ∧ s.sbomWriting = true ∧
          s1 = { s with crashed := true }) ∨
       (∃ sbom, g.pc = .generated sbom ∧ s.sbomWriting = false ∧
          s1 = { s.move i g (.storing sbom) with sbomWriting := true }) ∨
       (∃ sbom, g.pc = .storing sbom ∧
          s1 = { s.move i g .stored with
                 sbomResults := s.sbomResults.set g.containerID sbom,
                 sbomWriting := false }) ∨
       (g.pc = .stored ∧ ∃ o e w1,
          ScanForCVEs (x.toEnv s.ctxDone) s.world g.imageName = ((o, some e), w1) ∧
          s1 = { s.move i g .returning with world := w1 }) ∨
       (g.pc = .stored ∧ ∃ report w1,
          ScanForCVEs (x.toEnv s.ctxDone) s.world g.imageName = ((report, none), w1) ∧
          s1 = { s.move i g (.scanned report) with world := w1 }) ∨
       (∃ report, g.pc = .scanned report ∧
          (∃ msg, parseCVEs (x.toEnv s.ctxDone) s.world report [] = .panic msg) ∧
          s1 = { s with crashed := true }) ∨
       (∃ report, g.pc = .scanned report ∧ ∃ l e w1,
          parseCVEs (x.toEnv s.ctxDone) s.world report [] = .done ((l, some e), w1) ∧
          s1 = { s.move i g .returning with world := w1 }) ∨
       (∃ report, g.pc = .scanned report ∧ ∃ l w1,
          parseCVEs (x.toEnv s.ctxDone) s.world report [] = .done ((l, none), w1) ∧
          s1 = { s.move i g (.parsed l) with world := w1 }) ∨
       ((∃ l, g.pc = .parsed l) ∧ s.cveWriting = true ∧ s1 = { s with crashed := true }) ∨
       (∃ l, g.pc = .parsed l ∧ s.cveWriting = false ∧
          s1 = { s.move i g (.recording l) with cveWriting := true }) ∨
       (∃ l, g.pc = .recording l ∧
          s1 = { s.move i g .returning with
                 cveResults := s.cveResults.set g.containerID l, cveWriting := false }) ∨
       (g.pc = .returning ∧ 0 < s.sem ∧
          s1 = { s.move i g .finished with sem := s.sem - 1 })) := by
  unfold stepGoroutine at h
  split at h
  · cases h
  · rename_i g hg
    refine ⟨g, hg, ?_⟩
    split at h
    · rename_i hpc
      split at h
      · rename_i hsem
        simp only [Option.some.injEq] at h
        exact Or.inl ⟨hpc, hsem, h.symm⟩
      · cases h
    · rename_i hpc
      split at h
      · rename_i o e w1 hgen
        simp only [Option.some.injEq] at h
        iterate 1 right
        exact Or.inl ⟨hpc, o, e, w1, hgen, h.symm⟩
      · rename_i sbom w1 hgen
        simp only [Option.some.injEq] at h
        iterate 2 right
        exact Or.inl ⟨hpc, sbom, w1, hgen, h.symm⟩
    · rename_i sbom hpc
      split at h
      · rename_i hw
        simp only [Option.some.injEq] at h
        iterate 3 right
        exact Or.inl ⟨⟨sbom, hpc⟩, hw, h.symm⟩
      · rename_i hw
        simp only [Option.some.injEq] at h
        iterate 4 right
        exact Or.inl ⟨sbom, hpc, by simpa using hw, h.symm⟩
    · rename_i sbom hpc
      simp only [Option.some.injEq] at h
      iterate 5 right
      exact Or.inl ⟨sbom, hpc, h.symm⟩
    · rename_i hpc
      split at h
      · rename_i o e w1 hscan
        simp only [Option.some.injEq] at h
        iterate 6 right
        exact Or.inl ⟨hpc, o, e, w1, hscan, h.symm⟩
      · rename_i report w1 hscan
        simp only [Option.some.injEq] at h
        iterate 7 right
        exact Or.inl ⟨hpc, report, w1, hscan, h.symm⟩
    · rename_i report hpc
      split at h
      · rename_i msg hp
        simp only [Option.some.injEq] at h
        iterate 8 right
        exact Or.inl ⟨report, hpc, ⟨msg, hp⟩, h.symm⟩
      · rename_i l e w1 hp
        simp only [Option.some.injEq] at h
        iterate 9 right
        exact Or.inl ⟨report, hpc, l, e, w1, hp, h.symm⟩
      · rename_i l w1 hp
        simp only [Option.some.injEq] at h
        iterate 10 right
        exact Or.inl ⟨report, hpc, l, w1, hp, h.symm⟩
    · rename_i l hpc
      split at h
      · rename_i hw
        simp only [Option.some.injEq] at h
        iterate 11 right
        exact Or.inl ⟨⟨l, hpc⟩, hw, h.symm⟩
      · rename_i hw
        simp only [Option.some.injEq] at h
        iterate 12 right
        exact Or.inl ⟨l, hpc, by simpa using hw, h.symm⟩
    · rename_i l hpc
      simp only [Option.some.injEq] at h
      iterate 13 right
      exact Or.inl ⟨l, hpc, h.symm⟩
    · rename_i hpc
      split at h
      · rename_i hsem
        simp only [Option.some.injEq] at h
        iterate 14 right
        exact ⟨hpc, hsem, h.symm⟩
      · cases h
    · cases h

/-- The turns of the dispatching loop. -/
theorem stepDispatch_cases (s s1 : Sys) (h : stepDispatch s = some s1) :
    s1 = { s with crashed := true } ∨
      ∃ line rest id image, s.pending = line :: rest ∧
        index (Split line " ") 0 = .done id ∧ index (Split line " ") 1 = .done image ∧
        s1 = { s with pending := rest,
                      goroutines := s.goroutines ++ [Goroutine.mk id image .waiting] } := by
  unfold stepDispatch at h
  rcases hp : s.pending with _ | ⟨line, rest⟩
  · simp [hp] at h
  · simp only [hp] at h
    rcases hi0 : index (Split line " ") 0 with id | msg
    · rcases hi1 : index (Split line " ") 1 with image | msg
      · simp only [hi0, hi1, Option.some.injEq] at h
        exact Or.inr ⟨line, rest, id, image, rfl, hi0, hi1, h.symm⟩
      · simp only [hi0, hi1, Option.some.injEq] at h
        exact Or.inl h.symm
    · simp only [hi0, Option.some.injEq] at h
      exact Or.inl h.symm

/-- A move between two program points at which the permit is held leaves the
number of executing pipelines as it was. -/
theorem executing_move_same (s : Sys) (i : Nat) (g : Goroutine) (pc : PC)
    (hg : s.goroutines.get? i = some g) (h1 : g.pc.holdsPermit = true)
    (h2 : pc.holdsPermit = true) : (s.move i g pc).executing = s.executing := by
  have hm := executing_move s i g pc hg
  rw [h1, h2] at hm
  simp only [if_true] at hm
  omega

/-- The number of goroutines that hold a permit is the number of values in the
channel, and the channel never holds more than its capacity: one step keeps this. -/
theorem step_keeps_bound (x : CtxEnv) (s s1 : Sys) (a : Action)
    (h : step x s a = some s1) (hinv : s.executing = s.sem ∧ s.sem ≤ maxConcurrency) :
    s1.executing = s1.sem ∧ s1.sem ≤ maxConcurrency := by
  unfold step at h
  split at h
  · cases h
  · cases a with
    | cancel =>
      simp only [Option.some.injEq] at h
      subst h
      exact hinv
    | dispatch =>
      rcases stepDispatch_cases s s1 h with h1 | ⟨line, rest, id, image, _, _, _, h1⟩
      · subst h1
        exact hinv
      · subst h1
        refine ⟨?_, hinv.2⟩
        show (s.goroutines ++ [Goroutine.mk id image .waiting]).countP
          (fun g => g.pc.holdsPermit) = s.sem
        rw [List.countP_append, ← hinv.1]
        simp [Sys.executing, PC.holdsPermit]
    | run i =>
      obtain ⟨g, hg, hc⟩ := stepGoroutine_cases x s s1 i h
      rcases hc with ⟨hpc, hsem, h1⟩ | ⟨hpc, _, _, _, _, h1⟩ | ⟨hpc, sbom, _, _, h1⟩ |
        ⟨_, _, h1⟩ | ⟨sbom, hpc, _, h1⟩ | ⟨sbom, hpc, h1⟩ |
        ⟨hpc, _, _, _, _, h1⟩ | ⟨hpc, report, _, _, h1⟩ |
        ⟨_, _, _, h1⟩ | ⟨report, hpc, _, _, _, _, h1⟩ | ⟨report, hpc, l, _, _, h1⟩ |
        ⟨_, _, h1⟩ | ⟨l, hpc, _, h1⟩ | ⟨l, hpc, h1⟩ | ⟨hpc, hsem, h1⟩
      · subst h1
        have hm := executing_move s i g PC.acquired hg
        rw [hpc] at hm
        simp only [PC.holdsPermit, if_true, Bool.false_eq_true, if_false] at hm
        refine ⟨?_, ?_⟩
        · show (s.move i g PC.acquired).executing = s.sem + 1
          omega
        · show s.sem + 1 ≤ maxConcurrency
          omega
      · subst h1
        refine ⟨?_, hinv.2⟩
        show (s.move i g PC.returning).executing = s.sem
        exact (executing_move_same s i g _ hg (by rw [hpc]; rfl) (by rfl)).trans hinv.1
      · subst h1
        refine ⟨?_, hinv.2⟩
        show (s.move i g (PC.generated sbom)).executing = s.sem
        exact (executing_move_same s i g _ hg (by rw [hpc]; rfl) (by rfl)).trans hinv.1
      · subst h1
        exact hinv
      · subst h1
        refine ⟨?_, hinv.2⟩
        show (s.move i g (PC.storing sbom)).executing = s.sem
        exact (executing_move_same s i g _ hg (by rw [hpc]; rfl) (by rfl)).trans hinv.1
      · subst h1
        refine ⟨?_, hinv.2⟩
        show (s.move i g PC.stored).executing = s.sem
        exact (executing_move_same s i g _ hg (by rw [hpc]; rfl) (by rfl)).trans hinv.1
      · subst h1
        refine ⟨?_, hinv.2⟩
        show (s.move i g PC.returning).executing = s.sem
        exact (executing_move_same s i g _ hg (by rw [hpc]; rfl) (by rfl)).trans hinv.1
      · subst h1
        refine ⟨?_, hinv.2⟩
        show (s.move i g (PC.scanned report)).executing = s.sem
        exact (executing_move_same s i g _ hg (by rw [hpc]; rfl) (by rfl)).trans hinv.1
      · subst h1
        exact hinv
      · subst h1
        refine ⟨?_, hinv.2⟩
        show (s.move i g PC.returning).executing = s.sem
        exact (executing_move_same s i g _ hg (by rw [hpc]; rfl) (by rfl)).trans hinv.1
      · subst h1
        refine ⟨?_, hinv.2⟩
        show (s.move i g (PC.parsed l)).executing = s.sem
        exact (executing_move_same s i g _ hg (by rw [hpc]; rfl) (by rfl)).trans hinv.1
      · subst h1
        exact hinv
      · subst h1
        refine ⟨?_, hinv.2⟩
        show (s.move i g (PC.recording l)).executing = s.sem
        exact (executing_move_same s i g _ hg (by rw [hpc]; rfl) (by rfl)).trans hinv.1
      · subst h1
        refine ⟨?_, hinv.2⟩
        show (s.move i g PC.returning).executing = s.sem
        exact (executing_move_same s i g _ hg (by rw [hpc]; rfl) (by rfl)).trans hinv.1
      · subst h1
        have hm := executing_move s i g PC.finished hg
        rw [hpc] at hm
        simp only [PC.holdsPermit, if_true, Bool.false_eq_true, if_false] at hm
        refine ⟨?_, ?_⟩
        · show (s.move i g PC.finished).executing = s.sem - 1
          omega
        · show s.sem - 1 ≤ maxConcurrency
          omega

theorem exec_keeps_bound (x : CtxEnv) (s : Sys) (sched : List Action)
    (hinv : s.executing = s.sem ∧ s.sem ≤ maxConcurrency) :
    (exec x s sched).executing = (exec x s sched).sem ∧
      (exec x s sched).sem ≤ maxConcurrency := by
  induction sched generalizing s with
  | nil => exact hinv
  | cons a rest ih =>
    rcases hs : step x s a with _ | s1
    · simp only [exec, hs]
      exact ih s hinv
    · simp only [exec, hs]
      exact ih s1 (step_keeps_bound x s s1 a hs hinv)

/-- The bound is reached: seven units dispatched, each asked once to go on, leave
five pipelines executing and two waiting for a permit. -/
theorem executing_reaches_maxConcurrency :
    (exec (mockCtxEnv successExecutor)
      (Sys.init ["1 a", "2 a", "3 a", "4 a", "5 a", "6 a", "7 a"] World.start)
      (List.replicate 7 Action.dispatch ++ (List.range 7).map Action.run)).executing = 5 := by
  decide

/-- C12: in every state that any interleaving of the dispatching loop, of the
statements of the goroutines and of the cancellation signal leads to, whatever the
listing lines and the executor are, the number of pipelines that are executing
(goroutines between `sem <- struct{}{}` and `<-sem`) is at most
`maxConcurrency`, which is 5. -/
theorem executing_never_exceeds_maxConcurrency (x : CtxEnv) (containers : List String)
    (w : World) (sched : List Action) :
    (exec x (Sys.init containers w) sched).executing ≤ maxConcurrency ∧
      maxConcurrency = 5 := by
  obtain ⟨h1, h2⟩ := exec_keeps_bound x (Sys.init containers w) sched
    ⟨by simp [Sys.executing, Sys.init], Nat.zero_le _⟩
  exact ⟨h1 ▸ h2, rfl⟩

/-! ## Interleavings -/

theorem exec_append (x : CtxEnv) (s : Sys) (l1 l2 : List Action) :
    exec x s (l1 ++ l2) = exec x (exec x s l1) l2 := by
  induction l1 generalizing s with
  | nil => rfl
  | cons a rest ih =>
    rcases hs : step x s a with _ | s1
    · simp only [List.cons_append, exec, hs]
      exact ih s
    · simp only [List.cons_append, exec, hs]
      exact ih s1

/-- A process that has died stays as it is. -/
theorem exec_of_crashed (x : CtxEnv) (s : Sys) (sched : List Action)
    (h : s.crashed = true) : exec x s sched = s := by
  induction sched with
  | nil => rfl
  | cons a rest ih =>
    have hs : step x s a = none := by simp [step, h]
    simp only [exec, hs]
    exact ih

/-- A property that holds at the start and that every step keeps holds in every
state an interleaving leads to. -/
theorem exec_invariant (x : CtxEnv) (P : Sys → Prop)
    (hstep : ∀ s s1 a, P s → step x s a = some s1 → P s1)
    (s : Sys) (h : P s) (sched : List Action) : P (exec x s sched) := by
  induction sched generalizing s with
  | nil => exact h
  | cons a rest ih =>
    rcases hs : step x s a with _ | s1
    · simp only [exec, hs]
      exact ih s h
    · simp only [exec, hs]
      exact ih s1 (hstep s s1 a h hs)

/-- What a statement of a goroutine leaves alone: the pending lines and the state
of `ctx`; the list of goroutines changes at most in the program point of the one
that moved. -/
theorem stepGoroutine_frame (x : CtxEnv) (s s1 : Sys) (i : Nat)
    (h : stepGoroutine x s i = some s1) :
    ∃ g, s.goroutines.get? i = some g ∧ s1.pending = s.pending ∧ s1.ctxDone = s.ctxDone ∧
      (s1.goroutines = s.goroutines ∨
        ∃ pc, s1.goroutines = s.goroutines.set i { g with pc := pc }) := by
  obtain ⟨g, hg, hc⟩ := stepGoroutine_cases x s s1 i h
  refine ⟨g, hg, ?_⟩
  rcases hc with ⟨_, _, h1⟩ | ⟨_, _, _, _, _, h1⟩ | ⟨_, _, _, _, h1⟩ |
    ⟨_, _, h1⟩ | ⟨_, _, _, h1⟩ | ⟨_, _, h1⟩ |
    ⟨_, _, _, _, _, h1⟩ | ⟨_, _, _, _, h1⟩ |
    ⟨_, _, _, h1⟩ | ⟨_, _, _, _, _, _, h1⟩ | ⟨_, _, _, _, _, h1⟩ |
    ⟨_, _, h1⟩ | ⟨_, _, _, h1⟩ | ⟨_, _, h1⟩ | ⟨_, _, h1⟩
  all_goals
    subst h1
    first
      | exact ⟨rfl, rfl, Or.inl rfl⟩
      | exact ⟨rfl, rfl, Or.inr ⟨_, rfl⟩⟩

/-! ## The dispatching loop -/

theorem index_getD (l : List String) (i : Nat) (a : String) (h : index l i = .done a) :
    l.getD i "" = a := by
  unfold index at h
  rcases hg : l.get? i with _ | b
  · rw [hg] at h
    cases h
  · rw [hg] at h
    simp only [Ret.done.injEq] at h
    subst h
    rw [List.getD_eq_getElem?_getD, ← List.get?_eq_getElem?, hg]
    rfl

theorem index_of_two_tokens (l : List String) (h : 2 ≤ l.length) :
    index l 0 = .done (l.getD 0 "") ∧ index l 1 = .done (l.getD 1 "") := by
  rcases l with _ | ⟨a, _ | ⟨b, tl⟩⟩
  · simp at h
  · simp at h
  · exact ⟨rfl, rfl⟩

theorem map_unit_set (l : List Goroutine) (i : Nat) (g : Goroutine) (pc : PC)
    (h : l.get? i = some g) :
    (l.set i { g with pc := pc }).map Goroutine.unit = l.map Goroutine.unit := by
  induction l generalizing i with
  | nil => rfl
  | cons a l ih =>
    cases i with
    | zero =>
      simp only [List.get?_cons_zero, Option.some.injEq] at h
      subst h
      rfl
    | succ n =>
      simp only [List.get?_cons_succ] at h
      simp only [List.set_cons_succ, List.map_cons, ih n h]

/-- Every step keeps the goroutines in line with the listing: the listing is the
lines dispatched so far followed by the pending ones, and the goroutines are, in
order, those of the units made of the first two tokens of the dispatched lines. -/
theorem step_keeps_dispatched (x : CtxEnv) (lines : List String) (s s1 : Sys) (a : Action)
    (hd : ∃ done, lines = done ++ s.pending ∧
      s.goroutines.map Goroutine.unit = done.map unitOfLine)
    (h : step x s a = some s1) :
    ∃ done, lines = done ++ s1.pending ∧
      s1.goroutines.map Goroutine.unit = done.map unitOfLine := by
  obtain ⟨done, d1, d2⟩ := hd
  unfold step at h
  split at h
  · cases h
  · cases a with
    | cancel =>
      simp only [Option.some.injEq] at h
      subst h
      exact ⟨done, d1, d2⟩
    | dispatch =>
      rcases stepDispatch_cases s s1 h with e | ⟨line, rest, id, image, hp, hi0, hi1, e⟩
      · subst e
        exact ⟨done, d1, d2⟩
      · subst e
        refine ⟨done ++ [line], ?_, ?_⟩
        · show lines = (done ++ [line]) ++ rest
          rw [d1, hp]
          simp
        · show (s.goroutines ++ [Goroutine.mk id image .waiting]).map Goroutine.unit =
            (done ++ [line]).map unitOfLine
          rw [List.map_append, List.map_append, d2]
          have e0 := index_getD _ _ _ hi0
          have e1 := index_getD _ _ _ hi1
          simp only [List.map_cons, List.map_nil, Goroutine.unit, unitOfLine, e0, e1]
    | run i =>
      obtain ⟨g, hg, hp, _, hgs⟩ := stepGoroutine_frame x s s1 i h
      refine ⟨done, by rw [hp]; exact d1, ?_⟩
      rcases hgs with e | ⟨pc, e⟩
      · rw [e]
        exact d2
      · rw [e, map_unit_set _ _ _ _ hg]
        exact d2

/-- A line of two or more tokens is dispatched without a panic, as the goroutine of
its first two tokens. -/
theorem step_dispatch_of_two_tokens (x : CtxEnv) (s : Sys) (l : String) (rest : List String)
    (hc : s.crashed = false) (hp : s.pending = l :: rest) (h2 : 2 ≤ (Split l " ").length) :
    step x s Action.dispatch =
      some { s with pending := rest,
                    goroutines := s.goroutines ++
                      [Goroutine.mk (unitOfLine l).ID (unitOfLine l).ImageRef .waiting] } := by
  obtain ⟨i0, i1⟩ := index_of_two_tokens _ h2
  simp [step, hc, stepDispatch, hp, i0, i1, unitOfLine]

theorem runUnder_of_succeeds (x : CtxEnv) (w : World) (sched : List Action) (output : String)
    (hl : ListingSucceeds (x.toEnv false) output) :
    runUnder x w sched =
      some (exec x (Sys.init (Split (TrimSpace output) "\n") (afterList w)) sched) := by
  have hne : ¬ (Split (TrimSpace output) "\n").length = 0 := by
    intro h0
    exact Split_ne_nil _ _ (by decide) (List.length_eq_zero.mp h0)
  simp only [runUnder, ListRunningContainers_of_succeeds (x.toEnv false) w output hl, hne,
    if_false, Option.getD_some]

theorem runUnder_of_listing (x : CtxEnv) (w : World) (sched : List Action)
    (units : List WorkloadUnit) (hne : units ≠ []) (hwf : ∀ u ∈ units, u.WellFormed)
    (hl : ListingSucceeds (x.toEnv false) (joinLines (units.map WorkloadUnit.line))) :
    runUnder x w sched =
      some (exec x (Sys.init (units.map WorkloadUnit.line) (afterList w)) sched) := by
  simp only [runUnder, ListRunningContainers_of_listing (x.toEnv false) w units hne hwf hl,
    Option.getD_some]

theorem result_some (s : Sys) (res : RunResult) (h : s.result = some res) :
    s.crashed = false ∧ s.pending = [] ∧ (∀ g ∈ s.goroutines, g.pc = .finished) ∧
      res = { sbomResults := some s.sbomResults, cveResults := some s.cveResults,
              err := none } := by
  unfold Sys.result at h
  split at h
  · rename_i hc
    simp only [Option.some.injEq] at h
    refine ⟨hc.1, hc.2.1, ?_, h.symm⟩
    intro g hg
    have := List.all_eq_true.mp hc.2.2 g hg
    simpa using this
  · cases h

/-- C6 as amended: when every line of the listing splits on a single space into two
or more tokens, then in every state that any interleaving leads to, line parsing
has raised no error and dropped no line: the listing is the lines dispatched so far
followed by the pending ones, the goroutines started so far are, in listing order,
those of the dispatched lines, each with the first token of its line as container
ID and the second token as image, further tokens being ignored; the next pending
line is dispatched in the same way, without a panic; and a run that returns has
started one such goroutine per line and returns a nil error. -/
theorem run_dispatches_first_two_tokens (x : CtxEnv) (w : World) (output : String)
    (sched : List Action) (hl : ListingSucceeds (x.toEnv false) output)
    (h2 : ∀ l ∈ Split (TrimSpace output) "\n", 2 ≤ (Split l " ").length) :
    ∃ s, runUnder x w sched = some s ∧
      (∃ done, Split (TrimSpace output) "\n" = done ++ s.pending ∧
        s.goroutines.map Goroutine.unit = done.map unitOfLine) ∧
      (∀ l rest, s.crashed = false → s.pending = l :: rest →
        step x s Action.dispatch =
          some { s with pending := rest,
                        goroutines := s.goroutines ++
                          [Goroutine.mk (unitOfLine l).ID (unitOfLine l).ImageRef .waiting] }) ∧
      (∀ res, s.result = some res → res.err = none ∧
        s.goroutines.map Goroutine.unit =
          (Split (TrimSpace output) "\n").map unitOfLine) := by
  refine ⟨_, runUnder_of_succeeds x w sched output hl, ?_⟩
  have hd := exec_invariant x
    (fun s => ∃ done, Split (TrimSpace output) "\n" = done ++ s.pending ∧
      s.goroutines.map Goroutine.unit = done.map unitOfLine)
    (fun s s1 a hP hs => step_keeps_dispatched x _ s s1 a hP hs)
    (Sys.init (Split (TrimSpace output) "\n") (afterList w)) ⟨[], rfl, rfl⟩ sched
  refine ⟨hd, ?_, ?_⟩
  · intro l rest hc hp
    obtain ⟨done, d1, _⟩ := hd
    refine step_dispatch_of_two_tokens x _ l rest hc hp (h2 l ?_)
    rw [d1, hp]
    simp
  · intro res hres
    obtain ⟨_, hp, _, e⟩ := result_some _ res hres
    obtain ⟨done, d1, d2⟩ := hd
    rw [hp, List.append_nil] at d1
    refine ⟨by rw [e], ?_⟩
    rw [d2, d1]

/-- Witness of C6 as amended: the listing line `12345 nginx extra`, its goroutine
run to the end. -/
theorem run_dispatches_first_two_tokens_witness :
    runUnder (mockCtxEnv threeTokenExecutor) World.start (sequentialSchedule 0 1) =
      some { pending := [],
             goroutines := [Goroutine.mk "12345" "nginx" .finished],
             sem := 0,
             sbomResults := [("12345", nginxSBOM)],
             cveResults := [("12345", [])],
             sbomWriting := false, cveWriting := false,
             world := { calls := [("docker", ["ps", "--format", psFormat]),
                                  ("syft", ["nginx", "-o", "json"]),
                                  ("grype", ["nginx", "-o", "json"])], ticks := 0 },
             ctxDone := false, crashed := false } ∧
    ∃ s, runUnder (mockCtxEnv threeTokenExecutor) World.start (sequentialSchedule 0 1) =
        some s ∧
      (∃ done, Split (TrimSpace "12345 nginx extra") "\n" = done ++ s.pending ∧
        s.goroutines.map Goroutine.unit = done.map unitOfLine) ∧
      (∀ l rest, s.crashed = false → s.pending = l :: rest →
        step (mockCtxEnv threeTokenExecutor) s Action.dispatch =
          some { s with pending := rest,
                        goroutines := s.goroutines ++
                          [Goroutine.mk (unitOfLine l).ID (unitOfLine l).ImageRef .waiting] }) ∧
      (∀ res, s.result = some res → res.err = none ∧
        s.goroutines.map Goroutine.unit =
          (Split (TrimSpace "12345 nginx extra") "\n").map unitOfLine) :=
  ⟨by decide,
    run_dispatches_first_two_tokens (mockCtxEnv threeTokenExecutor) World.start
      "12345 nginx extra" (sequentialSchedule 0 1) (by decide) (by decide)⟩

/-! ## Pipelines that cannot get past their generation call -/

theorem GenerateSBOM_calls (env : Env) (w : World) (image : String) :
    (GenerateSBOM env w image).2.calls = w.calls ++ [("syft", [image, "-o", "json"])] := by
  rcases hx : env.ExecCommand "syft" [image, "-o", "json"] with ⟨o, _ | e⟩ <;>
    simp [GenerateSBOM, execCommand, hx]

theorem ScanForCVEs_calls (env : Env) (w : World) (image : String) :
    (ScanForCVEs env w image).2.calls = w.calls ++ [("grype", [image, "-o", "json"])] := by
  rcases hx : env.ExecCommand "grype" [image, "-o", "json"] with ⟨o, _ | e⟩ <;>
    simp [ScanForCVEs, execCommand, hx]

theorem parseMatches_calls (env : Env) (ms : List Match) (cl l : List CVEInfo) (w w1 : World)
    (h : parseMatches env ms cl w = .done (l, w1)) : w1.calls = w.calls := by
  induction ms generalizing cl w with
  | nil =>
    simp only [parseMatches, Ret.done.injEq, Prod.mk.injEq] at h
    rw [← h.2]
  | cons m rest ih =>
    rcases hloc : m.Artifact.Locations with _ | ⟨loc, locs⟩
    · simp [parseMatches, timeNow, index, hloc] at h
    · simp only [parseMatches, timeNow, index, hloc, List.get?_cons_zero] at h
      have hrest := ih _ _ h
      exact hrest

/-- The parser calls no command. -/
theorem parseCVEs_calls (env : Env) (w : World) (report : String) (cl : List CVEInfo)
    (res : List CVEInfo × Option String) (w1 : World)
    (h : parseCVEs env w report cl = .done (res, w1)) : w1.calls = w.calls := by
  cases hdec : env.Unmarshal report with
  | error e =>
    rw [parseCVEs_of_decode_error env w report cl e hdec] at h
    simp only [Ret.done.injEq, Prod.mk.injEq] at h
    rw [← h.2]
  | ok g =>
    rcases hpm : parseMatches env g.Matches cl w with ⟨l, w2⟩ | msg
    · simp only [parseCVEs, hdec, hpm, Ret.done.injEq, Prod.mk.injEq] at h
      rw [← h.2]
      exact parseMatches_calls env g.Matches cl l w w2 hpm
    · simp [parseCVEs, hdec, hpm] at h

theorem GenerateSBOM_ne_of_fails (env : Env) (w w1 : World) (image sbom : String)
    (h : GenFails env image) : GenerateSBOM env w image ≠ ((sbom, none), w1) := by
  intro hgen
  obtain ⟨e, he⟩ := GenerateSBOM_of_fails env w image h
  rw [he] at hgen
  simp at hgen

/-- A move of one goroutine that does not take a selected goroutine past its
generation call leaves every selected goroutine before or at its generation call. -/
theorem blocked_move (sel : String → String → Prop) (s : Sys) (i : Nat) (g : Goroutine)
    (pc : PC)
    (hs : ∀ h ∈ s.goroutines, sel h.containerID h.imageName → h.pc.pastGeneration = false)
    (hpc : sel g.containerID g.imageName → pc.pastGeneration = false) :
    ∀ h ∈ (s.move i g pc).goroutines,
      sel h.containerID h.imageName → h.pc.pastGeneration = false := by
  intro h hh hsel
  rcases List.mem_or_eq_of_mem_set hh with hm | e
  · exact hs h hm hsel
  · subst e
    exact hpc hsel

/-- Goroutines selected by their container ID and image, for which generation fails
in every state of `ctx` that can still come (`C`): when none of them is past its
generation call, one step leaves it so, changes no map entry under a container ID
whose goroutines are all selected, and issues no scan call for an image whose
goroutines are all selected. -/
theorem step_blocked (x : CtxEnv) (sel : String → String → Prop) (C : Bool → Prop)
    (hC : ∀ b, C b → C true)
    (hfail : ∀ b id img, C b → sel id img → GenFails (x.toEnv b) img)
    (s s1 : Sys) (a : Action) (h : step x s a = some s1) (hc : C s.ctxDone)
    (hs : ∀ g ∈ s.goroutines, sel g.containerID g.imageName → g.pc.pastGeneration = false) :
    C s1.ctxDone ∧
    (∀ g ∈ s1.goroutines, sel g.containerID g.imageName → g.pc.pastGeneration = false) ∧
    (∀ k, (∀ g ∈ s.goroutines, g.containerID = k → sel g.containerID g.imageName) →
      s1.sbomResults.get? k = s.sbomResults.get? k ∧
      s1.cveResults.get? k = s.cveResults.get? k) ∧
    ∃ issued, s1.world.calls = s.world.calls ++ issued ∧
      ∀ img, (∀ g ∈ s.goroutines, g.imageName = img → sel g.containerID g.imageName) →
        ("grype", [img, "-o", "json"]) ∉ issued := by
  unfold step at h
  split at h
  · cases h
  · cases a with
    | cancel =>
      simp only [Option.some.injEq] at h
      subst h
      exact ⟨hC _ hc, hs, fun k _ => ⟨rfl, rfl⟩, [], (List.append_nil _).symm,
        fun _ _ => List.not_mem_nil _⟩
    | dispatch =>
      rcases stepDispatch_cases s s1 h with h1 | ⟨line, rest, id, image, _, _, _, h1⟩
      · subst h1
        exact ⟨hc, hs, fun k _ => ⟨rfl, rfl⟩, [], (List.append_nil _).symm,
          fun _ _ => List.not_mem_nil _⟩
      · subst h1
        refine ⟨hc, ?_, fun k _ => ⟨rfl, rfl⟩, [], (List.append_nil _).symm,
          fun _ _ => List.not_mem_nil _⟩
        intro g hg hsel
        rcases List.mem_append.mp hg with hm | hm
        · exact hs g hm hsel
        · simp only [List.mem_singleton] at hm
          subst hm
          rfl
    | run j =>
      obtain ⟨g, hg, hcases⟩ := stepGoroutine_cases x s s1 j h
      have hmem : g ∈ s.goroutines := List.get?_mem hg
      have hnot : g.pc.pastGeneration = true → ¬ sel g.containerID g.imageName := by
        intro hp hsel
        have := hs g hmem hsel
        rw [hp] at this
        cases this
      rcases hcases with
        ⟨hpc, hsem, h1⟩ |
        ⟨hpc, o, e, w1, hgen, h1⟩ |
        ⟨hpc, sbom, w1, hgen, h1⟩ |
        ⟨_, _, h1⟩ |
        ⟨sbom, hpc, hw, h1⟩ |
        ⟨sbom, hpc, h1⟩ |
        ⟨hpc, o, e, w1, hscan, h1⟩ |
        ⟨hpc, report, w1, hscan, h1⟩ |
        ⟨report, hpc, hp, h1⟩ |
        ⟨report, hpc, l, e, w1, hp, h1⟩ |
        ⟨report, hpc, l, w1, hp, h1⟩ |
        ⟨_, _, h1⟩ |
        ⟨l, hpc, hw, h1⟩ |
        ⟨l, hpc, h1⟩ |
        ⟨hpc, hsem, h1⟩
      · subst h1
        refine ⟨hc, blocked_move sel s j g PC.acquired hs
          (fun _ => rfl), ?_, ?_⟩
        · exact fun k _ => ⟨rfl, rfl⟩
        · exact ⟨[], (List.append_nil _).symm, fun _ _ => List.not_mem_nil _⟩
      · subst h1
        refine ⟨hc, blocked_move sel s j g PC.returning hs
          (fun _ => rfl), ?_, ?_⟩
        · exact fun k _ => ⟨rfl, rfl⟩
        · have hcalls := GenerateSBOM_calls (x.toEnv s.ctxDone) s.world g.imageName
          rw [hgen] at hcalls
          refine ⟨[("syft", [g.imageName, "-o", "json"])], hcalls, fun img _ hin => ?_⟩
          simp at hin
      · subst h1
        refine ⟨hc, blocked_move sel s j g (PC.generated sbom) hs
          (fun hsel => absurd hgen
            (GenerateSBOM_ne_of_fails _ _ _ _ _ (hfail _ _ _ hc hsel))), ?_, ?_⟩
        · exact fun k _ => ⟨rfl, rfl⟩
        · have hcalls := GenerateSBOM_calls (x.toEnv s.ctxDone) s.world g.imageName
          rw [hgen] at hcalls
          refine ⟨[("syft", [g.imageName, "-o", "json"])], hcalls, fun img _ hin => ?_⟩
          simp at hin
      · subst h1
        exact ⟨hc, hs, fun k _ => ⟨rfl, rfl⟩, [], (List.append_nil _).symm,
          fun _ _ => List.not_mem_nil _⟩
      · subst h1
        refine ⟨hc, blocked_move sel s j g (PC.storing sbom) hs
          (fun hsel => absurd hsel (hnot (by rw [hpc]; rfl))), ?_, ?_⟩
        · exact fun k _ => ⟨rfl, rfl⟩
        · exact ⟨[], (List.append_nil _).symm, fun _ _ => List.not_mem_nil _⟩
      · subst h1
        refine ⟨hc, blocked_move sel s j g PC.stored hs
          (fun hsel => absurd hsel (hnot (by rw [hpc]; rfl))), ?_, ?_⟩
        · intro k hk
          refine ⟨?_, rfl⟩
          show (s.sbomResults.set g.containerID sbom).get? k = s.sbomResults.get? k
          exact GoMap.get?_set_other _ _
            (fun e => hnot (by rw [hpc]; rfl) (hk g hmem e.symm))
        · exact ⟨[], (List.append_nil _).symm, fun _ _ => List.not_mem_nil _⟩
      · subst h1
        refine ⟨hc, blocked_move sel s j g PC.returning hs
          (fun _ => rfl), ?_, ?_⟩
        · exact fun k _ => ⟨rfl, rfl⟩
        · have hcalls := ScanForCVEs_calls (x.toEnv s.ctxDone) s.world g.imageName
          rw [hscan] at hcalls
          refine ⟨[("grype", [g.imageName, "-o", "json"])], hcalls, fun img himg hin => ?_⟩
          simp only [List.mem_singleton, Prod.mk.injEq, List.cons.injEq, and_true,
            true_and] at hin
          exact hnot (by rw [hpc]; rfl) (himg g hmem hin.symm)
      · subst h1
        refine ⟨hc, blocked_move sel s j g (PC.scanned report) hs
          (fun hsel => absurd hsel (hnot (by rw [hpc]; rfl))), ?_, ?_⟩
        · exact fun k _ => ⟨rfl, rfl⟩
        · have hcalls := ScanForCVEs_calls (x.toEnv s.ctxDone) s.world g.imageName
          rw [hscan] at hcalls
          refine ⟨[("grype", [g.imageName, "-o", "json"])], hcalls, fun img himg hin => ?_⟩
          simp only [List.mem_singleton, Prod.mk.injEq, List.cons.injEq, and_true,
            true_and] at hin
          exact hnot (by rw [hpc]; rfl) (himg g hmem hin.symm)
      · subst h1
        exact ⟨hc, hs, fun k _ => ⟨rfl, rfl⟩, [], (List.append_nil _).symm,
          fun _ _ => List.not_mem_nil _⟩
      · subst h1
        refine ⟨hc, blocked_move sel s j g PC.returning hs
          (fun _ => rfl), ?_, ?_⟩
        · exact fun k _ => ⟨rfl, rfl⟩
        · have hcalls := parseCVEs_calls (x.toEnv s.ctxDone) s.world report [] _ _ hp
          exact ⟨[], by rw [List.append_nil]; exact hcalls, fun _ _ => List.not_mem_nil _⟩
      · subst h1
        refine ⟨hc, blocked_move sel s j g (PC.parsed l) hs
          (fun hsel => absurd hsel (hnot (by rw [hpc]; rfl))), ?_, ?_⟩
        · exact fun k _ => ⟨rfl, rfl⟩
        · have hcalls := parseCVEs_calls (x.toEnv s.ctxDone) s.world report [] _ _ hp
          exact ⟨[], by rw [List.append_nil]; exact hcalls, fun _ _ => List.not_mem_nil _⟩
      · subst h1
        exact ⟨hc, hs, fun k _ => ⟨rfl, rfl⟩, [], (List.append_nil _).symm,
          fun _ _ => List.not_mem_nil _⟩
      · subst h1
        refine ⟨hc, blocked_move sel s j g (PC.recording l) hs
          (fun hsel => absurd hsel (hnot (by rw [hpc]; rfl))), ?_, ?_⟩
        · exact fun k _ => ⟨rfl, rfl⟩
        · exact ⟨[], (List.append_nil _).symm, fun _ _ => List.not_mem_nil _⟩
      · subst h1
        refine ⟨hc, blocked_move sel s j g PC.returning hs
          (fun _ => rfl), ?_, ?_⟩
        · intro k hk
          refine ⟨rfl, ?_⟩
          show (s.cveResults.set g.containerID l).get? k = s.cveResults.get? k
          exact GoMap.get?_set_other _ _
            (fun e => hnot (by rw [hpc]; rfl) (hk g hmem e.symm))
        · exact ⟨[], (List.append_nil _).symm, fun _ _ => List.not_mem_nil _⟩
      · subst h1
        refine ⟨hc, blocked_move sel s j g PC.finished hs
          (fun _ => rfl), ?_, ?_⟩
        · exact fun k _ => ⟨rfl, rfl⟩
        · exact ⟨[], (List.append_nil _).symm, fun _ _ => List.not_mem_nil _⟩

/-- The same along an interleaving, for states that keep a further property `R`:
the selected goroutines never get past their generation call, the entries under a
container ID whose goroutines are all selected stay as they were, and no scan call
is issued for an image whose goroutines are all selected. -/
theorem exec_blocked (x : CtxEnv) (sel : String → String → Prop) (C : Bool → Prop)
    (hC : ∀ b, C b → C true)
    (hfail : ∀ b id img, C b → sel id img → GenFails (x.toEnv b) img)
    (R : Sys → Prop) (hR : ∀ s s1 a, R s → step x s a = some s1 → R s1)
    (s : Sys) (hR0 : R s) (hc : C s.ctxDone)
    (hs : ∀ g ∈ s.goroutines, sel g.containerID g.imageName → g.pc.pastGeneration = false)
    (sched : List Action) :
    R (exec x s sched) ∧
    (∀ g ∈ (exec x s sched).goroutines,
      sel g.containerID g.imageName → g.pc.pastGeneration = false) ∧
    (∀ k, (∀ t, R t → ∀ g ∈ t.goroutines, g.containerID = k →
        sel g.containerID g.imageName) →
      (exec x s sched).sbomResults.get? k = s.sbomResults.get? k ∧
      (exec x s sched).cveResults.get? k = s.cveResults.get? k) ∧
    (∀ img, (∀ t, R t → ∀ g ∈ t.goroutines, g.imageName = img →
        sel g.containerID g.imageName) →
      ∃ issued, (exec x s sched).world.calls = s.world.calls ++ issued ∧
        ("grype", [img, "-o", "json"]) ∉ issued) := by
  have hinv := exec_invariant x
    (fun t => R t ∧ C t.ctxDone ∧
      (∀ g ∈ t.goroutines, sel g.containerID g.imageName → g.pc.pastGeneration = false) ∧
      (∀ k, (∀ t1, R t1 → ∀ g ∈ t1.goroutines, g.containerID = k →
          sel g.containerID g.imageName) →
        t.sbomResults.get? k = s.sbomResults.get? k ∧
        t.cveResults.get? k = s.cveResults.get? k) ∧
      (∀ img, (∀ t1, R t1 → ∀ g ∈ t1.goroutines, g.imageName = img →
          sel g.containerID g.imageName) →
        ∃ issued, t.world.calls = s.world.calls ++ issued ∧
          ("grype", [img, "-o", "json"]) ∉ issued))
    (by
      intro t t1 a ⟨r, c, b, m, i⟩ hstep
      obtain ⟨c1, b1, m1, issued1, i1, i2⟩ := step_blocked x sel C hC hfail t t1 a hstep c b
      refine ⟨hR t t1 a r hstep, c1, b1, ?_, ?_⟩
      · intro k hk
        obtain ⟨e1, e2⟩ := m1 k (hk t r)
        obtain ⟨f1, f2⟩ := m k hk
        exact ⟨e1.trans f1, e2.trans f2⟩
      · intro img himg
        obtain ⟨issued, j1, j2⟩ := i img himg
        refine ⟨issued ++ issued1, ?_, ?_⟩
        · rw [i1, j1, List.append_assoc]
        · intro hin
          rcases List.mem_append.mp hin with hin | hin
          · exact j2 hin
          · exact i2 img (himg t r) hin)
    s ⟨hR0, hc, hs, fun _ _ => ⟨rfl, rfl⟩,
      fun _ _ => ⟨[], (List.append_nil _).symm, List.not_mem_nil _⟩⟩ sched
  exact ⟨hinv.1, hinv.2.2.1, hinv.2.2.2.1, hinv.2.2.2.2⟩

/-- In a run over well-formed units with pairwise distinct IDs, a goroutine that
works under the ID of a unit works on the image of that unit. -/
theorem goroutine_of_dispatched (units : List WorkloadUnit)
    (hwf : ∀ v ∈ units, v.WellFormed) (hid : (units.map WorkloadUnit.ID).Nodup) (s : Sys)
    (hd : ∃ done, units.map WorkloadUnit.line = done ++ s.pending ∧
      s.goroutines.map Goroutine.unit = done.map unitOfLine)
    (u : WorkloadUnit) (hu : u ∈ units) :
    ∀ g ∈ s.goroutines, g.containerID = u.ID → g.imageName = u.ImageRef := by
  intro g hg he
  obtain ⟨done, d1, d2⟩ := hd
  have h1 : g.unit ∈ done.map unitOfLine := d2 ▸ List.mem_map_of_mem Goroutine.unit hg
  obtain ⟨l, hl, el⟩ := List.mem_map.mp h1
  have h2 : l ∈ units.map WorkloadUnit.line := by
    rw [d1]
    exact List.mem_append_left _ hl
  obtain ⟨v, hv, ev⟩ := List.mem_map.mp h2
  have h3 : g.unit = v := by
    rw [← el, ← ev]
    exact unitOfLine_line v (hwf v hv)
  have h4 : v = u := List.inj_on_of_nodup_map hid hv hu (by rw [← h3]; exact he)
  rw [← h4, ← h3]
  rfl

/-- C10: a pipeline `processContainer` whose generation call fails returns after
that call, without calling the scanner and without writing to either map; and when
generation fails for a unit of a run over well-formed units with pairwise distinct
IDs, then in every state that any interleaving leads to, no scan call for the image
of the unit has been issued, the unit has no entry in either map, the goroutines
that work under its ID are not past their generation call, and a run that returns
returns maps without an entry for the unit. -/
theorem failed_generation_skips_scan (x : CtxEnv) (w : World) (units : List WorkloadUnit)
    (u : WorkloadUnit) (sched : List Action)
    (hwf : ∀ v ∈ units, v.WellFormed) (hid : (units.map WorkloadUnit.ID).Nodup)
    (hlist : ListingSucceeds (x.toEnv false) (joinLines (units.map WorkloadUnit.line)))
    (hu : u ∈ units) (hg : ∀ b, GenFails (x.toEnv b) u.ImageRef) :
    (∀ env id image st, GenFails env image →
      ∃ st1, processContainer env id image st = .done st1 ∧
        st1.sbomResults = st.sbomResults ∧ st1.cveResults = st.cveResults ∧
        st1.world.calls = st.world.calls ++ [("syft", [image, "-o", "json"])]) ∧
    ∃ s, runUnder x w sched = some s ∧
      (∃ issued,
        s.world.calls = w.calls ++ ("docker", ["ps", "--format", psFormat]) :: issued ∧
        ("grype", [u.ImageRef, "-o", "json"]) ∉ issued) ∧
      s.sbomResults.get? u.ID = none ∧ s.cveResults.get? u.ID = none ∧
      (∀ g ∈ s.goroutines, g.containerID = u.ID →
        g.imageName = u.ImageRef ∧ g.pc.pastGeneration = false) ∧
      ∀ res, s.result = some res →
        ∃ sbomMap cveMap, res = RunResult.mk (some sbomMap) (some cveMap) none ∧
          sbomMap.get? u.ID = none ∧ cveMap.get? u.ID = none := by
  have hne : units ≠ [] := List.ne_nil_of_mem hu
  refine ⟨fun env id image st hf =>
    ⟨_, processContainer_of_genFails env id image st hf, rfl, rfl, rfl⟩,
    _, runUnder_of_listing x w sched units hne hwf hlist, ?_⟩
  obtain ⟨hd, hb, hm, hcalls⟩ := exec_blocked x
    (fun _ img => ∀ b, GenFails (x.toEnv b) img) (fun _ => True) (fun _ _ => trivial)
    (fun b _ _ _ h => h b)
    (fun t => ∃ done, units.map WorkloadUnit.line = done ++ t.pending ∧
      t.goroutines.map Goroutine.unit = done.map unitOfLine)
    (fun t t1 a hP hs => step_keeps_dispatched x _ t t1 a hP hs)
    (Sys.init (units.map WorkloadUnit.line) (afterList w)) ⟨[], rfl, rfl⟩ trivial
    (by intro g hg; cases hg) sched
  have himg := goroutine_of_dispatched units hwf hid _ hd u hu
  obtain ⟨m1, m2⟩ := hm u.ID (fun t ht g hgt e b => by
    rw [goroutine_of_dispatched units hwf hid t ht u hu g hgt e]
    exact hg b)
  obtain ⟨issued, c1, c2⟩ := hcalls u.ImageRef (fun t _ g _ e b => by rw [e]; exact hg b)
  have n1 : (exec x (Sys.init (units.map WorkloadUnit.line) (afterList w)) sched).sbomResults.get?
      u.ID = none := m1
  have n2 : (exec x (Sys.init (units.map WorkloadUnit.line) (afterList w)) sched).cveResults.get?
      u.ID = none := m2
  refine ⟨⟨issued, ?_, c2⟩, n1, n2, ?_, ?_⟩
  · rw [c1]
    simp [Sys.init, afterList]
  · intro g hgs e
    have e1 := himg g hgs e
    exact ⟨e1, hb g hgs (fun b => by rw [e1]; exact hg b)⟩
  · intro res hres
    obtain ⟨_, _, _, e⟩ := result_some _ res hres
    exact ⟨_, _, e, n1, n2⟩

/-- Witness of C10: generation fails for nginx, the first of the two test units,
in an interleaving that lets the two goroutines take turns. -/
theorem failed_generation_skips_scan_witness :
    runUnder (mockCtxEnv failNginxSBOMExecutor) World.start takingTurns =
      some { pending := [],
             goroutines := [Goroutine.mk "12345" "nginx" .finished,
                            Goroutine.mk "67890" "redis" .finished],
             sem := 0,
             sbomResults := [("67890", redisSBOM)],
             cveResults := [("67890", [])],
             sbomWriting := false, cveWriting := false,
             world := { calls := [("docker", ["ps", "--format", psFormat]),
                                  ("syft", ["redis", "-o", "json"]),
                                  ("syft", ["nginx", "-o", "json"]),
                                  ("grype", ["redis", "-o", "json"])], ticks := 0 },
             ctxDone := false, crashed := false } ∧
    ∃ s, runUnder (mockCtxEnv failNginxSBOMExecutor) World.start takingTurns = some s ∧
      (∃ issued,
        s.world.calls =
          World.start.calls ++ ("docker", ["ps", "--format", psFormat]) :: issued ∧
        ("grype", ["nginx", "-o", "json"]) ∉ issued) ∧
      s.sbomResults.get? "12345" = none ∧ s.cveResults.get? "12345" = none ∧
      (∀ g ∈ s.goroutines, g.containerID = "12345" →
        g.imageName = "nginx" ∧ g.pc.pastGeneration = false) ∧
      ∀ res, s.result = some res →
        ∃ sbomMap cveMap, res = RunResult.mk (some sbomMap) (some cveMap) none ∧
          sbomMap.get? "12345" = none ∧ cveMap.get? "12345" = none :=
  ⟨by decide,
    (failed_generation_skips_scan (mockCtxEnv failNginxSBOMExecutor) World.start testUnits
      { ID := "12345", ImageRef := "nginx" }
      takingTurns (by decide) (by decide) (by decide) (by decide)
      (fun b => by cases b <;> decide)).2⟩

/-! ## Cancellation -/

theorem get?_set_cases (l : List Goroutine) (j i : Nat) (g1 h : Goroutine)
    (hh : (l.set j g1).get? i = some h) : (i = j ∧ h = g1) ∨ l.get? i = some h := by
  induction l generalizing j i with
  | nil => simp at hh
  | cons a l ih =>
    cases j with
    | zero =>
      cases i with
      | zero =>
        simp only [List.set_cons_zero, List.get?_cons_zero, Option.some.injEq] at hh
        exact Or.inl ⟨rfl, hh.symm⟩
      | succ n =>
        simp only [List.set_cons_zero, List.get?_cons_succ] at hh
        exact Or.inr (by simpa using hh)
    | succ m =>
      cases i with
      | zero =>
        simp only [List.set_cons_succ, List.get?_cons_zero] at hh
        exact Or.inr (by simpa using hh)
      | succ n =>
        simp only [List.set_cons_succ, List.get?_cons_succ] at hh
        rcases ih m n hh with ⟨e, e1⟩ | e
        · exact Or.inl ⟨by omega, e1⟩
        · exact Or.inr (by simpa using e)

theorem get?_append_singleton_cases (l : List Goroutine) (i : Nat) (g0 h : Goroutine)
    (hh : (l ++ [g0]).get? i = some h) : l.get? i = some h ∨ (l.get? i = none ∧ h = g0) := by
  induction l generalizing i with
  | nil =>
    cases i with
    | zero =>
      simp only [List.nil_append, List.get?_cons_zero, Option.some.injEq] at hh
      exact Or.inr ⟨rfl, hh.symm⟩
    | succ n => simp at hh
  | cons a l ih =>
    cases i with
    | zero =>
      simp only [List.cons_append, List.get?_cons_zero] at hh
      exact Or.inl (by simpa using hh)
    | succ n =>
      simp only [List.cons_append, List.get?_cons_succ] at hh
      rcases ih n hh with e | ⟨e, e1⟩
      · exact Or.inl (by simpa using e)
      · exact Or.inr ⟨by simpa using e, e1⟩

/-- A move of goroutine `j` that does not take it past its generation call takes no
goroutine past its generation call. -/
theorem pastGeneration_move (s s1 : Sys) (j : Nat) (g : Goroutine) (pc : PC)
    (hg : s.goroutines.get? j = some g) (hgs : s1.goroutines = (s.move j g pc).goroutines)
    (hpc : g.pc.pastGeneration = false → pc.pastGeneration = false) (i : Nat)
    (hi : s.pastGeneration i = false) : s1.pastGeneration i = false := by
  unfold Sys.pastGeneration at hi ⊢
  rw [hgs]
  rcases hh : (s.move j g pc).goroutines.get? i with _ | h
  · rfl
  · rcases get?_set_cases s.goroutines j i { g with pc := pc } h hh with ⟨e, e1⟩ | e
    · subst e e1
      rw [hg] at hi
      exact hpc hi
    · rw [e] at hi
      exact hi

/-- Once the context is done, an executor that honours it fails the generation
call. -/
theorem GenerateSBOM_of_honours (x : CtxEnv) (hx : HonoursContext x) (w w1 : World)
    (image sbom : String) :
    GenerateSBOM (x.toEnv true) w image ≠ ((sbom, none), w1) := by
  intro h
  have hf : GenFails (x.toEnv true) image := hx "syft" [image, "-o", "json"]
  obtain ⟨e, he⟩ := GenerateSBOM_of_fails (x.toEnv true) w image hf
  rw [he] at h
  simp at h

/-- Once the context is done and the executor honours it, no step takes a goroutine
past its generation call. -/
theorem step_after_cancel (x : CtxEnv) (hx : HonoursContext x) (s s1 : Sys) (a : Action)
    (h : step x s a = some s1) (hc : s.ctxDone = true) :
    s1.ctxDone = true ∧ ∀ i, s.pastGeneration i = false → s1.pastGeneration i = false := by
  unfold step at h
  split at h
  · cases h
  · cases a with
    | cancel =>
      simp only [Option.some.injEq] at h
      subst h
      exact ⟨rfl, fun i hi => hi⟩
    | dispatch =>
      rcases stepDispatch_cases s s1 h with h1 | ⟨line, rest, id, image, _, _, _, h1⟩
      · subst h1
        exact ⟨hc, fun i hi => hi⟩
      · subst h1
        refine ⟨hc, fun i hi => ?_⟩
        unfold Sys.pastGeneration at hi ⊢
        rcases hh : (s.goroutines ++ [Goroutine.mk id image .waiting]).get? i with _ | h
        · rfl
        · rcases get?_append_singleton_cases s.goroutines i _ h hh with e | ⟨_, e⟩
          · rw [e] at hi
            exact hi
          · subst e
            rfl
    | run j =>
      obtain ⟨g, hg, hp, hctx, _⟩ := stepGoroutine_frame x s s1 j h
      refine ⟨by rw [hctx]; exact hc, ?_⟩
      clear hp hctx
      obtain ⟨g1, hg1, hcases⟩ := stepGoroutine_cases x s s1 j h
      have eg : g1 = g := by
        rw [hg] at hg1
        exact (Option.some.inj hg1).symm
      subst eg
      rcases hcases with
          ⟨hpc, hsem, h1⟩ |
          ⟨hpc, o, e, w1, hgen, h1⟩ |
          ⟨hpc, sbom, w1, hgen, h1⟩ |
          ⟨_, _, h1⟩ |
          ⟨sbom, hpc, hw, h1⟩ |
          ⟨sbom, hpc, h1⟩ |
          ⟨hpc, o, e, w1, hscan, h1⟩ |
          ⟨hpc, report, w1, hscan, h1⟩ |
          ⟨report, hpc, hp, h1⟩ |
          ⟨report, hpc, l, e, w1, hp, h1⟩ |
          ⟨report, hpc, l, w1, hp, h1⟩ |
          ⟨_, _, h1⟩ |
          ⟨l, hpc, hw, h1⟩ |
          ⟨l, hpc, h1⟩ |
          ⟨hpc, hsem, h1⟩
      · subst h1
        exact pastGeneration_move s _ j g1 PC.acquired hg rfl (fun _ => rfl)
      · subst h1
        exact pastGeneration_move s _ j g1 PC.returning hg rfl (fun _ => rfl)
      · rw [hc] at hgen
        exact absurd hgen (GenerateSBOM_of_honours x hx _ _ _ _)
      · subst h1
        exact fun i hi => hi
      · subst h1
        exact pastGeneration_move s _ j g1 (PC.storing sbom) hg rfl
          (fun hn => by rw [hpc] at hn; cases hn)
      · subst h1
        exact pastGeneration_move s _ j g1 PC.stored hg rfl
          (fun hn => by rw [hpc] at hn; cases hn)
      · subst h1
        exact pastGeneration_move s _ j g1 PC.returning hg rfl (fun _ => rfl)
      · subst h1
        exact pastGeneration_move s _ j g1 (PC.scanned report) hg rfl
          (fun hn => by rw [hpc] at hn; cases hn)
      · subst h1
        exact fun i hi => hi
      · subst h1
        exact pastGeneration_move s _ j g1 PC.returning hg rfl (fun _ => rfl)
      · subst h1
        exact pastGeneration_move s _ j g1 (PC.parsed l) hg rfl
          (fun hn => by rw [hpc] at hn; cases hn)
      · subst h1
        exact fun i hi => hi
      · subst h1
        exact pastGeneration_move s _ j g1 (PC.recording l) hg rfl
          (fun hn => by rw [hpc] at hn; cases hn)
      · subst h1
        exact pastGeneration_move s _ j g1 PC.returning hg rfl (fun _ => rfl)
      · subst h1
        exact pastGeneration_move s _ j g1 PC.finished hg rfl (fun _ => rfl)

/-- No step removes a key from either map. -/
theorem step_keeps_keys (x : CtxEnv) (s s1 : Sys) (a : Action) (h : step x s a = some s1) :
    (∀ k, k ∈ s.sbomResults.keys → k ∈ s1.sbomResults.keys) ∧
      (∀ k, k ∈ s.cveResults.keys → k ∈ s1.cveResults.keys) := by
  unfold step at h
  split at h
  · cases h
  · cases a with
    | cancel =>
      simp only [Option.some.injEq] at h
      subst h
      exact ⟨fun k hk => hk, fun k hk => hk⟩
    | dispatch =>
      rcases stepDispatch_cases s s1 h with h1 | ⟨line, rest, id, image, _, _, _, h1⟩
      · subst h1
        exact ⟨fun k hk => hk, fun k hk => hk⟩
      · subst h1
        exact ⟨fun k hk => hk, fun k hk => hk⟩
    | run j =>
      obtain ⟨g, hg, hcases⟩ := stepGoroutine_cases x s s1 j h
      rcases hcases with
        ⟨hpc, hsem, h1⟩ |
        ⟨hpc, o, e, w1, hgen, h1⟩ |
        ⟨hpc, sbom, w1, hgen, h1⟩ |
        ⟨_, _, h1⟩ |
        ⟨sbom, hpc, hw, h1⟩ |
        ⟨sbom, hpc, h1⟩ |
        ⟨hpc, o, e, w1, hscan, h1⟩ |
        ⟨hpc, report, w1, hscan, h1⟩ |
        ⟨report, hpc, hp, h1⟩ |
        ⟨report, hpc, l, e, w1, hp, h1⟩ |
        ⟨report, hpc, l, w1, hp, h1⟩ |
        ⟨_, _, h1⟩ |
        ⟨l, hpc, hw, h1⟩ |
        ⟨l, hpc, h1⟩ |
        ⟨hpc, hsem, h1⟩
      · subst h1
        exact ⟨fun k hk => hk, fun k hk => hk⟩
      · subst h1
        exact ⟨fun k hk => hk, fun k hk => hk⟩
      · subst h1
        exact ⟨fun k hk => hk, fun k hk => hk⟩
      · subst h1
        exact ⟨fun k hk => hk, fun k hk => hk⟩
      · subst h1
        exact ⟨fun k hk => hk, fun k hk => hk⟩
      · subst h1
        refine ⟨fun k hk => ?_, fun k hk => hk⟩
        show k ∈ (s.sbomResults.set g.containerID sbom).keys
        rw [GoMap.mem_keys_set]
        exact Or.inr hk
      · subst h1
        exact ⟨fun k hk => hk, fun k hk => hk⟩
      · subst h1
        exact ⟨fun k hk => hk, fun k hk => hk⟩
      · subst h1
        exact ⟨fun k hk => hk, fun k hk => hk⟩
      · subst h1
        exact ⟨fun k hk => hk, fun k hk => hk⟩
      · subst h1
        exact ⟨fun k hk => hk, fun k hk => hk⟩
      · subst h1
        exact ⟨fun k hk => hk, fun k hk => hk⟩
      · subst h1
        exact ⟨fun k hk => hk, fun k hk => hk⟩
      · subst h1
        refine ⟨fun k hk => hk, fun k hk => ?_⟩
        show k ∈ (s.cveResults.set g.containerID l).keys
        rw [GoMap.mem_keys_set]
        exact Or.inr hk
      · subst h1
        exact ⟨fun k hk => hk, fun k hk => hk⟩

theorem exec_keeps_keys (x : CtxEnv) (s : Sys) (sched : List Action) :
    (∀ k, k ∈ s.sbomResults.keys → k ∈ (exec x s sched).sbomResults.keys) ∧
      (∀ k, k ∈ s.cveResults.keys → k ∈ (exec x s sched).cveResults.keys) := by
  induction sched generalizing s with
  | nil => exact ⟨fun k hk => hk, fun k hk => hk⟩
  | cons a rest ih =>
    rcases hs : step x s a with _ | s1
    · simp only [exec, hs]
      exact ih s
    · simp only [exec, hs]
      obtain ⟨a1, a2⟩ := step_keeps_keys x s s1 a hs
      obtain ⟨b1, b2⟩ := ih s1
      exact ⟨fun k hk => b1 k (a1 k hk), fun k hk => b2 k (a2 k hk)⟩

theorem exec_after_cancel (x : CtxEnv) (hx : HonoursContext x) (s : Sys)
    (sched : List Action) (hc : s.ctxDone = true) (i : Nat)
    (hi : s.pastGeneration i = false) : (exec x s sched).pastGeneration i = false := by
  induction sched generalizing s with
  | nil => exact hi
  | cons a rest ih =>
    rcases hs : step x s a with _ | s1
    · simp only [exec, hs]
      exact ih s hc hi
    · simp only [exec, hs]
      obtain ⟨c1, c2⟩ := step_after_cancel x hx s s1 a hs hc
      exact ih s1 c1 (c2 i hi)

theorem pastGeneration_of_notStarted (s : Sys) (i : Nat) (h : s.notStarted i = true) :
    s.pastGeneration i = false := by
  unfold Sys.notStarted at h
  unfold Sys.pastGeneration
  rcases hg : s.goroutines.get? i with _ | g
  · rfl
  · rw [hg] at h
    have e : g.pc = .waiting := by simpa using h
    simp [e, PC.pastGeneration]

/-- C13, refuted as stated: with the mock executor, which ignores `ctx`, the signal
fires before any unit is dispatched, and the first unit is started all the same:
its generation call and its scan call are issued and both its entries are written.
With an executor that fails every call once `ctx` is done the unit is started too
and its generation call is issued. -/
theorem run_starts_units_after_cancellation :
    (exec (mockCtxEnv successExecutor) (Sys.init ["12345 nginx", "67890 redis"] World.start)
        [Action.cancel]).ctxDone = true ∧
    (exec (mockCtxEnv successExecutor) (Sys.init ["12345 nginx", "67890 redis"] World.start)
        [Action.cancel]).notStarted 0 = true ∧
    exec (mockCtxEnv successExecutor) (Sys.init ["12345 nginx", "67890 redis"] World.start)
        ([Action.cancel, Action.dispatch] ++ wholePipeline 0) =
      { pending := ["67890 redis"],
        goroutines := [Goroutine.mk "12345" "nginx" .finished],
        sem := 0,
        sbomResults := [("12345", nginxSBOM)],
        cveResults := [("12345", [])],
        sbomWriting := false, cveWriting := false,
        world := { calls := [("syft", ["nginx", "-o", "json"]),
                             ("grype", ["nginx", "-o", "json"])], ticks := 0 },
        ctxDone := true, crashed := false } ∧
    exec (honouringCtxEnv successExecutor)
        (Sys.init ["12345 nginx", "67890 redis"] World.start)
        ([Action.cancel, Action.dispatch] ++ wholePipeline 0) =
      { pending := ["67890 redis"],
        goroutines := [Goroutine.mk "12345" "nginx" .finished],
        sem := 0,
        sbomResults := [],
        cveResults := [],
        sbomWriting := false, cveWriting := false,
        world := { calls := [("syft", ["nginx", "-o", "json"])], ticks := 0 },
        ctxDone := true, crashed := false } := by
  decide

/-- C13 as amended: once the cancellation signal has fired and the executor fails
every call made with a done context, then in every interleaving from that state on:
a unit that has not started its pipeline (not dispatched yet, or waiting for a
permit) never gets past its generation call; among the calls issued from then on
there is no scan call for an image unless a goroutine working on that image was
already past its generation call when the signal fired; the entries of both result
maps under a container ID are exactly what they were unless a goroutine working
under that ID was already past its generation call when the signal fired; and no
key is ever removed from either result map. -/
theorem cancelled_units_stop_at_generation (x : CtxEnv) (hx : HonoursContext x) (s : Sys)
    (hc : s.ctxDone = true) (sched : List Action) :
    (∀ i, s.notStarted i = true → (exec x s sched).pastGeneration i = false) ∧
    (∀ img, (∀ g ∈ s.goroutines, g.imageName = img → g.pc.pastGeneration = false) →
      ∃ issued, (exec x s sched).world.calls = s.world.calls ++ issued ∧
        ("grype", [img, "-o", "json"]) ∉ issued) ∧
    (∀ k, (∀ g ∈ s.goroutines, g.containerID = k → g.pc.pastGeneration = false) →
      (exec x s sched).sbomResults.get? k = s.sbomResults.get? k ∧
      (exec x s sched).cveResults.get? k = s.cveResults.get? k) ∧
    (∀ k, k ∈ s.sbomResults.keys → k ∈ (exec x s sched).sbomResults.keys) ∧
    (∀ k, k ∈ s.cveResults.keys → k ∈ (exec x s sched).cveResults.keys) := by
  refine ⟨fun i hi => exec_after_cancel x hx s sched hc i (pastGeneration_of_notStarted s i hi),
    ?_, ?_, (exec_keeps_keys x s sched).1, (exec_keeps_keys x s sched).2⟩
  · intro img himg
    exact (exec_blocked x (fun _ im => im = img) (fun b => b = true) (fun _ _ => rfl)
      (fun b _ im hb _ => by subst hb; exact hx "syft" [im, "-o", "json"])
      (fun _ => True) (fun _ _ _ _ _ => trivial) s trivial hc himg sched).2.2.2 img
      (fun _ _ _ _ e => e)
  · intro k hk
    exact (exec_blocked x (fun id _ => id = k) (fun b => b = true) (fun _ _ => rfl)
      (fun b _ im hb _ => by subst hb; exact hx "syft" [im, "-o", "json"])
      (fun _ => True) (fun _ _ _ _ _ => trivial) s trivial hc hk sched).2.2.1 k
      (fun _ _ _ _ e => e)

/-- Witness of C13 as amended: nginx has finished when the signal fires; redis is
dispatched afterwards and stops at its failed generation call: no scan call is
issued for redis, nothing is written under its ID, and the entries of nginx stay. -/
theorem cancelled_units_stop_at_generation_witness :
    exec (honouringCtxEnv successExecutor)
        (Sys.init ["12345 nginx", "67890 redis"] World.start)
        ([Action.dispatch] ++ wholePipeline 0 ++ [Action.cancel]) = afterNginxCancelled ∧
    exec (honouringCtxEnv successExecutor) afterNginxCancelled
        ([Action.dispatch] ++ wholePipeline 1) =
      { pending := [],
        goroutines := [Goroutine.mk "12345" "nginx" .finished,
                       Goroutine.mk "67890" "redis" .finished],
        sem := 0,
        sbomResults := [("12345", nginxSBOM)],
        cveResults := [("12345", [])],
        sbomWriting := false, cveWriting := false,
        world := { calls := [("syft", ["nginx", "-o", "json"]),
                             ("grype", ["nginx", "-o", "json"]),
                             ("syft", ["redis", "-o", "json"])], ticks := 0 },
        ctxDone := true, crashed := false } ∧
    ((∀ i, afterNginxCancelled.notStarted i = true →
        (exec (honouringCtxEnv successExecutor) afterNginxCancelled
          ([Action.dispatch] ++ wholePipeline 1)).pastGeneration i = false) ∧
      (∀ img, (∀ g ∈ afterNginxCancelled.goroutines, g.imageName = img →
          g.pc.pastGeneration = false) →
        ∃ issued, (exec (honouringCtxEnv successExecutor) afterNginxCancelled
            ([Action.dispatch] ++ wholePipeline 1)).world.calls =
            afterNginxCancelled.world.calls ++ issued ∧
          ("grype", [img, "-o", "json"]) ∉ issued) ∧
      (∀ k, (∀ g ∈ afterNginxCancelled.goroutines, g.containerID = k →
          g.pc.pastGeneration = false) →
        (exec (honouringCtxEnv successExecutor) afterNginxCancelled
            ([Action.dispatch] ++ wholePipeline 1)).sbomResults.get? k =
          afterNginxCancelled.sbomResults.get? k ∧
        (exec (honouringCtxEnv successExecutor) afterNginxCancelled
            ([Action.dispatch] ++ wholePipeline 1)).cveResults.get? k =
          afterNginxCancelled.cveResults.get? k) ∧
      (∀ k, k ∈ afterNginxCancelled.sbomResults.keys →
        k ∈ (exec (honouringCtxEnv successExecutor) afterNginxCancelled
          ([Action.dispatch] ++ wholePipeline 1)).sbomResults.keys) ∧
      (∀ k, k ∈ afterNginxCancelled.cveResults.keys →
        k ∈ (exec (honouringCtxEnv successExecutor) afterNginxCancelled
          ([Action.dispatch] ++ wholePipeline 1)).cveResults.keys)) :=
  ⟨by decide, by decide,
    cancelled_units_stop_at_generation (honouringCtxEnv successExecutor)
      (by intro command args; simp [honouringCtxEnv]) afterNginxCancelled rfl
      ([Action.dispatch] ++ wholePipeline 1)⟩

/-! ## Concurrent map writes -/

/-- C1 (defect of the code): on the input of
`TestGenerateSBOMAndScanForCVEs_Success` (two well-formed units with distinct IDs,
every step of both succeeds) the interleaving `overlappingWrites`, in which the
goroutine of redis reaches `sbomResults[containerID] = sbom` while the goroutine of
nginx is inside the same assignment, ends with the process dead of
`fatal error: concurrent map writes` and both maps still empty; whatever follows,
no maps are returned, where the claim promises two entries in each.  When the two
pipelines run one after the other the run does return the two entries of each
map. -/
theorem run_dies_of_concurrent_map_writes :
    runUnder (mockCtxEnv successExecutor) World.start overlappingWrites =
      some { pending := [],
             goroutines := [Goroutine.mk "12345" "nginx" (.storing nginxSBOM),
                            Goroutine.mk "67890" "redis" (.generated redisSBOM)],
             sem := 2,
             sbomResults := [],
             cveResults := [],
             sbomWriting := true, cveWriting := false,
             world := { calls := [("docker", ["ps", "--format", psFormat]),
                                  ("syft", ["nginx", "-o", "json"]),
                                  ("syft", ["redis", "-o", "json"])], ticks := 0 },
             ctxDone := false, crashed := true } ∧
    (∀ sched, (runUnder (mockCtxEnv successExecutor) World.start
        (overlappingWrites ++ sched)).bind Sys.result = none) ∧
    (runUnder (mockCtxEnv successExecutor) World.start (sequentialSchedule 0 2)).bind
        Sys.result =
      some { sbomResults := some [("12345", nginxSBOM), ("67890", redisSBOM)],
             cveResults := some [("12345", []), ("67890", [])], err := none } := by
  refine ⟨by decide, ?_, by decide⟩
  intro sched
  have hl : ListingSucceeds ((mockCtxEnv successExecutor).toEnv false)
      "12345 nginx\n67890 redis" := by decide
  rw [runUnder_of_succeeds _ _ _ _ hl, exec_append,
    exec_of_crashed _ _ sched (by decide)]
  decide

/-- C11 (defect of the code): on the input of
`TestGenerateSBOMAndScanForCVEs_FailCVEScan`, completed with the scanner output for
redis so that generation succeeds for both units and the scan fails for nginx only,
the interleaving `overlappingWrites` ends with the process dead of
`fatal error: concurrent map writes` before any scan is made: whatever follows, the
run does not return, where the claim promises a nil error, two SBOM entries and
one findings entry.  When the two pipelines run one after the other the run does
return exactly that. -/
theorem run_with_failed_scan_dies_of_concurrent_map_writes :
    GenSucceeds (mockEnv failNginxScanExecutor) "nginx" nginxSBOM ∧
    ScanFails (mockEnv failNginxScanExecutor) "nginx" ∧
    runUnder (mockCtxEnv failNginxScanExecutor) World.start overlappingWrites =
      some { pending := [],
             goroutines := [Goroutine.mk "12345" "nginx" (.storing nginxSBOM),
                            Goroutine.mk "67890" "redis" (.generated redisSBOM)],
             sem := 2,
             sbomResults := [],
             cveResults := [],
             sbomWriting := true, cveWriting := false,
             world := { calls := [("docker", ["ps", "--format", psFormat]),
                                  ("syft", ["nginx", "-o", "json"]),
                                  ("syft", ["redis", "-o", "json"])], ticks := 0 },
             ctxDone := false, crashed := true } ∧
    (∀ sched, (runUnder (mockCtxEnv failNginxScanExecutor) World.start
        (overlappingWrites ++ sched)).bind Sys.result = none) ∧
    (runUnder (mockCtxEnv failNginxScanExecutor) World.start (sequentialSchedule 0 2)).bind
        Sys.result =
      some { sbomResults := some [("12345", nginxSBOM), ("67890", redisSBOM)],
             cveResults := some [("67890", [])], err := none } := by
  refine ⟨by decide, by decide, by decide, ?_, by decide⟩
  intro sched
  have hl : ListingSucceeds ((mockCtxEnv failNginxScanExecutor).toEnv false)
      "12345 nginx\n67890 redis" := by decide
  rw [runUnder_of_succeeds _ _ _ _ hl, exec_append,
    exec_of_crashed _ _ sched (by decide)]
  decide

/-! ## A panic in one pipeline -/

theorem get?_set_of_ne (l : List Goroutine) (i j : Nat) (a : Goroutine) (h : i ≠ j) :
    (l.set j a).get? i = l.get? i := by
  induction l generalizing i j with
  | nil => rfl
  | cons b l ih =>
    cases j with
    | zero =>
      cases i with
      | zero => exact absurd rfl h
      | succ n => rfl
    | succ m =>
      cases i with
      | zero => rfl
      | succ n =>
        simp only [List.set_cons_succ, List.get?_cons_succ]
        exact ih n m (by omega)

theorem get?_set_same (l : List Goroutine) (i : Nat) (g a : Goroutine)
    (h : l.get? i = some g) : (l.set i a).get? i = some a := by
  induction l generalizing i with
  | nil => simp at h
  | cons b l ih =>
    cases i with
    | zero => rfl
    | succ n =>
      simp only [List.get?_cons_succ] at h
      simp only [List.set_cons_succ, List.get?_cons_succ]
      exact ih n h

theorem get?_append_of_some (l : List Goroutine) (i : Nat) (g a : Goroutine)
    (h : l.get? i = some g) : (l ++ [a]).get? i = some g := by
  induction l generalizing i with
  | nil => simp at h
  | cons b l ih =>
    cases i with
    | zero => exact h
    | succ n =>
      simp only [List.get?_cons_succ] at h
      simp only [List.cons_append, List.get?_cons_succ]
      exact ih n h

theorem get?_append_length (l : List Goroutine) (a : Goroutine) :
    (l ++ [a]).get? l.length = some a := by
  induction l with
  | nil => rfl
  | cons b l ih =>
    simp only [List.cons_append, List.length_cons, List.get?_cons_succ]
    exact ih

theorem GenFails_of_GenerateSBOM (env : Env) (w w1 : World) (image o e : String)
    (h : GenerateSBOM env w image = ((o, some e), w1)) : GenFails env image := by
  unfold GenFails
  rcases hx : env.ExecCommand "syft" [image, "-o", "json"] with ⟨o1, _ | e1⟩
  · simp [GenerateSBOM, execCommand, hx] at h
  · simp

theorem ScanFails_of_ScanForCVEs (env : Env) (w w1 : World) (image o e : String)
    (h : ScanForCVEs env w image = ((o, some e), w1)) : ScanFails env image := by
  unfold ScanFails
  rcases hx : env.ExecCommand "grype" [image, "-o", "json"] with ⟨o1, _ | e1⟩
  · simp [ScanForCVEs, execCommand, hx] at h
  · simp

theorem ScanSucceeds_of_ScanForCVEs (env : Env) (w w1 : World) (image report : String)
    (h : ScanForCVEs env w image = ((report, none), w1)) : ScanSucceeds env image report := by
  unfold ScanSucceeds
  rcases hx : env.ExecCommand "grype" [image, "-o", "json"] with ⟨o1, _ | e1⟩
  · simp [ScanForCVEs, execCommand, hx] at h
    rw [h.1]
  · simp [ScanForCVEs, execCommand, hx] at h

/-- A state from which the run cannot return without parsing `report` for `image`:
the process has died, or `line` is still pending, or a goroutine that works on
`image` has not parsed its report yet, which can only be `report`. -/
theorem step_keeps_panicking_unit (x : CtxEnv) (line image sbom report : String)
    (hi1 : index (Split line " ") 1 = .done image)
    (hg : ∀ b, GenSucceeds (x.toEnv b) image sbom)
    (hs : ∀ b, ScanSucceeds (x.toEnv b) image report)
    (hp : ∀ b w, parseCVEs (x.toEnv b) w report [] = .panic "index out of range")
    (s s1 : Sys) (a : Action)
    (hI : s.crashed = true ∨ line ∈ s.pending ∨
      ∃ i g, s.goroutines.get? i = some g ∧ g.imageName = image ∧
        g.pc.beforeParseOf report = true)
    (h : step x s a = some s1) :
    s1.crashed = true ∨ line ∈ s1.pending ∨
      ∃ i g, s1.goroutines.get? i = some g ∧ g.imageName = image ∧
        g.pc.beforeParseOf report = true := by
  have hstep := h
  unfold step at h
  split at h
  · cases h
  · rename_i hnc
    rcases hI with hcr | hpend | ⟨i, g, hgi, himg, hlive⟩
    · exact absurd hcr hnc
    · cases a with
      | cancel =>
        simp only [Option.some.injEq] at h
        subst h
        exact Or.inr (Or.inl hpend)
      | dispatch =>
        rcases stepDispatch_cases s s1 h with e | ⟨l0, rest, id0, image0, hp0, j0, j1, e⟩
        · subst e
          exact Or.inl rfl
        · subst e
          rw [hp0] at hpend
          rcases List.mem_cons.mp hpend with e1 | hin
          · subst e1
            rw [hi1] at j1
            simp only [Ret.done.injEq] at j1
            subst j1
            exact Or.inr (Or.inr ⟨s.goroutines.length, _, get?_append_length _ _, rfl, rfl⟩)
          · exact Or.inr (Or.inl hin)
      | run j =>
        obtain ⟨_, _, hp1, _, _⟩ := stepGoroutine_frame x s s1 j h
        exact Or.inr (Or.inl (by rw [hp1]; exact hpend))
    · cases a with
      | cancel =>
        simp only [Option.some.injEq] at h
        subst h
        exact Or.inr (Or.inr ⟨i, g, hgi, himg, hlive⟩)
      | dispatch =>
        rcases stepDispatch_cases s s1 h with e | ⟨l0, rest, id0, image0, hp0, j0, j1, e⟩
        · subst e
          exact Or.inl rfl
        · subst e
          exact Or.inr (Or.inr ⟨i, g, get?_append_of_some _ _ _ _ hgi, himg, hlive⟩)
      | run j =>
        by_cases hij : i = j
        · subst hij
          obtain ⟨g1, hg1, hcases⟩ := stepGoroutine_cases x s s1 i h
          have eg : g1 = g := by
            rw [hgi] at hg1
            exact (Option.some.inj hg1).symm
          subst eg
          have moved : ∀ pc, pc.beforeParseOf report = true →
              ∃ k g2, (s.move i g1 pc).goroutines.get? k = some g2 ∧ g2.imageName = image ∧
                g2.pc.beforeParseOf report = true :=
            fun pc hpc => ⟨i, { g1 with pc := pc }, get?_set_same _ _ _ _ hgi, himg, hpc⟩
          rcases hcases with
            ⟨hpc, hsem, h1⟩ |
            ⟨hpc, o, e, w1, hgen, h1⟩ |
            ⟨hpc, sbom1, w1, hgen, h1⟩ |
            ⟨_, _, h1⟩ |
            ⟨sbom1, hpc, hw, h1⟩ |
            ⟨sbom1, hpc, h1⟩ |
            ⟨hpc, o, e, w1, hscan, h1⟩ |
            ⟨hpc, report1, w1, hscan, h1⟩ |
            ⟨report1, hpc, hp1, h1⟩ |
            ⟨report1, hpc, l, e, w1, hp1, h1⟩ |
            ⟨report1, hpc, l, w1, hp1, h1⟩ |
            ⟨_, _, h1⟩ |
            ⟨l, hpc, hw, h1⟩ |
            ⟨l, hpc, h1⟩ |
            ⟨hpc, hsem, h1⟩
          · subst h1
            exact Or.inr (Or.inr (moved _ rfl))
          · have hf := GenFails_of_GenerateSBOM _ _ _ _ _ _ hgen
            rw [himg] at hf
            have hsuc := hg s.ctxDone
            unfold GenFails at hf
            unfold GenSucceeds at hsuc
            rw [hsuc] at hf
            exact absurd rfl hf
          · subst h1
            exact Or.inr (Or.inr (moved _ rfl))
          · subst h1
            exact Or.inl rfl
          · subst h1
            exact Or.inr (Or.inr (moved _ rfl))
          · subst h1
            exact Or.inr (Or.inr (moved _ rfl))
          · have hf := ScanFails_of_ScanForCVEs _ _ _ _ _ _ hscan
            rw [himg] at hf
            have hsuc := hs s.ctxDone
            unfold ScanFails at hf
            unfold ScanSucceeds at hsuc
            rw [hsuc] at hf
            exact absurd rfl hf
          · have hsc := ScanSucceeds_of_ScanForCVEs _ _ _ _ _ hscan
            rw [himg] at hsc
            have hsuc := hs s.ctxDone
            unfold ScanSucceeds at hsc hsuc
            have er : report1 = report := congrArg Prod.fst (hsc.symm.trans hsuc)
            subst h1 er
            exact Or.inr (Or.inr (moved _ (by simp [PC.beforeParseOf])))
          · subst h1
            exact Or.inl rfl
          · rw [hpc] at hlive
            have er : report1 = report := by simpa [PC.beforeParseOf] using hlive
            subst er
            rw [hp] at hp1
            cases hp1
          · rw [hpc] at hlive
            have er : report1 = report := by simpa [PC.beforeParseOf] using hlive
            subst er
            rw [hp] at hp1
            cases hp1
          · subst h1
            exact Or.inl rfl
          · rw [hpc] at hlive
            cases hlive
          · rw [hpc] at hlive
            cases hlive
          · rw [hpc] at hlive
            cases hlive
        · obtain ⟨g1, hg1, _, _, hgs⟩ := stepGoroutine_frame x s s1 j h
          rcases hgs with e | ⟨pc, e⟩
          · exact Or.inr (Or.inr ⟨i, g, by rw [e]; exact hgi, himg, hlive⟩)
          · exact Or.inr (Or.inr ⟨i, g, by rw [e, get?_set_of_ne _ _ _ _ hij]; exact hgi,
              himg, hlive⟩)

/-- When the listing holds a line whose image is generated and scanned with success
and whose report makes the parser panic, the run returns in no interleaving: the
goroutine of that line cannot finish, and once it parses the process dies. -/
theorem exec_never_returns_of_panicking_unit (x : CtxEnv) (lines : List String) (w : World)
    (line image sbom report : String) (hline : line ∈ lines)
    (hi1 : index (Split line " ") 1 = .done image)
    (hg : ∀ b, GenSucceeds (x.toEnv b) image sbom)
    (hs : ∀ b, ScanSucceeds (x.toEnv b) image report)
    (hp : ∀ b w, parseCVEs (x.toEnv b) w report [] = .panic "index out of range")
    (sched : List Action) : (exec x (Sys.init lines w) sched).result = none := by
  have hI := exec_invariant x
    (fun s => s.crashed = true ∨ line ∈ s.pending ∨
      ∃ i g, s.goroutines.get? i = some g ∧ g.imageName = image ∧
        g.pc.beforeParseOf report = true)
    (fun s s1 a hI h =>
      step_keeps_panicking_unit x line image sbom report hi1 hg hs hp s s1 a hI h)
    (Sys.init lines w) (Or.inr (Or.inl hline)) sched
  rcases hres : (exec x (Sys.init lines w) sched).result with _ | res
  · rfl
  · obtain ⟨hc, hpend, hfin, _⟩ := result_some _ res hres
    rcases hI with hcr | hin | ⟨i, g, hgi, _, hlive⟩
    · rw [hc] at hcr
      cases hcr
    · rw [hpend] at hin
      cases hin
    · have hf := hfin g (List.get?_mem hgi)
      rw [hf] at hlive
      cases hlive

/-- C3 (defect of the code): the two test units, every command succeeding, the
report of redis holding a match without location.  The three steps of nginx
succeed, yet its entries are never returned: when the pipelines run one after the
other both entries of nginx are written and then the parser panics on the report of
redis (`Locations[0]`), which kills the process; and in no interleaving whatever
does the run return its maps. -/
theorem run_loses_entries_when_another_unit_panics :
    GenSucceeds (mockEnv noLocationRedisExecutor) "nginx" nginxSBOM ∧
    ScanSucceeds (mockEnv noLocationRedisExecutor) "nginx" nginxReport ∧
    ParseSucceeds (mockEnv noLocationRedisExecutor) nginxReport ∧
    runUnder (mockCtxEnv noLocationRedisExecutor) World.start (sequentialSchedule 0 2) =
      some { pending := [],
             goroutines := [Goroutine.mk "12345" "nginx" .finished,
                            Goroutine.mk "67890" "redis" (.scanned noLocationReport)],
             sem := 1,
             sbomResults := [("12345", nginxSBOM), ("67890", redisSBOM)],
             cveResults := [("12345", [])],
             sbomWriting := false, cveWriting := false,
             world := { calls := [("docker", ["ps", "--format", psFormat]),
                                  ("syft", ["nginx", "-o", "json"]),
                                  ("grype", ["nginx", "-o", "json"]),
                                  ("syft", ["redis", "-o", "json"]),
                                  ("grype", ["redis", "-o", "json"])], ticks := 0 },
             ctxDone := false, crashed := true } ∧
    ∀ sched, (runUnder (mockCtxEnv noLocationRedisExecutor) World.start sched).bind
      Sys.result = none := by
  refine ⟨by decide, by decide, ⟨[], World.start, World.start, by decide⟩, by decide, ?_⟩
  intro sched
  have hl : ListingSucceeds ((mockCtxEnv noLocationRedisExecutor).toEnv false)
      "12345 nginx\n67890 redis" := by decide
  rw [runUnder_of_succeeds _ _ _ _ hl]
  exact exec_never_returns_of_panicking_unit (mockCtxEnv noLocationRedisExecutor) _ _
    "67890 redis" "redis" redisSBOM noLocationReport (by decide) (by decide)
    (fun b => by cases b <;> decide) (fun b => by cases b <;> decide)
    (fun b w => parseCVEs_of_empty_locations _ w noLocationReport [] noLocationOutput rfl
      (by decide)) sched

/-! ## The keys of the two maps in every interleaving -/

theorem stored_move (s : Sys) (i : Nat) (g : Goroutine) (pc : PC) (K : List String)
    (hs : ∀ h ∈ s.goroutines, h.pc.sbomStored = true → h.containerID ∈ K)
    (hpc : pc.sbomStored = true → g.containerID ∈ K) :
    ∀ h ∈ (s.move i g pc).goroutines, h.pc.sbomStored = true → h.containerID ∈ K := by
  intro h hh hp
  rcases List.mem_or_eq_of_mem_set hh with hm | e
  · exact hs h hm hp
  · subst e
    exact hpc hp

/-- One step keeps the keys of the findings map among those of the SBOM map, and the
ID of every goroutine that has stored its SBOM among the keys of the SBOM map. -/
theorem step_keeps_keys_subset (x : CtxEnv) (s s1 : Sys) (a : Action)
    (hI : (∀ k, k ∈ s.cveResults.keys → k ∈ s.sbomResults.keys) ∧
      ∀ g ∈ s.goroutines, g.pc.sbomStored = true → g.containerID ∈ s.sbomResults.keys)
    (h : step x s a = some s1) :
    (∀ k, k ∈ s1.cveResults.keys → k ∈ s1.sbomResults.keys) ∧
      ∀ g ∈ s1.goroutines, g.pc.sbomStored = true → g.containerID ∈ s1.sbomResults.keys := by
  obtain ⟨hsub, hst⟩ := hI
  unfold step at h
  split at h
  · cases h
  · cases a with
    | cancel =>
      simp only [Option.some.injEq] at h
      subst h
      exact ⟨hsub, hst⟩
    | dispatch =>
      rcases stepDispatch_cases s s1 h with h1 | ⟨line, rest, id, image, _, _, _, h1⟩
      · subst h1
        exact ⟨hsub, hst⟩
      · subst h1
        refine ⟨hsub, ?_⟩
        intro g hg hp
        rcases List.mem_append.mp hg with hm | hm
        · exact hst g hm hp
        · simp only [List.mem_singleton] at hm
          subst hm
          cases hp
    | run j =>
      obtain ⟨g, hg, hcases⟩ := stepGoroutine_cases x s s1 j h
      have hmem : g ∈ s.goroutines := List.get?_mem hg
      rcases hcases with
        ⟨hpc, hsem, h1⟩ |
        ⟨hpc, o, e, w1, hgen, h1⟩ |
        ⟨hpc, sbom, w1, hgen, h1⟩ |
        ⟨_, _, h1⟩ |
        ⟨sbom, hpc, hw, h1⟩ |
        ⟨sbom, hpc, h1⟩ |
        ⟨hpc, o, e, w1, hscan, h1⟩ |
        ⟨hpc, report, w1, hscan, h1⟩ |
        ⟨report, hpc, hp, h1⟩ |
        ⟨report, hpc, l, e, w1, hp, h1⟩ |
        ⟨report, hpc, l, w1, hp, h1⟩ |
        ⟨_, _, h1⟩ |
        ⟨l, hpc, hw, h1⟩ |
        ⟨l, hpc, h1⟩ |
        ⟨hpc, hsem, h1⟩
      · subst h1
        exact ⟨hsub, stored_move s j g PC.acquired _ hst (fun hn => by cases hn)⟩
      · subst h1
        exact ⟨hsub, stored_move s j g PC.returning _ hst (fun hn => by cases hn)⟩
      · subst h1
        exact ⟨hsub, stored_move s j g (PC.generated sbom) _ hst (fun hn => by cases hn)⟩
      · subst h1
        exact ⟨hsub, hst⟩
      · subst h1
        exact ⟨hsub, stored_move s j g (PC.storing sbom) _ hst (fun hn => by cases hn)⟩
      · subst h1
        have hgrow : ∀ k, k ∈ s.sbomResults.keys →
            k ∈ (s.sbomResults.set g.containerID sbom).keys :=
          fun k hk => (GoMap.mem_keys_set _ _ _ _).mpr (Or.inr hk)
        refine ⟨fun k hk => hgrow k (hsub k hk),
          stored_move s j g PC.stored _ (fun h hh hp => hgrow _ (hst h hh hp))
            (fun _ => (GoMap.mem_keys_set _ _ _ _).mpr (Or.inl rfl))⟩
      · subst h1
        exact ⟨hsub, stored_move s j g PC.returning _ hst (fun hn => by cases hn)⟩
      · subst h1
        exact ⟨hsub, stored_move s j g (PC.scanned report) _ hst (fun _ => hst g hmem (by rw [hpc]; rfl))⟩
      · subst h1
        exact ⟨hsub, hst⟩
      · subst h1
        exact ⟨hsub, stored_move s j g PC.returning _ hst (fun hn => by cases hn)⟩
      · subst h1
        exact ⟨hsub, stored_move s j g (PC.parsed l) _ hst (fun _ => hst g hmem (by rw [hpc]; rfl))⟩
      · subst h1
        exact ⟨hsub, hst⟩
      · subst h1
        exact ⟨hsub, stored_move s j g (PC.recording l) _ hst (fun _ => hst g hmem (by rw [hpc]; rfl))⟩
      · subst h1
        refine ⟨fun k hk => ?_, stored_move s j g PC.returning _ hst (fun hn => by cases hn)⟩
        have hk1 : k ∈ (s.cveResults.set g.containerID l).keys := hk
        rcases (GoMap.mem_keys_set _ _ _ _).mp hk1 with e | hin
        · rw [e]
          exact hst g hmem (by rw [hpc]; rfl)
        · exact hsub k hin
      · subst h1
        exact ⟨hsub, stored_move s j g PC.finished _ hst (fun hn => by cases hn)⟩

/-- In every state that any interleaving of a run leads to, whatever the listing and
the executor are, each key of the findings map is a key of the SBOM map. -/
theorem exec_findings_keys_subset (x : CtxEnv) (lines : List String) (w : World)
    (sched : List Action) :
    ∀ k, k ∈ (exec x (Sys.init lines w) sched).cveResults.keys →
      k ∈ (exec x (Sys.init lines w) sched).sbomResults.keys :=
  (exec_invariant x
    (fun s => (∀ k, k ∈ s.cveResults.keys → k ∈ s.sbomResults.keys) ∧
      ∀ g ∈ s.goroutines, g.pc.sbomStored = true → g.containerID ∈ s.sbomResults.keys)
    (fun s s1 a hI h => step_keeps_keys_subset x s s1 a hI h)
    (Sys.init lines w)
    ⟨by intro k hk; simp [Sys.init, GoMap.keys] at hk, by intro g hg; cases hg⟩ sched).1

/-! ## What a unit whose steps succeed leaves in the maps, in every interleaving -/

theorem GenSucceeds_of_GenerateSBOM (env : Env) (w w1 : World) (image sbom : String)
    (h : GenerateSBOM env w image = ((sbom, none), w1)) : GenSucceeds env image sbom := by
  unfold GenSucceeds
  rcases hx : env.ExecCommand "syft" [image, "-o", "json"] with ⟨o1, _ | e1⟩
  · simp [GenerateSBOM, execCommand, hx] at h
    rw [h.1]
  · simp [GenerateSBOM, execCommand, hx] at h

/-- What is known at a program point stays known when the SBOM entry stays and the
findings entry stays one the parser emitted. -/
theorem consistentWith_mono (sbom report : String) (emits : List CVEInfo → Prop)
    (e1 e1a : Option String) (e2 e2a : Option (List CVEInfo)) (pc : PC)
    (h1 : e1 = some sbom → e1a = some sbom)
    (h2 : (∃ l, emits l ∧ e2 = some l) → ∃ l, emits l ∧ e2a = some l)
    (h : pc.consistentWith sbom report emits e1 e2) :
    pc.consistentWith sbom report emits e1a e2a := by
  cases pc with
  | waiting => trivial
  | acquired => trivial
  | generated sb => exact h
  | storing sb => exact h
  | stored => exact h1 h
  | scanned r => exact ⟨h1 h.1, h.2⟩
  | parsed l => exact ⟨h1 h.1, h.2⟩
  | recording l => exact ⟨h1 h.1, h.2⟩
  | returning => exact ⟨h1 h.1, h2 h.2⟩
  | finished => exact ⟨h1 h.1, h2 h.2⟩

theorem consistent_move (sbom report : String) (emits : List CVEInfo → Prop) (k : String)
    (s : Sys) (i : Nat) (g : Goroutine) (pc : PC)
    (e1 e1a : Option String) (e2 e2a : Option (List CVEInfo))
    (hold : ∀ h ∈ s.goroutines, h.containerID = k →
      h.pc.consistentWith sbom report emits e1 e2)
    (h1 : e1 = some sbom → e1a = some sbom)
    (h2 : (∃ l, emits l ∧ e2 = some l) → ∃ l, emits l ∧ e2a = some l)
    (hnew : g.containerID = k → pc.consistentWith sbom report emits e1a e2a) :
    ∀ h ∈ (s.move i g pc).goroutines, h.containerID = k →
      h.pc.consistentWith sbom report emits e1a e2a := by
  intro h hh hk
  rcases List.mem_or_eq_of_mem_set hh with hm | e
  · exact consistentWith_mono sbom report emits e1 e1a e2 e2a h.pc h1 h2 (hold h hm hk)
  · subst e
    exact hnew hk

/-- One step keeps, for every goroutine that works under the ID of a unit whose
generation, scan and parse succeed, what its program point says of the two maps:
the SBOM it holds or has stored is the generator output, the report it holds is the
scanner output, and the findings it holds or has recorded are a list the parser
emitted. -/
theorem step_keeps_consistent (x : CtxEnv) (u : WorkloadUnit) (sbom report : String)
    (emits : List CVEInfo → Prop)
    (hemits : ∀ b w l w1, parseCVEs (x.toEnv b) w report [] = .done ((l, none), w1) → emits l)
    (hg : ∀ b, GenSucceeds (x.toEnv b) u.ImageRef sbom)
    (hs : ∀ b, ScanSucceeds (x.toEnv b) u.ImageRef report)
    (hp : ∀ b, ParseSucceeds (x.toEnv b) report)
    (s s1 : Sys) (a : Action)
    (himg : ∀ g ∈ s.goroutines, g.containerID = u.ID → g.imageName = u.ImageRef)
    (hW : ∀ g ∈ s.goroutines, g.containerID = u.ID →
      g.pc.consistentWith sbom report emits (s.sbomResults.get? u.ID)
        (s.cveResults.get? u.ID))
    (h : step x s a = some s1) :
    ∀ g ∈ s1.goroutines, g.containerID = u.ID →
      g.pc.consistentWith sbom report emits (s1.sbomResults.get? u.ID)
        (s1.cveResults.get? u.ID) := by
  unfold step at h
  split at h
  · cases h
  · cases a with
    | cancel =>
      simp only [Option.some.injEq] at h
      subst h
      exact hW
    | dispatch =>
      rcases stepDispatch_cases s s1 h with h1 | ⟨line, rest, id, image, _, _, _, h1⟩
      · subst h1
        exact hW
      · subst h1
        intro g hg1 hk
        rcases List.mem_append.mp hg1 with hm | hm
        · exact hW g hm hk
        · simp only [List.mem_singleton] at hm
          subst hm
          trivial
    | run j =>
      obtain ⟨g, hgj, hcases⟩ := stepGoroutine_cases x s s1 j h
      have hmem : g ∈ s.goroutines := List.get?_mem hgj
      rcases hcases with
        ⟨hpc, hsem, h1⟩ |
        ⟨hpc, o, e, w1, hgen, h1⟩ |
        ⟨hpc, sb, w1, hgen, h1⟩ |
        ⟨_, _, h1⟩ |
        ⟨sb, hpc, hw, h1⟩ |
        ⟨sb, hpc, h1⟩ |
        ⟨hpc, o, e, w1, hscan, h1⟩ |
        ⟨hpc, r, w1, hscan, h1⟩ |
        ⟨r, hpc, hp1, h1⟩ |
        ⟨r, hpc, l, e, w1, hp1, h1⟩ |
        ⟨r, hpc, l, w1, hp1, h1⟩ |
        ⟨_, _, h1⟩ |
        ⟨l, hpc, hw, h1⟩ |
        ⟨l, hpc, h1⟩ |
        ⟨hpc, hsem, h1⟩
      · subst h1
        exact consistent_move sbom report emits u.ID s j g PC.acquired _ _ _ _ hW
          (fun e => e) (fun e => e)
          (fun _ => trivial)
      · subst h1
        exact consistent_move sbom report emits u.ID s j g PC.returning _ _ _ _ hW
          (fun e => e) (fun e => e)
          (fun e => absurd (hg s.ctxDone)
            (by
              have hf := GenFails_of_GenerateSBOM _ _ _ _ _ _ hgen
              rw [himg g hmem e] at hf
              intro hsuc
              unfold GenFails at hf
              unfold GenSucceeds at hsuc
              rw [hsuc] at hf
              exact hf rfl))
      · subst h1
        exact consistent_move sbom report emits u.ID s j g (PC.generated sb) _ _ _ _ hW
          (fun e => e) (fun e => e)
          (fun e => by
            have hsuc := GenSucceeds_of_GenerateSBOM _ _ _ _ _ hgen
            rw [himg g hmem e] at hsuc
            have h0 := hg s.ctxDone
            unfold GenSucceeds at hsuc h0
            exact congrArg Prod.fst (hsuc.symm.trans h0))
      · subst h1
        exact hW
      · subst h1
        exact consistent_move sbom report emits u.ID s j g (PC.storing sb) _ _ _ _ hW
          (fun e => e) (fun e => e)
          (fun e => by
            have h0 := hW g hmem e
            rw [hpc] at h0
            exact h0)
      · subst h1
        refine consistent_move sbom report emits u.ID s j g PC.stored _ _ _ _ hW
          (fun e => ?_) (fun e => e) (fun e => ?_)
        · show (s.sbomResults.set g.containerID sb).get? u.ID = some sbom
          by_cases hk : g.containerID = u.ID
          · have h0 := hW g hmem hk
            rw [hpc] at h0
            rw [hk, GoMap.get?_set_self, h0]
          · rw [GoMap.get?_set_other _ _ (fun e1 => hk e1.symm)]
            exact e
        · have h0 := hW g hmem e
          rw [hpc] at h0
          show (s.sbomResults.set g.containerID sb).get? u.ID = some sbom
          rw [e, GoMap.get?_set_self, h0]
      · subst h1
        exact consistent_move sbom report emits u.ID s j g PC.returning _ _ _ _ hW
          (fun e => e) (fun e => e)
          (fun e => absurd (hs s.ctxDone)
            (by
              have hf := ScanFails_of_ScanForCVEs _ _ _ _ _ _ hscan
              rw [himg g hmem e] at hf
              intro hsuc
              unfold ScanFails at hf
              unfold ScanSucceeds at hsuc
              rw [hsuc] at hf
              exact hf rfl))
      · subst h1
        exact consistent_move sbom report emits u.ID s j g (PC.scanned r) _ _ _ _ hW
          (fun e => e) (fun e => e)
          (fun e => by
            have h0 := hW g hmem e
            rw [hpc] at h0
            have hsuc := ScanSucceeds_of_ScanForCVEs _ _ _ _ _ hscan
            rw [himg g hmem e] at hsuc
            have h1 := hs s.ctxDone
            unfold ScanSucceeds at hsuc h1
            exact ⟨h0, congrArg Prod.fst (hsuc.symm.trans h1)⟩)
      · subst h1
        exact hW
      · subst h1
        exact consistent_move sbom report emits u.ID s j g PC.returning _ _ _ _ hW
          (fun e => e) (fun e => e)
          (fun e => by
            have h0 := hW g hmem e
            rw [hpc] at h0
            obtain ⟨l1, w2, h2⟩ := parseCVEs_of_succeeds _ report (hp s.ctxDone) s.world
            rw [h0.2, h2] at hp1
            simp at hp1)
      · subst h1
        exact consistent_move sbom report emits u.ID s j g (PC.parsed l) _ _ _ _ hW
          (fun e => e) (fun e => e)
          (fun e => by
            have h0 := hW g hmem e
            rw [hpc] at h0
            rw [h0.2] at hp1
            exact ⟨h0.1, hemits _ _ _ _ hp1⟩)
      · subst h1
        exact hW
      · subst h1
        exact consistent_move sbom report emits u.ID s j g (PC.recording l) _ _ _ _ hW
          (fun e => e) (fun e => e)
          (fun e => by
            have h0 := hW g hmem e
            rw [hpc] at h0
            exact h0)
      · subst h1
        refine consistent_move sbom report emits u.ID s j g PC.returning _ _ _ _ hW
          (fun e => e) (fun e => ?_) (fun e => ?_)
        · show ∃ l1, emits l1 ∧ (s.cveResults.set g.containerID l).get? u.ID = some l1
          by_cases hk : g.containerID = u.ID
          · have h0 := hW g hmem hk
            rw [hpc] at h0
            exact ⟨l, h0.2, by rw [hk, GoMap.get?_set_self]⟩
          · rw [GoMap.get?_set_other _ _ (fun e1 => hk e1.symm)]
            exact e
        · have h0 := hW g hmem e
          rw [hpc] at h0
          refine ⟨h0.1, l, h0.2, ?_⟩
          show (s.cveResults.set g.containerID l).get? u.ID = some l
          rw [e, GoMap.get?_set_self]
      · subst h1
        exact consistent_move sbom report emits u.ID s j g PC.finished _ _ _ _ hW
          (fun e => e) (fun e => e)
          (fun e => by
            have h0 := hW g hmem e
            rw [hpc] at h0
            exact h0)

/-- For a listing of well-formed units with pairwise distinct IDs and a unit of it
whose generation, scan and parse succeed: whatever the other units do and whatever
the interleaving is, every result the run returns holds the generator output under
the ID of the unit in the SBOM map and a list the parser emitted for the report of
the unit in the findings map. -/
theorem exec_entries_of_succeeding_unit (x : CtxEnv) (w : World) (units : List WorkloadUnit)
    (u : WorkloadUnit) (sbom report : String) (sched : List Action)
    (hwf : ∀ v ∈ units, v.WellFormed) (hid : (units.map WorkloadUnit.ID).Nodup)
    (hu : u ∈ units)
    (hg : ∀ b, GenSucceeds (x.toEnv b) u.ImageRef sbom)
    (hs : ∀ b, ScanSucceeds (x.toEnv b) u.ImageRef report)
    (hp : ∀ b, ParseSucceeds (x.toEnv b) report) :
    ∀ res, (exec x (Sys.init (units.map WorkloadUnit.line) w) sched).result = some res →
      ∃ sbomMap cveMap, res = RunResult.mk (some sbomMap) (some cveMap) none ∧
        sbomMap.get? u.ID = some sbom ∧
        ∃ l, (∃ b, ParserEmits (x.toEnv b) report l) ∧ cveMap.get? u.ID = some l := by
  intro res hres
  have hinv := exec_invariant x
    (fun s => (∃ done, units.map WorkloadUnit.line = done ++ s.pending ∧
        s.goroutines.map Goroutine.unit = done.map unitOfLine) ∧
      ∀ g ∈ s.goroutines, g.containerID = u.ID →
        g.pc.consistentWith sbom report (fun l => ∃ b, ParserEmits (x.toEnv b) report l)
          (s.sbomResults.get? u.ID) (s.cveResults.get? u.ID))
    (fun s s1 a hP hstep =>
      ⟨step_keeps_dispatched x _ s s1 a hP.1 hstep,
        step_keeps_consistent x u sbom report _ (fun b w0 l w1 h0 => ⟨b, w0, w1, h0⟩) hg hs hp
          s s1 a (goroutine_of_dispatched units hwf hid s hP.1 u hu) hP.2 hstep⟩)
    (Sys.init (units.map WorkloadUnit.line) w)
    ⟨⟨[], rfl, rfl⟩, by intro g hg1; cases hg1⟩ sched
  obtain ⟨⟨done, d1, d2⟩, hW⟩ := hinv
  obtain ⟨_, hpend, hfin, e⟩ := result_some _ res hres
  rw [hpend, List.append_nil] at d1
  have hunits : (units.map WorkloadUnit.line).map unitOfLine = units := by
    rw [List.map_map]
    conv_rhs => rw [← List.map_id units]
    apply List.map_congr_left
    intro v hv
    exact unitOfLine_line v (hwf v hv)
  have hmem : u ∈ (exec x (Sys.init (units.map WorkloadUnit.line) w) sched).goroutines.map
      Goroutine.unit := by
    rw [d2, ← d1, hunits]
    exact hu
  obtain ⟨g, hg1, eg⟩ := List.mem_map.mp hmem
  have hk : g.containerID = u.ID := congrArg WorkloadUnit.ID eg
  have hc := hW g hg1 hk
  rw [hfin g hg1] at hc
  exact ⟨_, _, e, hc.1, hc.2⟩

/-! ## What a unit whose scan fails leaves in the maps, in every interleaving -/

theorem failedScan_mono (sbom : String) (e1 e1a : Option String) (pc : PC)
    (h1 : e1 = some sbom → e1a = some sbom) (h : pc.consistentWithFailedScan sbom e1) :
    pc.consistentWithFailedScan sbom e1a := by
  cases pc with
  | waiting => trivial
  | acquired => trivial
  | generated sb => exact h
  | storing sb => exact h
  | stored => exact h1 h
  | scanned r => exact h
  | parsed l => exact h
  | recording l => exact h
  | returning => exact h1 h
  | finished => exact h1 h

theorem failedScan_move (sbom k : String) (s : Sys) (i : Nat) (g : Goroutine) (pc : PC)
    (e1 e1a : Option String)
    (hold : ∀ h ∈ s.goroutines, h.containerID = k → h.pc.consistentWithFailedScan sbom e1)
    (h1 : e1 = some sbom → e1a = some sbom)
    (hnew : g.containerID = k → pc.consistentWithFailedScan sbom e1a) :
    ∀ h ∈ (s.move i g pc).goroutines, h.containerID = k →
      h.pc.consistentWithFailedScan sbom e1a := by
  intro h hh hk
  rcases List.mem_or_eq_of_mem_set hh with hm | e
  · exact failedScan_mono sbom e1 e1a h.pc h1 (hold h hm hk)
  · subst e
    exact hnew hk

/-- One step keeps, for a unit whose generation succeeds and whose scan fails, the
findings map without an entry for the unit and what the program points of its
goroutines say of the SBOM map. -/
theorem step_keeps_failedScan (x : CtxEnv) (u : WorkloadUnit) (sbom : String)
    (hg : ∀ b, GenSucceeds (x.toEnv b) u.ImageRef sbom)
    (hs : ∀ b, ScanFails (x.toEnv b) u.ImageRef)
    (s s1 : Sys) (a : Action)
    (himg : ∀ g ∈ s.goroutines, g.containerID = u.ID → g.imageName = u.ImageRef)
    (hI : s.cveResults.get? u.ID = none ∧
      ∀ g ∈ s.goroutines, g.containerID = u.ID →
        g.pc.consistentWithFailedScan sbom (s.sbomResults.get? u.ID))
    (h : step x s a = some s1) :
    s1.cveResults.get? u.ID = none ∧
      ∀ g ∈ s1.goroutines, g.containerID = u.ID →
        g.pc.consistentWithFailedScan sbom (s1.sbomResults.get? u.ID) := by
  obtain ⟨hnone, hW⟩ := hI
  unfold step at h
  split at h
  · cases h
  · cases a with
    | cancel =>
      simp only [Option.some.injEq] at h
      subst h
      exact ⟨hnone, hW⟩
    | dispatch =>
      rcases stepDispatch_cases s s1 h with h1 | ⟨line, rest, id, image, _, _, _, h1⟩
      · subst h1
        exact ⟨hnone, hW⟩
      · subst h1
        refine ⟨hnone, ?_⟩
        intro g hg1 hk
        rcases List.mem_append.mp hg1 with hm | hm
        · exact hW g hm hk
        · simp only [List.mem_singleton] at hm
          subst hm
          trivial
    | run j =>
      obtain ⟨g, hgj, hcases⟩ := stepGoroutine_cases x s s1 j h
      have hmem : g ∈ s.goroutines := List.get?_mem hgj
      rcases hcases with
        ⟨hpc, hsem, h1⟩ |
        ⟨hpc, o, e, w1, hgen, h1⟩ |
        ⟨hpc, sb, w1, hgen, h1⟩ |
        ⟨_, _, h1⟩ |
        ⟨sb, hpc, hw, h1⟩ |
        ⟨sb, hpc, h1⟩ |
        ⟨hpc, o, e, w1, hscan, h1⟩ |
        ⟨hpc, r, w1, hscan, h1⟩ |
        ⟨r, hpc, hp1, h1⟩ |
        ⟨r, hpc, l, e, w1, hp1, h1⟩ |
        ⟨r, hpc, l, w1, hp1, h1⟩ |
        ⟨_, _, h1⟩ |
        ⟨l, hpc, hw, h1⟩ |
        ⟨l, hpc, h1⟩ |
        ⟨hpc, hsem, h1⟩
      · subst h1
        exact ⟨hnone, failedScan_move sbom u.ID s j g PC.acquired _ _ hW (fun e => e)
          (fun _ => trivial)⟩
      · subst h1
        exact ⟨hnone, failedScan_move sbom u.ID s j g PC.returning _ _ hW (fun e => e)
          (fun e => absurd (hg s.ctxDone)
            (by
              have hf := GenFails_of_GenerateSBOM _ _ _ _ _ _ hgen
              rw [himg g hmem e] at hf
              intro hsuc
              unfold GenFails at hf
              unfold GenSucceeds at hsuc
              rw [hsuc] at hf
              exact hf rfl))⟩
      · subst h1
        exact ⟨hnone, failedScan_move sbom u.ID s j g (PC.generated sb) _ _ hW (fun e => e)
          (fun e => by
            have hsuc := GenSucceeds_of_GenerateSBOM _ _ _ _ _ hgen
            rw [himg g hmem e] at hsuc
            have h0 := hg s.ctxDone
            unfold GenSucceeds at hsuc h0
            exact congrArg Prod.fst (hsuc.symm.trans h0))⟩
      · subst h1
        exact ⟨hnone, hW⟩
      · subst h1
        exact ⟨hnone, failedScan_move sbom u.ID s j g (PC.storing sb) _ _ hW (fun e => e)
          (fun e => by
            have h0 := hW g hmem e
            rw [hpc] at h0
            exact h0)⟩
      · subst h1
        refine ⟨hnone, failedScan_move sbom u.ID s j g PC.stored _ _ hW
          (fun e => ?_) (fun e => ?_)⟩
        · show (s.sbomResults.set g.containerID sb).get? u.ID = some sbom
          by_cases hk : g.containerID = u.ID
          · have h0 := hW g hmem hk
            rw [hpc] at h0
            rw [hk, GoMap.get?_set_self, h0]
          · rw [GoMap.get?_set_other _ _ (fun e1 => hk e1.symm)]
            exact e
        · have h0 := hW g hmem e
          rw [hpc] at h0
          show (s.sbomResults.set g.containerID sb).get? u.ID = some sbom
          rw [e, GoMap.get?_set_self, h0]
      · subst h1
        exact ⟨hnone, failedScan_move sbom u.ID s j g PC.returning _ _ hW (fun e => e)
          (fun e => by
            have h0 := hW g hmem e
            rw [hpc] at h0
            exact h0)⟩
      · subst h1
        exact ⟨hnone, failedScan_move sbom u.ID s j g (PC.scanned r) _ _ hW (fun e => e)
          (fun e => absurd (hs s.ctxDone)
            (by
              have hsuc := ScanSucceeds_of_ScanForCVEs _ _ _ _ _ hscan
              rw [himg g hmem e] at hsuc
              intro hf
              unfold ScanFails at hf
              unfold ScanSucceeds at hsuc
              rw [hsuc] at hf
              exact hf rfl))⟩
      · subst h1
        exact ⟨hnone, hW⟩
      · subst h1
        exact ⟨hnone, failedScan_move sbom u.ID s j g PC.returning _ _ hW (fun e => e)
          (fun e => by
            have h0 := hW g hmem e
            rw [hpc] at h0
            exact h0.elim)⟩
      · subst h1
        exact ⟨hnone, failedScan_move sbom u.ID s j g (PC.parsed l) _ _ hW (fun e => e)
          (fun e => by
            have h0 := hW g hmem e
            rw [hpc] at h0
            exact h0.elim)⟩
      · subst h1
        exact ⟨hnone, hW⟩
      · subst h1
        exact ⟨hnone, failedScan_move sbom u.ID s j g (PC.recording l) _ _ hW (fun e => e)
          (fun e => by
            have h0 := hW g hmem e
            rw [hpc] at h0
            exact h0.elim)⟩
      · subst h1
        have hk : g.containerID ≠ u.ID := by
          intro e
          have h0 := hW g hmem e
          rw [hpc] at h0
          exact h0
        refine ⟨?_, failedScan_move sbom u.ID s j g PC.returning _ _ hW (fun e => e)
          (fun e => absurd e hk)⟩
        show (s.cveResults.set g.containerID l).get? u.ID = none
        rw [GoMap.get?_set_other _ _ (fun e1 => hk e1.symm)]
        exact hnone
      · subst h1
        exact ⟨hnone, failedScan_move sbom u.ID s j g PC.finished _ _ hW (fun e => e)
          (fun e => by
            have h0 := hW g hmem e
            rw [hpc] at h0
            exact h0)⟩

/-- For a listing of well-formed units with pairwise distinct IDs and a unit of it
whose generation succeeds and whose scan fails: whatever the other units do and
whatever the interleaving is, every result the run returns has a nil error, the
generator output under the ID of the unit in the SBOM map, and no entry for the
unit in the findings map. -/
theorem exec_entries_of_unit_with_failed_scan (x : CtxEnv) (w : World)
    (units : List WorkloadUnit) (u : WorkloadUnit) (sbom : String) (sched : List Action)
    (hwf : ∀ v ∈ units, v.WellFormed) (hid : (units.map WorkloadUnit.ID).Nodup)
    (hu : u ∈ units)
    (hg : ∀ b, GenSucceeds (x.toEnv b) u.ImageRef sbom)
    (hs : ∀ b, ScanFails (x.toEnv b) u.ImageRef) :
    ∀ res, (exec x (Sys.init (units.map WorkloadUnit.line) w) sched).result = some res →
      ∃ sbomMap cveMap, res = RunResult.mk (some sbomMap) (some cveMap) none ∧
        sbomMap.get? u.ID = some sbom ∧ cveMap.get? u.ID = none := by
  intro res hres
  have hinv := exec_invariant x
    (fun s => (∃ done, units.map WorkloadUnit.line = done ++ s.pending ∧
        s.goroutines.map Goroutine.unit = done.map unitOfLine) ∧
      s.cveResults.get? u.ID = none ∧
      ∀ g ∈ s.goroutines, g.containerID = u.ID →
        g.pc.consistentWithFailedScan sbom (s.sbomResults.get? u.ID))
    (fun s s1 a hP hstep =>
      ⟨step_keeps_dispatched x _ s s1 a hP.1 hstep,
        step_keeps_failedScan x u sbom hg hs s s1 a
          (goroutine_of_dispatched units hwf hid s hP.1 u hu) hP.2 hstep⟩)
    (Sys.init (units.map WorkloadUnit.line) w)
    ⟨⟨[], rfl, rfl⟩, rfl, by intro g hg1; cases hg1⟩ sched
  obtain ⟨⟨done, d1, d2⟩, hnone, hW⟩ := hinv
  obtain ⟨_, hpend, hfin, e⟩ := result_some _ res hres
  rw [hpend, List.append_nil] at d1
  have hunits : (units.map WorkloadUnit.line).map unitOfLine = units := by
    rw [List.map_map]
    conv_rhs => rw [← List.map_id units]
    apply List.map_congr_left
    intro v hv
    exact unitOfLine_line v (hwf v hv)
  have hmem : u ∈ (exec x (Sys.init (units.map WorkloadUnit.line) w) sched).goroutines.map
      Goroutine.unit := by
    rw [d2, ← d1, hunits]
    exact hu
  obtain ⟨g, hg1, eg⟩ := List.mem_map.mp hmem
  have hk : g.containerID = u.ID := congrArg WorkloadUnit.ID eg
  have hc := hW g hg1 hk
  rw [hfin g hg1] at hc
  exact ⟨_, _, e, hc, hnone⟩

/-! ## The pipelines one after the other -/

theorem set_append_length (l : List Goroutine) (a b : Goroutine) :
    (l ++ [a]).set l.length b = l ++ [b] := by
  induction l with
  | nil => rfl
  | cons c l ih =>
    simp only [List.cons_append, List.length_cons, List.set_cons_succ, ih]

theorem toEnv_ignoringCtx (env : Env) (b : Bool) : env.ignoringCtx.toEnv b = env := rfl

theorem wholePipeline_eq (i : Nat) :
    wholePipeline i =
      [Action.run i, Action.run i, Action.run i, Action.run i, Action.run i,
       Action.run i, Action.run i, Action.run i, Action.run i, Action.run i] := rfl

/-- One turn of the sequential schedule when the pipeline returns: the line is
dispatched and its goroutine runs to its end, with the effect of `processContainer`
on the maps and the trace. -/
theorem exec_dispatch_wholePipeline (env : Env) (gs : List Goroutine) (line : String)
    (rest : List String) (sb : GoMap String) (cv : GoMap (List CVEInfo)) (w : World)
    (id image : String) (st1 : RunState) (hi0 : index (Split line " ") 0 = .done id)
    (hi1 : index (Split line " ") 1 = .done image)
    (hpc : processContainer env id image { sbomResults := sb, cveResults := cv, world := w } =
      .done st1) :
    exec env.ignoringCtx
        { pending := line :: rest, goroutines := gs, sem := 0, sbomResults := sb,
          cveResults := cv, sbomWriting := false, cveWriting := false, world := w,
          ctxDone := false, crashed := false }
        (Action.dispatch :: wholePipeline gs.length) =
      { pending := rest, goroutines := gs ++ [Goroutine.mk id image .finished], sem := 0,
        sbomResults := st1.sbomResults, cveResults := st1.cveResults,
        sbomWriting := false, cveWriting := false, world := st1.world,
        ctxDone := false, crashed := false } := by
  rw [wholePipeline_eq]
  rcases hgen : GenerateSBOM env w image with ⟨⟨sbom, _ | e⟩, w1⟩
  · rcases hscan : ScanForCVEs env w1 image with ⟨⟨report, _ | e⟩, w2⟩
    · rcases hparse : parseCVEs env w2 report [] with ⟨⟨l, _ | e⟩, w3⟩ | msg
      · simp only [processContainer, hgen, hscan, hparse, Ret.done.injEq] at hpc
        subst hpc
        simp [exec, step, stepDispatch, hi0, hi1, stepGoroutine, get?_append_length,
          set_append_length, Sys.move, maxConcurrency, toEnv_ignoringCtx, hgen, hscan, hparse]
      · simp only [processContainer, hgen, hscan, hparse, Ret.done.injEq] at hpc
        subst hpc
        simp [exec, step, stepDispatch, hi0, hi1, stepGoroutine, get?_append_length,
          set_append_length, Sys.move, maxConcurrency, toEnv_ignoringCtx, hgen, hscan, hparse]
      · simp [processContainer, hgen, hscan, hparse] at hpc
    · simp only [processContainer, hgen, hscan, Ret.done.injEq] at hpc
      subst hpc
      simp [exec, step, stepDispatch, hi0, hi1, stepGoroutine, get?_append_length,
        set_append_length, Sys.move, maxConcurrency, toEnv_ignoringCtx, hgen, hscan]
  · simp only [processContainer, hgen, Ret.done.injEq] at hpc
    subst hpc
    simp [exec, step, stepDispatch, hi0, hi1, stepGoroutine, get?_append_length,
      set_append_length, Sys.move, maxConcurrency, toEnv_ignoringCtx, hgen]

/-- One turn of the sequential schedule when the pipeline panics: the process
dies. -/
theorem exec_dispatch_wholePipeline_panic (env : Env) (gs : List Goroutine) (line : String)
    (rest : List String) (sb : GoMap String) (cv : GoMap (List CVEInfo)) (w : World)
    (id image msg : String) (hi0 : index (Split line " ") 0 = .done id)
    (hi1 : index (Split line " ") 1 = .done image)
    (hpc : processContainer env id image { sbomResults := sb, cveResults := cv, world := w } =
      .panic msg) :
    (exec env.ignoringCtx
        { pending := line :: rest, goroutines := gs, sem := 0, sbomResults := sb,
          cveResults := cv, sbomWriting := false, cveWriting := false, world := w,
          ctxDone := false, crashed := false }
        (Action.dispatch :: wholePipeline gs.length)).crashed = true := by
  rw [wholePipeline_eq]
  rcases hgen : GenerateSBOM env w image with ⟨⟨sbom, _ | e⟩, w1⟩
  · rcases hscan : ScanForCVEs env w1 image with ⟨⟨report, _ | e⟩, w2⟩
    · rcases hparse : parseCVEs env w2 report [] with ⟨⟨l, _ | e⟩, w3⟩ | msg1
      · simp [processContainer, hgen, hscan, hparse] at hpc
      · simp [processContainer, hgen, hscan, hparse] at hpc
      · simp [exec, step, stepDispatch, hi0, hi1, stepGoroutine, get?_append_length,
          set_append_length, Sys.move, maxConcurrency, toEnv_ignoringCtx, hgen, hscan, hparse]
    · simp [processContainer, hgen, hscan] at hpc
  · simp [processContainer, hgen] at hpc

/-- One turn of the sequential schedule on a line of fewer than two tokens: the
loop panics and the process dies. -/
theorem exec_dispatch_short_line (x : CtxEnv) (s : Sys) (line : String) (rest : List String)
    (sched : List Action) (hp : s.pending = line :: rest) (hcr : s.crashed = false)
    (h : (∃ msg, index (Split line " ") 0 = .panic msg) ∨
      (∃ msg, index (Split line " ") 1 = .panic msg)) :
    (exec x s (Action.dispatch :: sched)).crashed = true := by
  have hstep : step x s Action.dispatch = some { s with crashed := true } := by
    rcases h with ⟨msg, h0⟩ | ⟨msg, h1⟩
    · simp [step, hcr, stepDispatch, hp, h0]
    · rcases h0 : index (Split line " ") 0 with id | msg0
      · simp [step, hcr, stepDispatch, hp, h0, h1]
      · simp [step, hcr, stepDispatch, hp, h0]
  simp only [exec, hstep]
  rw [exec_of_crashed _ _ _ rfl]

/-- The sequential loop `processLines` is the interleaving `sequentialSchedule`:
from a state in which every goroutine started so far has finished, the schedule
that dispatches each pending line and runs its goroutine to the end leads to the
result the loop returns with the same trace, and to the death of the process when
the loop panics. -/
theorem exec_sequentialSchedule (env : Env) (lines : List String) (gs : List Goroutine)
    (sb : GoMap String) (cv : GoMap (List CVEInfo)) (w : World)
    (hfin : ∀ g ∈ gs, g.pc = .finished) :
    match processLines env lines { sbomResults := sb, cveResults := cv, world := w } with
    | .panic _ =>
      (exec env.ignoringCtx
        { pending := lines, goroutines := gs, sem := 0, sbomResults := sb,
          cveResults := cv, sbomWriting := false, cveWriting := false, world := w,
          ctxDone := false, crashed := false }
        (sequentialSchedule gs.length lines.length)).crashed = true
    | .done st =>
      (exec env.ignoringCtx
        { pending := lines, goroutines := gs, sem := 0, sbomResults := sb,
          cveResults := cv, sbomWriting := false, cveWriting := false, world := w,
          ctxDone := false, crashed := false }
        (sequentialSchedule gs.length lines.length)).result =
        some { sbomResults := some st.sbomResults, cveResults := some st.cveResults,
               err := none } ∧
      (exec env.ignoringCtx
        { pending := lines, goroutines := gs, sem := 0, sbomResults := sb,
          cveResults := cv, sbomWriting := false, cveWriting := false, world := w,
          ctxDone := false, crashed := false }
        (sequentialSchedule gs.length lines.length)).world = st.world := by
  induction lines generalizing gs sb cv w with
  | nil =>
    simp only [processLines, sequentialSchedule, List.length_nil, exec]
    refine ⟨?_, trivial⟩
    have hall : gs.all (fun g => g.pc == .finished) = true :=
      List.all_eq_true.mpr (fun g hg => by simp [hfin g hg])
    simp [Sys.result, hall]
  | cons line rest ih =>
    rcases hi0 : index (Split line " ") 0 with id | msg
    · rcases hi1 : index (Split line " ") 1 with image | msg
      · rcases hpc : processContainer env id image
            { sbomResults := sb, cveResults := cv, world := w } with st1 | msg
        · have hturn := exec_dispatch_wholePipeline env gs line rest sb cv w id image st1
            hi0 hi1 hpc
          have hsplit : sequentialSchedule gs.length (line :: rest).length =
              (Action.dispatch :: wholePipeline gs.length) ++
                sequentialSchedule (gs ++ [Goroutine.mk id image .finished]).length
                  rest.length := by
            simp [sequentialSchedule]
          have hrest := ih (gs ++ [Goroutine.mk id image .finished]) st1.sbomResults
            st1.cveResults st1.world (by
              intro g hg
              rcases List.mem_append.mp hg with hm | hm
              · exact hfin g hm
              · simp only [List.mem_singleton] at hm
                rw [hm])
          simp only [processLines, hi0, hi1, hpc]
          rw [hsplit, exec_append, hturn]
          exact hrest
        · have hturn := exec_dispatch_wholePipeline_panic env gs line rest sb cv w id image
            msg hi0 hi1 hpc
          have hsplit : sequentialSchedule gs.length (line :: rest).length =
              (Action.dispatch :: wholePipeline gs.length) ++
                sequentialSchedule (gs.length + 1) rest.length := by
            simp [sequentialSchedule]
          simp only [processLines, hi0, hi1, hpc]
          rw [hsplit, exec_append, exec_of_crashed _ _ _ hturn]
          exact hturn
      · simp only [processLines, hi0, hi1]
        exact exec_dispatch_short_line _ _ line rest _ rfl rfl (Or.inr ⟨msg, hi1⟩)
    · simp only [processLines, hi0]
      exact exec_dispatch_short_line _ _ line rest _ rfl rfl (Or.inl ⟨msg, hi0⟩)

/-- The method `GenerateSBOMAndScanForCVEs` as defined above is the run under the
sequential schedule of its goroutines: it returns the listing error when the
listing fails, panics when that schedule ends in the death of the process, and
otherwise returns what `wg.Wait()` lets the run return under that schedule, with
the same trace. -/
theorem run_eq_runUnder_listingSchedule (env : Env) (w : World) :
    match GenerateSBOMAndScanForCVEs env w with
    | .panic _ =>
      ∃ s, runUnder env.ignoringCtx w (listingSchedule env w) = some s ∧ s.crashed = true
    | .done (res, w1) =>
      (res.err ≠ none ∧ runUnder env.ignoringCtx w (listingSchedule env w) = none) ∨
      ∃ s, runUnder env.ignoringCtx w (listingSchedule env w) = some s ∧
        s.result = some res ∧ s.world = w1 := by
  unfold GenerateSBOMAndScanForCVEs runUnder listingSchedule
  rw [toEnv_ignoringCtx]
  rcases hl : ListRunningContainers env w with ⟨⟨containers, _ | err⟩, w1⟩
  · have hseq := exec_sequentialSchedule env (containers.getD []) [] [] [] w1
      (by intro g hg; cases hg)
    simp only
    rcases hpl : processLines env (containers.getD [])
        { sbomResults := [], cveResults := [], world := w1 } with st | msg
    · rw [hpl] at hseq
      exact Or.inr ⟨_, rfl, hseq.1, hseq.2⟩
    · rw [hpl] at hseq
      exact ⟨_, rfl, hseq⟩
  · exact Or.inl ⟨by simp, rfl⟩

end Chickadee
